import Mathlib

/-!
# OpenGL32 rendering-context registry (`lib/opengl32/wgl.c`)

A shallow embedding of the `wglXXX` entry points of ReactOS' `opengl32`
and of the three list helpers they are built on.

* Pointers are natural numbers, `0` is `NULL`.
* The process heap holding the `GLRC` records is a finite association list
  from addresses to records; the registry is the singly linked list that
  starts at `OPENGL32_processdata.glrc_list` and is threaded through the
  `next` fields of the records.
* A result of `none` stands for a call that does not return: a `NULL` or
  dangling pointer is dereferenced, or a list walk never ends.  A walk gets
  one iteration more than there are heap cells; a walk that needs more has
  visited some cell twice and is caught in a cycle.
* The ICDs, the registry key that enumerates them, GDI and the allocator are
  outside of `wgl.c`; what they answer is read from an `Env`.  The calls made
  to the ICD loader and to ICD entry points are logged in `Out.calls`.
-/

namespace OpenGL32

/-- An address; `0` is `NULL`. -/
abbrev Ptr := Nat

/-- Modelled from the spec: the `GLRC` record is declared in `opengl32.h`,
which is not part of the sources at hand.  The fields are the ones `wgl.c`
reads or writes: the ICD's own context handle, the pixel format, the owning
ICD, the DC, the current flag, the owning thread, the copied function table
and the link to the next record of the registry. -/
structure GLRC where
  hglrc : Nat
  iFormat : Int
  icd : Ptr
  hdc : Nat
  is_current : Bool
  thread_id : Nat
  func_list : List Nat
  next : Ptr
deriving DecidableEq, Repr

/-- A record as `HeapAlloc (HEAP_ZERO_MEMORY)` hands it out, with a function
table of `n` entries. -/
def GLRC.zero (n : Nat) : GLRC :=
  { hglrc := 0, iFormat := 0, icd := 0, hdc := 0, is_current := false,
    thread_id := 0, func_list := List.replicate n 0, next := 0 }

/-- The allocated `GLRC` cells. -/
abbrev Heap := List (Ptr × GLRC)

/-- The record stored at address `p`, if `p` is allocated. -/
def Heap.read : Heap → Ptr → Option GLRC
  | [], _ => none
  | e :: h, p => if e.1 = p then some e.2 else Heap.read h p

/-- Overwrite the record at address `p` by its image under `f`. -/
def Heap.modify (h : Heap) (p : Ptr) (f : GLRC → GLRC) : Heap :=
  h.map (fun e => if e.1 = p then (e.1, f e.2) else e)

/-- Release the cell at address `p` (`HeapFree`). -/
def Heap.free (h : Heap) (p : Ptr) : Heap :=
  h.filter (fun e => decide (e.1 ≠ p))

/-- Reading through the pointer `p` into the heap `h`: `NULL` and addresses
that are not allocated cannot be read. -/
def Heap.deref (h : Heap) (p : Ptr) : Option GLRC :=
  if p = 0 then none else h.read p

/-- The state `wgl.c` works on: the heap cells, the list head
`OPENGL32_processdata.glrc_list` and, per thread id, the thread-local
`OPENGL32_threaddata->glrc`. -/
structure State where
  heap : Heap
  glrc_list : Ptr
  threaddata : Nat → Ptr

/-- No context was created and no thread has a current context. -/
def State.init : State :=
  { heap := [], glrc_list := 0, threaddata := fun _ => 0 }

/-- Reading through the pointer `p`. -/
def State.deref (s : State) (p : Ptr) : Option GLRC :=
  s.heap.deref p

/-- Writing through the pointer `p`: the record at `p` is replaced by its
image under `f`. -/
def State.store (s : State) (p : Ptr) (f : GLRC → GLRC) : Option State :=
  match s.deref p with
  | none => none
  | some _ => some { s with heap := s.heap.modify p f }

/-- The iterations a list walk may take before it is known to cycle. -/
def State.fuel (s : State) : Nat := s.heap.length + 1

/-- Calls that leave `wgl.c` towards the ICD loader or an ICD. -/
inductive DrvCall where
  | LoadICD (driver : String)
  | UnloadICD (icd : Ptr)
  | DrvCreateContext (icd : Ptr) (hdc : Nat)
  | DrvCreateLayerContext (icd : Ptr) (hdc : Nat) (layer : Int)
  | DrvDeleteContext (icd : Ptr) (hglrc : Nat)
  | DrvSetContext (icd : Ptr) (hdc : Nat) (hglrc : Nat)
  | DrvCopyContext (icd : Ptr) (hsrc : Nat) (hdst : Nat) (mask : Nat)
  | DrvShareLists (icd : Ptr) (hglrc1 : Nat) (hglrc2 : Nat)
  | DrvSwapBuffers (icd : Ptr) (hdc : Nat)
  | DrvGetProcAddress (icd : Ptr) (proc : List Char)
deriving DecidableEq, Repr

/-- What the world outside of `wgl.c` answers during one call.

* `isDC hdc`: `GetObjectType (hdc) == OBJ_DC`.
* `RegOpenKeyExW`: whether the `OpenGLDrivers` key can be opened.
* `RegEnumKeyExW`: the subkey names of that key in enumeration order;
  `RegEnumKeyExW (hKey, dw, ..)` succeeds exactly for `dw` below its length.
* `OPENGL32_LoadICD name`: the loaded `GLDRIVERDATA`, `0` when loading fails.
* `HeapAlloc`: the address the allocator returns for the new `GLRC`.
* `GLIDX_COUNT`, `icd_func_list`: the size of the function tables and the
  table of an ICD.
* `Drv...`: the result of the entry point of the given ICD. -/
structure Env where
  isDC : Nat → Bool
  RegOpenKeyExW : Bool
  RegEnumKeyExW : List String
  OPENGL32_LoadICD : String → Ptr
  HeapAlloc : Ptr
  GLIDX_COUNT : Nat
  icd_func_list : Ptr → List Nat
  DrvCreateContext : Ptr → Nat → Nat
  DrvCreateLayerContext : Ptr → Nat → Int → Nat
  DrvDeleteContext : Ptr → Nat → Bool
  DrvSetContext : Ptr → Nat → Nat → Bool
  DrvCopyContext : Ptr → Nat → Nat → Nat → Bool
  DrvShareLists : Ptr → Nat → Nat → Bool
  DrvSwapBuffers : Ptr → Nat → Bool
  DrvGetProcAddress : Ptr → List Char → Nat

/-- The allocator contract: the address returned by `HeapAlloc`, when it is
not `NULL`, is not in use. -/
def Env.allocOK (env : Env) (s : State) : Prop :=
  env.HeapAlloc ≠ 0 → s.heap.read env.HeapAlloc = none

instance (env : Env) (s : State) : Decidable (env.allocOK s) := by
  unfold Env.allocOK; infer_instance

/-- What a call leaves behind: the returned value, the state and the calls
made to the loader and the ICDs, in order. -/
structure Out (α : Type) where
  ret : α
  state : State
  calls : List DrvCall

/-! ## The list helpers -/

/-- The `else` branch of `WGL_AppendContext`: starting at `p`, follow `next`
until the record whose `next` is `NULL`; the address of that record. -/
def appendLoop (s : State) : Nat → Ptr → Option Ptr
  | 0, _ => none
  | n + 1, p =>
    match s.deref p with
    | none => none
    | some g => if g.next = 0 then some p else appendLoop s n g.next

/-- The function `WGL_AppendContext (glrc)`. -/
def WGL_AppendContext (s : State) (glrc : Ptr) : Option State :=
  if s.glrc_list = 0 then
    some { s with glrc_list := glrc }
  else
    match appendLoop s s.fuel s.glrc_list with
    | none => none
    | some p => s.store p (fun g => { g with next := glrc })

/-- The `while (p != NULL)` loop of `WGL_RemoveContext`. -/
def removeLoop (s : State) (glrc : Ptr) : Nat → Ptr → Option State
  | 0, _ => none
  | n + 1, p =>
    if p = 0 then
      some s
    else
      match s.deref p with
      | none => none
      | some g =>
        if g.next = glrc then
          match s.deref glrc with
          | none => none
          | some r => s.store p (fun g => { g with next := r.next })
        else removeLoop s glrc n g.next

/-- The function `WGL_RemoveContext (glrc)`. -/
def WGL_RemoveContext (s : State) (glrc : Ptr) : Option State :=
  if glrc = s.glrc_list then
    match s.deref glrc with
    | none => none
    | some r => some { s with glrc_list := r.next }
  else
    removeLoop s glrc s.fuel s.glrc_list

/-- The `while (p != NULL)` loop of `WGL_ContainsContext`. -/
def containsLoop (s : State) (glrc : Ptr) : Nat → Ptr → Option Bool
  | 0, _ => none
  | n + 1, p =>
    if p = 0 then
      some false
    else if p = glrc then
      some true
    else
      match s.deref p with
      | none => none
      | some g => containsLoop s glrc n g.next

/-- The function `WGL_ContainsContext (glrc)`. -/
def WGL_ContainsContext (s : State) (glrc : Ptr) : Option Bool :=
  containsLoop s glrc s.fuel s.glrc_list

/-! ## The entry points -/

/-- The function `wglCopyContext (hsrc, hdst, mask)`. -/
def wglCopyContext (env : Env) (s : State) (hsrc hdst : Ptr) (mask : Nat) :
    Option (Out Bool) :=
  match WGL_ContainsContext s hsrc with
  | none => none
  | some false => some ⟨false, s, []⟩
  | some true =>
    match WGL_ContainsContext s hdst with
    | none => none
    | some false => some ⟨false, s, []⟩
    | some true =>
      match s.deref hsrc with
      | none => none
      | some src =>
        -- the source compares `src->icd` with `src->icd`
        if src.icd ≠ src.icd then
          some ⟨false, s, []⟩
        else
          match s.deref hdst with
          | none => none
          | some dst =>
            if src.icd = 0 then none
            else
              some ⟨env.DrvCopyContext src.icd src.hglrc dst.hglrc mask, s,
                [DrvCall.DrvCopyContext src.icd src.hglrc dst.hglrc mask]⟩

/-- The `for (dw = 0; ; dw++)` loop of `wglCreateContext` and
`wglCreateLayerContext`, run over the names `RegEnumKeyExW` still has to
yield, with the current values of the variables `icd` and `drvHglrc`.
`create icd` is the ICD's `DrvCreateContext (hdc)` resp.
`DrvCreateLayerContext (hdc, layer)` and `call icd` the log entry for it.
Returns `icd`, `drvHglrc` and the calls made. -/
def findICD (env : Env) (create : Ptr → Nat) (call : Ptr → DrvCall) :
    List String → Ptr → Nat → Ptr × Nat × List DrvCall
  | [], icd, drvHglrc => (icd, drvHglrc, [])
  | driver :: rest, _, drvHglrc =>
    let icd := env.OPENGL32_LoadICD driver
    if icd = 0 then
      let r := findICD env create call rest icd drvHglrc
      (r.1, r.2.1, DrvCall.LoadICD driver :: r.2.2)
    else
      let drvHglrc := create icd
      if drvHglrc = 0 then
        let r := findICD env create call rest icd drvHglrc
        (r.1, r.2.1,
          DrvCall.LoadICD driver :: call icd :: DrvCall.UnloadICD icd :: r.2.2)
      else
        (icd, drvHglrc, [DrvCall.LoadICD driver, call icd])

/-- The call `memcpy (dst, src, sizeof (PVOID) * n)` on function tables. -/
def memcpy (dst src : List Nat) (n : Nat) : List Nat :=
  src.take n ++ dst.drop n

/-- The body shared word for word by `wglCreateContext` and
`wglCreateLayerContext`, which differ in the ICD entry point only. -/
def createContext (env : Env) (s : State) (create : Ptr → Nat)
    (call : Ptr → DrvCall) (hdc : Nat) : Option (Out Ptr) :=
  if env.isDC hdc = false then
    some ⟨0, s, []⟩
  else if env.RegOpenKeyExW = false then
    some ⟨0, s, []⟩
  else if env.HeapAlloc = 0 then
    some ⟨0, s, []⟩
  else
    let glrc := env.HeapAlloc
    let s1 : State := { s with heap := (glrc, GLRC.zero env.GLIDX_COUNT) :: s.heap }
    let r := findICD env create call env.RegEnumKeyExW 0 0
    if r.2.1 = 0 then
      some ⟨0, { s1 with heap := s1.heap.free glrc }, r.2.2⟩
    else
      match s1.store glrc (fun g =>
          { g with hglrc := r.2.1, iFormat := -1, icd := r.1,
                   func_list := memcpy g.func_list (env.icd_func_list r.1)
                     env.GLIDX_COUNT }) with
      | none => none
      | some s2 =>
        match WGL_AppendContext s2 glrc with
        | none => none
        | some s3 => some ⟨glrc, s3, r.2.2⟩

/-- The function `wglCreateContext (hdc)`. -/
def wglCreateContext (env : Env) (s : State) (hdc : Nat) : Option (Out Ptr) :=
  createContext env s (fun icd => env.DrvCreateContext icd hdc)
    (fun icd => DrvCall.DrvCreateContext icd hdc) hdc

/-- The function `wglCreateLayerContext (hdc, layer)`. -/
def wglCreateLayerContext (env : Env) (s : State) (hdc : Nat) (layer : Int) :
    Option (Out Ptr) :=
  createContext env s (fun icd => env.DrvCreateLayerContext icd hdc layer)
    (fun icd => DrvCall.DrvCreateLayerContext icd hdc layer) hdc

/-- The `free resources` end of `wglDeleteContext`: `WGL_RemoveContext`,
`HeapFree`, `return TRUE`. -/
def freeResources (s : State) (hglrc : Ptr) (calls : List DrvCall) :
    Option (Out Bool) :=
  match WGL_RemoveContext s hglrc with
  | none => none
  | some s1 => some ⟨true, { s1 with heap := s1.heap.free hglrc }, calls⟩

/-- The function `wglDeleteContext (hglrc)`. -/
def wglDeleteContext (env : Env) (s : State) (hglrc : Ptr) : Option (Out Bool) :=
  match WGL_ContainsContext s hglrc with
  | none => none
  | some false => some ⟨false, s, []⟩
  | some true =>
    match s.deref hglrc with
    | none => none
    | some glrc =>
      if glrc.is_current then
        some ⟨false, s, []⟩
      else if glrc.hglrc ≠ 0 then
        if glrc.icd = 0 then none
        else if env.DrvDeleteContext glrc.icd glrc.hglrc = false then
          some ⟨false, s, [DrvCall.DrvDeleteContext glrc.icd glrc.hglrc]⟩
        else
          freeResources s hglrc [DrvCall.DrvDeleteContext glrc.icd glrc.hglrc]
      else
        freeResources s hglrc []

/-- The function `wglGetCurrentContext ()` on thread `tid`. -/
def wglGetCurrentContext (s : State) (tid : Nat) : Ptr :=
  s.threaddata tid

/-- The function `wglGetCurrentDC ()` on thread `tid`. -/
def wglGetCurrentDC (s : State) (tid : Nat) : Option Nat :=
  if s.threaddata tid = 0 then some 0
  else
    match s.deref (s.threaddata tid) with
    | none => none
    | some glrc => some glrc.hdc

/-- The character `proc[i]` of a NUL-terminated string. -/
def charAt (proc : List Char) (i : Nat) : Char :=
  proc.getD i (Char.ofNat 0)

/-- The function `wglGetProcAddress (proc)` on thread `tid`. -/
def wglGetProcAddress (env : Env) (s : State) (tid : Nat) (proc : List Char) :
    Option (Out Nat) :=
  if s.threaddata tid = 0 then
    some ⟨0, s, []⟩
  else if charAt proc 0 = 'g' ∧ charAt proc 1 = 'l' then
    match s.deref (s.threaddata tid) with
    | none => none
    | some glrc =>
      if glrc.icd = 0 then none
      else
        if env.DrvGetProcAddress glrc.icd proc ≠ 0 then
          some ⟨env.DrvGetProcAddress glrc.icd proc, s,
            [DrvCall.DrvGetProcAddress glrc.icd proc]⟩
        else
          some ⟨0, s, [DrvCall.DrvGetProcAddress glrc.icd proc]⟩
  else if charAt proc 0 = 'w' ∧ charAt proc 1 = 'g' ∧ charAt proc 2 = 'l' then
    some ⟨0, s, []⟩
  else if charAt proc 0 = 'g' ∧ charAt proc 1 = 'l' ∧ charAt proc 2 = 'u' then
    some ⟨0, s, []⟩
  else
    some ⟨0, s, []⟩

/-- The `make it current` end of `wglMakeCurrent` on thread `tid`. -/
def makeItCurrent (s : State) (tid : Nat) (hglrc : Ptr) (calls : List DrvCall) :
    Option (Out Bool) :=
  match (if s.threaddata tid ≠ 0 then
      s.store (s.threaddata tid) (fun g => { g with is_current := false })
    else some s) with
  | none => none
  | some s1 =>
    match s1.store hglrc (fun g => { g with is_current := true, thread_id := tid }) with
    | none => none
    | some s2 =>
      some ⟨true,
        { s2 with threaddata := fun t => if t = tid then hglrc else s2.threaddata t },
        calls⟩

/-- The function `wglMakeCurrent (hdc, hglrc)` on thread `tid`. -/
def wglMakeCurrent (env : Env) (s : State) (tid : Nat) (hdc : Nat) (hglrc : Ptr) :
    Option (Out Bool) :=
  if env.isDC hdc = false then
    some ⟨false, s, []⟩
  else
    match WGL_ContainsContext s hglrc with
    | none => none
    | some false => some ⟨false, s, []⟩
    | some true =>
      match s.deref hglrc with
      | none => none
      | some glrc =>
        if glrc.is_current then
          some ⟨false, s, []⟩
        else if glrc.hglrc ≠ 0 then
          if glrc.icd = 0 then none
          else if env.DrvSetContext glrc.icd hdc glrc.hglrc = false then
            some ⟨false, s, [DrvCall.DrvSetContext glrc.icd hdc glrc.hglrc]⟩
          else
            makeItCurrent s tid hglrc [DrvCall.DrvSetContext glrc.icd hdc glrc.hglrc]
        else
          makeItCurrent s tid hglrc []

/-- The function `wglShareLists (hglrc1, hglrc2)`. -/
def wglShareLists (env : Env) (s : State) (hglrc1 hglrc2 : Ptr) : Option (Out Bool) :=
  match WGL_ContainsContext s hglrc1 with
  | none => none
  | some false => some ⟨false, s, []⟩
  | some true =>
    match WGL_ContainsContext s hglrc2 with
    | none => none
    | some false => some ⟨false, s, []⟩
    | some true =>
      match s.deref hglrc1 with
      | none => none
      | some glrc1 =>
        match s.deref hglrc2 with
        | none => none
        | some glrc2 =>
          if glrc1.icd ≠ glrc2.icd then
            some ⟨false, s, []⟩
          else if glrc1.icd = 0 then none
          else
            some ⟨env.DrvShareLists glrc1.icd glrc1.hglrc glrc2.hglrc, s,
              [DrvCall.DrvShareLists glrc1.icd glrc1.hglrc glrc2.hglrc]⟩

/-- The function `wglSwapBuffers (hdc)` on thread `tid`. -/
def wglSwapBuffers (env : Env) (s : State) (tid : Nat) (hdc : Nat) : Option (Out Bool) :=
  if s.threaddata tid = 0 then
    some ⟨false, s, []⟩
  else
    match s.deref (s.threaddata tid) with
    | none => none
    | some glrc =>
      if glrc.hglrc ≠ 0 then
        if glrc.icd = 0 then none
        else if env.DrvSwapBuffers glrc.icd hdc = false then
          some ⟨false, s, [DrvCall.DrvSwapBuffers glrc.icd hdc]⟩
        else
          some ⟨true, s, [DrvCall.DrvSwapBuffers glrc.icd hdc]⟩
      else
        some ⟨false, s, []⟩

/-! ## The calls as a transition system -/

/-- One call of an entry point that returns, made by any thread, with the
outside world answering in any way the allocator contract allows. -/
inductive Step : State → State → Prop where
  | createContext (env : Env) (s : State) (hdc : Nat) (o : Out Ptr) :
      env.allocOK s → wglCreateContext env s hdc = some o → Step s o.state
  | createLayerContext (env : Env) (s : State) (hdc : Nat) (layer : Int) (o : Out Ptr) :
      env.allocOK s → wglCreateLayerContext env s hdc layer = some o → Step s o.state
  | makeCurrent (env : Env) (s : State) (tid hdc : Nat) (hglrc : Ptr) (o : Out Bool) :
      wglMakeCurrent env s tid hdc hglrc = some o → Step s o.state
  | deleteContext (env : Env) (s : State) (hglrc : Ptr) (o : Out Bool) :
      wglDeleteContext env s hglrc = some o → Step s o.state
  | copyContext (env : Env) (s : State) (hsrc hdst : Ptr) (mask : Nat) (o : Out Bool) :
      wglCopyContext env s hsrc hdst mask = some o → Step s o.state
  | shareLists (env : Env) (s : State) (hglrc1 hglrc2 : Ptr) (o : Out Bool) :
      wglShareLists env s hglrc1 hglrc2 = some o → Step s o.state
  | swapBuffers (env : Env) (s : State) (tid hdc : Nat) (o : Out Bool) :
      wglSwapBuffers env s tid hdc = some o → Step s o.state
  | getProcAddress (env : Env) (s : State) (tid : Nat) (proc : List Char) (o : Out Nat) :
      wglGetProcAddress env s tid proc = some o → Step s o.state

/-- The states the entry points can bring about, starting with no context
and no binding. -/
inductive Reachable : State → Prop where
  | init : Reachable State.init
  | step (s t : State) : Reachable s → Step s t → Reachable t

/-- The addresses `l` are the registry walked from `p`: every one is an
allocated, non-`NULL` record whose `next` is the following one, and the
last `next` is `NULL`. -/
def Chain (s : State) : Ptr → List Ptr → Prop
  | p, [] => p = 0
  | p, q :: l => p = q ∧ ∃ g, s.deref p = some g ∧ Chain s g.next l

/-- The registry invariant, for the registry content `l`.  The list is a
`NULL`-terminated chain without repetition, every allocated record is in
it and has an ICD and an ICD context, and a context bound to a thread is
registered, current and owned by that thread. -/
structure InvWith (s : State) (l : List Ptr) : Prop where
  chain : Chain s s.glrc_list l
  nodup : l.Nodup
  alloc : ∀ p g, s.heap.read p = some g → p ∈ l
  loaded : ∀ p g, s.heap.read p = some g → g.icd ≠ 0 ∧ g.hglrc ≠ 0
  bound : ∀ t, s.threaddata t ≠ 0 →
    s.threaddata t ∈ l ∧
    ∃ g, s.deref (s.threaddata t) = some g ∧ g.is_current = true ∧ g.thread_id = t

/-- The registry invariant. -/
def Inv (s : State) : Prop := ∃ l, InvWith s l

/-- The record `wglCreateContext` builds for the ICD `icd` and the ICD
context `drvHglrc`. -/
def newGLRC (env : Env) (icd : Ptr) (drvHglrc : Nat) : GLRC :=
  { hglrc := drvHglrc, iFormat := -1, icd := icd, hdc := 0, is_current := false,
    thread_id := 0,
    func_list := memcpy (List.replicate env.GLIDX_COUNT 0) (env.icd_func_list icd)
      env.GLIDX_COUNT,
    next := 0 }

/-! ## Sample runs -/

/-- A world with one installed ICD, loaded as `icd`, that makes the
context `50 + alloc` for every DC and whose every entry point succeeds; the
allocator returns `alloc`. -/
def Env.sample (alloc icd : Ptr) : Env :=
  { isDC := fun _ => true
    RegOpenKeyExW := true
    RegEnumKeyExW := ["icd"]
    OPENGL32_LoadICD := fun _ => icd
    HeapAlloc := alloc
    GLIDX_COUNT := 1
    icd_func_list := fun _ => [9]
    DrvCreateContext := fun _ _ => 50 + alloc
    DrvCreateLayerContext := fun _ _ _ => 50 + alloc
    DrvDeleteContext := fun _ _ => true
    DrvSetContext := fun _ _ _ => true
    DrvCopyContext := fun _ _ _ _ => true
    DrvShareLists := fun _ _ _ => true
    DrvSwapBuffers := fun _ _ => true
    DrvGetProcAddress := fun _ _ => 77 }

/-- A world with three installed ICDs: `broken` does not load, `nogl` loads
as `100` and makes no context, `good` loads as `200` and makes context `52`,
`spare` loads as `300` and would make context `53`. -/
def Env.three : Env :=
  { Env.sample 2 200 with
    RegEnumKeyExW := ["broken", "nogl", "good", "spare"]
    OPENGL32_LoadICD := fun n =>
      if n = "broken" then 0 else if n = "nogl" then 100
      else if n = "good" then 200 else 300
    DrvCreateContext := fun icd _ =>
      if icd = 100 then 0 else if icd = 200 then 52 else 53 }

/-- A world whose ICDs refuse to delete a context. -/
def Env.refusing : Env :=
  { Env.sample 3 100 with DrvDeleteContext := fun _ _ => false }

/-- A registered context as the sample runs leave it. -/
def sampleGLRC (hglrc : Nat) (icd : Ptr) (next : Ptr) (is_current : Bool)
    (thread_id : Nat) : GLRC :=
  { hglrc := hglrc, iFormat := -1, icd := icd, hdc := 0, is_current := is_current,
    thread_id := thread_id, func_list := [9], next := next }

/-- The state after `wglCreateContext` in the world `Env.sample 1 100`. -/
def sample1 : State :=
  { heap := [(1, sampleGLRC 51 100 0 false 0)], glrc_list := 1, threaddata := fun _ => 0 }

/-- The state after a second `wglCreateContext`, in the world
`Env.sample 2 200`: context `1` with ICD `100`, context `2` with ICD `200`. -/
def sample2 : State :=
  { heap := [(2, sampleGLRC 52 200 0 false 0), (1, sampleGLRC 51 100 2 false 0)],
    glrc_list := 1, threaddata := fun _ => 0 }

/-- The state after thread `1` made context `1` current. -/
def sample3 : State :=
  { heap := [(2, sampleGLRC 52 200 0 false 0), (1, sampleGLRC 51 100 2 true 1)],
    glrc_list := 1, threaddata := fun t => if t = 1 then 1 else 0 }

/-- The state after thread `2` made context `2` current as well. -/
def sample4 : State :=
  { heap := [(2, sampleGLRC 52 200 0 true 2), (1, sampleGLRC 51 100 2 true 1)],
    glrc_list := 1, threaddata := fun t => if t = 2 then 2 else if t = 1 then 1 else 0 }

/-- What the entry points keep besides the registry invariant: a record
with `is_current` set names in `thread_id` a thread that is bound to it, and
the `hdc` field of every record is as `HeapAlloc` zeroed it. -/
structure Owned (s : State) : Prop where
  owned : ∀ p g, s.deref p = some g → g.is_current = true → s.threaddata g.thread_id = p
  nodc : ∀ p g, s.deref p = some g → g.hdc = 0

/-! ## The statements of `make it current`, one at a time -/

/-- The statement `if (OPENGL32_threaddata->glrc != NULL)
OPENGL32_threaddata->glrc->is_current = FALSE;` of `wglMakeCurrent` on
thread `tid`. -/
def demote (s : State) (tid : Nat) : Option State :=
  if s.threaddata tid ≠ 0 then
    s.store (s.threaddata tid) (fun g => { g with is_current := false })
  else some s

/-- The statements `glrc->is_current = TRUE; glrc->thread_id =
GetCurrentThreadId ();` of `wglMakeCurrent` on thread `tid`. -/
def promote (s : State) (tid : Nat) (hglrc : Ptr) : Option State :=
  s.store hglrc (fun g => { g with is_current := true, thread_id := tid })

/-- The statement `OPENGL32_threaddata->glrc = glrc;` of `wglMakeCurrent` on
thread `tid`. -/
def bindThread (s : State) (tid : Nat) (hglrc : Ptr) : State :=
  { s with threaddata := fun t => if t = tid then hglrc else s.threaddata t }

/-- The third sample state after thread `1`, on its way to context `2`, has
run `demote` and nothing more: context `1` has lost its flag, thread `1` is
still bound to it. -/
def sampleMid : State :=
  { heap := [(2, sampleGLRC 52 200 0 false 0), (1, sampleGLRC 51 100 2 false 1)],
    glrc_list := 1, threaddata := fun t => if t = 1 then 1 else 0 }

/-- The state `sampleMid` after thread `2` has made context `1` current. -/
def sampleRace : State :=
  { heap := [(2, sampleGLRC 52 200 0 false 0), (1, sampleGLRC 51 100 2 true 2)],
    glrc_list := 1,
    threaddata := fun t => if t = 2 then 1 else if t = 1 then 1 else 0 }

/-- The first sample state with a second record allocated at address `2`
and not linked yet. -/
def sampleAlloc : State :=
  { heap := [(2, sampleGLRC 52 200 0 false 0), (1, sampleGLRC 51 100 0 false 0)],
    glrc_list := 1, threaddata := fun _ => 0 }

/-- A world like `Env.sample 2 200` in which no ICD loads. -/
def Env.noICD : Env :=
  { Env.sample 2 200 with OPENGL32_LoadICD := fun _ => 0 }

/-- The control flow of the `while (p != NULL)` loop of `WGL_RemoveContext`
alone: where the walk stops, at the record in front of `glrc` (`some p`) or
at `NULL` (`none`). -/
def removeWalk (s : State) (glrc : Ptr) : Nat → Ptr → Option (Option Ptr)
  | 0, _ => none
  | n + 1, p =>
    if p = 0 then
      some none
    else
      match s.deref p with
      | none => none
      | some g => if g.next = glrc then some (some p) else removeWalk s glrc n g.next

end OpenGL32

/-!
# Path helpers of the setup library (`base/setup/lib/filesup.c`)

A C wide string is the list of its characters in front of the terminating
`NUL`; reading at or behind its end gives `NUL`.  A pointer into a string is
an offset from its start.
-/

namespace SetupLib

/-- The character `s[i]` of a `NUL`-terminated string. -/
def wcAt (s : List Char) (i : Nat) : Char :=
  s.getD i (Char.ofNat 0)

/-- The macro `OBJ_NAME_PATH_SEPARATOR`. -/
def OBJ_NAME_PATH_SEPARATOR : Char := '\\'

/-- A status code, as the 32 bit value of `NTSTATUS`. -/
abbrev NTSTATUS := Nat

/-- The code `STATUS_SUCCESS`. -/
def STATUS_SUCCESS : NTSTATUS := 0

/-- The code `STATUS_BUFFER_OVERFLOW`. -/
def STATUS_BUFFER_OVERFLOW : NTSTATUS := 0x80000005

/-- The code `STATUS_INVALID_PARAMETER`. -/
def STATUS_INVALID_PARAMETER : NTSTATUS := 0xC000000D

/-- The macro `NT_SUCCESS`: the status, read as a signed number, is not
negative. -/
def NT_SUCCESS (Status : NTSTATUS) : Bool := decide (Status < 0x80000000)

/-- The limit `NTSTRSAFE_MAX_CCH` of the safe string functions. -/
def NTSTRSAFE_MAX_CCH : Nat := 2147483647

/-- Modelled from the spec: `RtlStringCchCatW (dest, cchDest, src)` of
`ntstrsafe.h` is not part of the sources at hand; this is its documented
contract.  A capacity of `0` or above `NTSTRSAFE_MAX_CCH`, or a destination
that is not terminated within the capacity, gives `STATUS_INVALID_PARAMETER`
and no change.  Otherwise the source is appended as far as the capacity
allows, one place being kept for the `NUL`; a cut source gives
`STATUS_BUFFER_OVERFLOW`.  Returns the status and the destination. -/
def RtlStringCchCatW (dest : List Char) (cchDest : Nat) (src : List Char) :
    NTSTATUS × List Char :=
  if cchDest = 0 ∨ NTSTRSAFE_MAX_CCH < cchDest then
    (STATUS_INVALID_PARAMETER, dest)
  else if cchDest ≤ dest.length then
    (STATUS_INVALID_PARAMETER, dest)
  else if src.length ≤ cchDest - dest.length - 1 then
    (STATUS_SUCCESS, dest ++ src)
  else
    (STATUS_BUFFER_OVERFLOW, dest ++ src.take (cchDest - dest.length - 1))

/-- The loop `while (*PathComponent == OBJ_NAME_PATH_SEPARATOR)
++PathComponent;` of `ConcatPathsV`. -/
def skipSeparators : List Char → List Char
  | [] => []
  | c :: cs => if c = OBJ_NAME_PATH_SEPARATOR then skipSeparators cs else c :: cs

/-- The `while (NumberOfPathComponents--)` loop of `ConcatPathsV` over the
components `va_arg` still has to yield (`none` is a `NULL` component), with
the current `Status` and buffer content.  Returns the status and the buffer
content. -/
def ConcatPathsVLoop (cchPathSize : Nat) :
    List (Option (List Char)) → NTSTATUS → List Char → NTSTATUS × List Char
  | [], Status, PathBuffer => (Status, PathBuffer)
  | none :: rest, Status, PathBuffer => ConcatPathsVLoop cchPathSize rest Status PathBuffer
  | some PathComponent :: rest, _, PathBuffer =>
    let cchPathLen := min cchPathSize PathBuffer.length
    if cchPathSize ≤ cchPathLen then
      (STATUS_BUFFER_OVERFLOW, PathBuffer)
    else if wcAt PathComponent 0 ≠ OBJ_NAME_PATH_SEPARATOR ∧ 0 < cchPathLen ∧
        wcAt PathBuffer (cchPathLen - 1) ≠ OBJ_NAME_PATH_SEPARATOR then
      let r := RtlStringCchCatW PathBuffer cchPathSize [OBJ_NAME_PATH_SEPARATOR]
      if NT_SUCCESS r.1 = false then r
      else
        let r2 := RtlStringCchCatW r.2 cchPathSize PathComponent
        if NT_SUCCESS r2.1 = false then r2
        else ConcatPathsVLoop cchPathSize rest r2.1 r2.2
    else if wcAt PathComponent 0 = OBJ_NAME_PATH_SEPARATOR ∧ 0 < cchPathLen ∧
        wcAt PathBuffer (cchPathLen - 1) = OBJ_NAME_PATH_SEPARATOR then
      let r2 := RtlStringCchCatW PathBuffer cchPathSize (skipSeparators PathComponent)
      if NT_SUCCESS r2.1 = false then r2
      else ConcatPathsVLoop cchPathSize rest r2.1 r2.2
    else
      let r2 := RtlStringCchCatW PathBuffer cchPathSize PathComponent
      if NT_SUCCESS r2.1 = false then r2
      else ConcatPathsVLoop cchPathSize rest r2.1 r2.2

/-- The function `ConcatPathsV (PathBuffer, cchPathSize,
NumberOfPathComponents, PathComponentsList)`, the list holding the
`NumberOfPathComponents` components.  Returns the status and the buffer
content. -/
def ConcatPathsV (PathBuffer : List Char) (cchPathSize : Nat)
    (PathComponentsList : List (Option (List Char))) : NTSTATUS × List Char :=
  if cchPathSize < 1 then
    (STATUS_SUCCESS, PathBuffer)
  else
    ConcatPathsVLoop cchPathSize PathComponentsList STATUS_SUCCESS PathBuffer

/-- The joining rule for one component as the claim words it: a separator
is put in between when the buffer is not empty and neither side brings one,
the leading separators of the component are dropped when the buffer is not
empty and both sides bring one, and the component is appended as it is in
every other case. -/
def joinRule (B C : List Char) : List Char :=
  if B ≠ [] ∧ B.getLast? ≠ some OBJ_NAME_PATH_SEPARATOR ∧
      C.head? ≠ some OBJ_NAME_PATH_SEPARATOR then
    B ++ [OBJ_NAME_PATH_SEPARATOR] ++ C
  else if B ≠ [] ∧ B.getLast? = some OBJ_NAME_PATH_SEPARATOR ∧
      C.head? = some OBJ_NAME_PATH_SEPARATOR then
    B ++ C.dropWhile (fun c => decide (c = OBJ_NAME_PATH_SEPARATOR))
  else
    B ++ C

/-- Modelled from the spec: `towlower` of the C runtime is not part of the
sources at hand; in the C locale it maps `A` to `Z` to `a` to `z` and leaves
every other character. -/
def towlower (c : Char) : Char := c.toLower

/-- Modelled from the spec: `iswdigit` of the C runtime is not part of the
sources at hand; it holds for the decimal digits `0` to `9`. -/
def iswdigit (c : Char) : Bool := c.isDigit

/-- Modelled from the spec: `_wcsnicmp (cs, ct, count) == 0` of the C runtime,
which is not part of the sources at hand: the first `count` characters of
both strings are equal when case is ignored, a common `NUL` ending the
comparison early. -/
def wcsnicmpEq : List Char → List Char → Nat → Bool
  | _, _, 0 => true
  | cs, ct, n + 1 =>
    if towlower (wcAt cs 0) ≠ towlower (wcAt ct 0) then false
    else if wcAt cs 0 = Char.ofNat 0 then true
    else wcsnicmpEq cs.tail ct.tail n

/-- The value `ULONG_MAX` of a 32 bit `ULONG`. -/
def ULONG_MAX : Nat := 4294967295

/-- The number a run of decimal digits stands for. -/
def decimalValue (digits : List Char) : Nat :=
  digits.foldl (fun acc c => 10 * acc + (c.toNat - 48)) 0

/-- Modelled from the spec: `wcstoul (s, &end, 10)` of the C runtime is not
part of the sources at hand.  It is called here only on a string whose
first character is a digit, where no white space and no sign are skipped:
the longest run of digits is read, the value is the number it stands for,
or `ULONG_MAX` when that does not fit, and `end` is behind the run.  Returns
the value and the number of characters read. -/
def wcstoul (s : List Char) : Nat × Nat :=
  let digits := s.takeWhile iswdigit
  (min (decimalValue digits) ULONG_MAX, digits.length)

/-- What `NtPathToDiskPartComponents` hands back: the returned `BOOLEAN`,
`*pDiskNumber`, `*pPartNumber` and `*PathComponent` as an offset into
`NtPath` (`none` for `NULL` and when the caller passed no `PathComponent`). -/
structure DiskPart where
  ret : Bool
  DiskNumber : Nat
  PartNumber : Nat
  PathComponent : Option Nat
deriving DecidableEq, Repr

/-- The text `\Device\Harddisk`. -/
def DeviceHarddisk : List Char :=
  ['\\', 'D', 'e', 'v', 'i', 'c', 'e', '\\', 'H', 'a', 'r', 'd', 'd', 'i', 's', 'k']

/-- The text `\Partition`. -/
def Partition : List Char :=
  ['\\', 'P', 'a', 'r', 't', 'i', 't', 'i', 'o', 'n']

/-- The label `Quit` of `NtPathToDiskPartComponents`: the disk number and
the path pointer are handed back, `*pPartNumber` is what was stored. -/
def quit (wantPath : Bool) (DiskNumber PartNumber Path : Nat) : DiskPart :=
  { ret := true, DiskNumber := DiskNumber, PartNumber := PartNumber,
    PathComponent := if wantPath then some Path else none }

/-- The function `NtPathToDiskPartComponents (NtPath, pDiskNumber,
pPartNumber, PathComponent)`; `wantPath` says that `PathComponent` is not
`NULL`. -/
def NtPathToDiskPartComponents (NtPath : List Char) (wantPath : Bool) : DiskPart :=
  if wcsnicmpEq NtPath DeviceHarddisk 16 = false then
    ⟨false, 0, 0, none⟩
  else if iswdigit (wcAt NtPath 16) = false then
    ⟨false, 0, 0, none⟩
  else
    let DiskNumber := (wcstoul (NtPath.drop 16)).1
    let Path := 16 + (wcstoul (NtPath.drop 16)).2
    if wcAt NtPath Path ≠ Char.ofNat 0 ∧ wcAt NtPath Path ≠ OBJ_NAME_PATH_SEPARATOR then
      ⟨false, 0, 0, none⟩
    else if wcAt NtPath Path = Char.ofNat 0 then
      quit wantPath DiskNumber 0 Path
    else if wcsnicmpEq (NtPath.drop Path) Partition 10 = false then
      quit wantPath DiskNumber 0 Path
    else if iswdigit (wcAt NtPath (Path + 10)) = false then
      quit wantPath DiskNumber 0 (Path + 10)
    else
      let PartNumber := (wcstoul (NtPath.drop (Path + 10))).1
      let Path2 := Path + 10 + (wcstoul (NtPath.drop (Path + 10))).2
      if wcAt NtPath Path2 ≠ Char.ofNat 0 ∧
          wcAt NtPath Path2 ≠ OBJ_NAME_PATH_SEPARATOR then
        quit wantPath DiskNumber 0 Path2
      else
        quit wantPath DiskNumber PartNumber Path2

/-- The text `\Device\Harddisk0\PartitionFoo`. -/
def samplePath : List Char :=
  DeviceHarddisk ++ ['0'] ++ Partition ++ ['F', 'o', 'o']

end SetupLib

namespace OpenGL32

/-! ## Heap and chain lemmas -/

theorem Heap.read_cons (h : Heap) (p q : Ptr) (g : GLRC) :
    Heap.read ((p, g) :: h) q = if p = q then some g else Heap.read h q := rfl

theorem Heap.read_modify (h : Heap) (p q : Ptr) (f : GLRC → GLRC) :
    Heap.read (Heap.modify h p f) q
      = if q = p then (Heap.read h p).map f else Heap.read h q := by
  induction h with
  | nil => simp [Heap.modify, Heap.read]
  | cons e h ih =>
    simp only [Heap.modify, List.map_cons] at ih ⊢
    by_cases h1 : e.1 = p
    · by_cases h2 : q = p
      · subst h2; simp [Heap.read, h1]
      · have h3 : ¬ p = q := fun h => h2 h.symm
        simp only [Heap.read, h1, h2, h3, if_true, if_false] at ih ⊢; exact ih
    · by_cases h2 : q = p
      · subst h2; simp only [Heap.read, h1, if_true, if_false] at ih ⊢; exact ih
      · simp only [Heap.read, h1, h2, if_false] at ih ⊢; rw [ih]

theorem Heap.read_free (h : Heap) (p q : Ptr) :
    Heap.read (Heap.free h p) q = if q = p then none else Heap.read h q := by
  induction h with
  | nil => simp [Heap.free, Heap.read]
  | cons e h ih =>
    simp only [Heap.free] at ih ⊢
    by_cases h1 : e.1 = p
    · by_cases h2 : q = p
      · simp [h1, h2] at ih ⊢; exact ih
      · have h3 : ¬ p = q := fun h => h2 h.symm
        simp [Heap.read, h1, h2, h3] at ih ⊢; exact ih
    · by_cases h2 : q = p
      · subst h2; simp [Heap.read, h1] at ih ⊢; exact ih
      · simp [Heap.read, h1, h2] at ih ⊢; rw [ih]

theorem Heap.length_modify (h : Heap) (p : Ptr) (f : GLRC → GLRC) :
    (Heap.modify h p f).length = h.length := by
  simp [Heap.modify]

theorem Heap.read_mem_keys (h : Heap) (p : Ptr) (g : GLRC) (hr : Heap.read h p = some g) :
    p ∈ h.map Prod.fst := by
  induction h with
  | nil => simp [Heap.read] at hr
  | cons e h ih =>
    simp only [Heap.read] at hr
    by_cases h1 : e.1 = p
    · simp [h1]
    · simp only [h1, if_false] at hr
      simp [ih hr]

theorem Heap.free_fresh (h : Heap) (p : Ptr) (hp : Heap.read h p = none) :
    Heap.free h p = h := by
  induction h with
  | nil => rfl
  | cons e h ih =>
    simp only [Heap.read] at hp
    by_cases h1 : e.1 = p
    · simp [h1] at hp
    · simp only [h1, if_false] at hp
      have := ih hp
      simp only [Heap.free] at this ⊢
      rw [List.filter_cons_of_pos (by simpa using h1), this]

theorem State.deref_ne_zero {s : State} {p : Ptr} {g : GLRC} (h : s.deref p = some g) :
    p ≠ 0 := by
  intro h0; simp [State.deref, Heap.deref, h0] at h

theorem State.deref_read {s : State} {p : Ptr} {g : GLRC} (h : s.deref p = some g) :
    s.heap.read p = some g := by
  have h0 := State.deref_ne_zero h
  simpa [State.deref, Heap.deref, h0] using h

theorem State.deref_of_read {s : State} {p : Ptr} (h0 : p ≠ 0) :
    s.deref p = s.heap.read p := by
  simp [State.deref, Heap.deref, h0]

theorem Chain.deref_of_mem {s : State} {l : List Ptr} :
    ∀ {p : Ptr}, Chain s p l → ∀ {q : Ptr}, q ∈ l → ∃ g, s.deref q = some g := by
  induction l with
  | nil => intro p _ q hq; simp at hq
  | cons a l ih =>
    intro p hc q hq
    obtain ⟨hpa, g, hg, hrest⟩ := hc
    rcases List.mem_cons.1 hq with h | h
    · subst h; subst hpa; exact ⟨g, hg⟩
    · exact ih hrest h

theorem Chain.ne_zero_of_mem {s : State} {l : List Ptr} {p q : Ptr}
    (hc : Chain s p l) (hq : q ∈ l) : q ≠ 0 := by
  obtain ⟨g, hg⟩ := hc.deref_of_mem hq
  exact State.deref_ne_zero hg

theorem Chain.unique {s : State} {l : List Ptr} :
    ∀ {p : Ptr} {m : List Ptr}, Chain s p l → Chain s p m → l = m := by
  induction l with
  | nil =>
    intro p m h1 h2
    cases m with
    | nil => rfl
    | cons b m =>
      obtain ⟨_, g, hg, _⟩ := h2
      have h0 : p = 0 := h1
      exact absurd h0 (State.deref_ne_zero hg)
  | cons a l ih =>
    intro p m h1 h2
    obtain ⟨hpa, g, hg, hrest⟩ := h1
    cases m with
    | nil =>
      have h0 : p = 0 := h2
      exact absurd h0 (State.deref_ne_zero hg)
    | cons b m =>
      obtain ⟨hpb, g2, hg2, hrest2⟩ := h2
      rw [hg] at hg2
      cases hg2
      rw [← hpa, ← hpb, ih hrest hrest2]

theorem Chain.length_le {s : State} {l : List Ptr} {p : Ptr}
    (hc : Chain s p l) (hn : l.Nodup) : l.length ≤ s.heap.length := by
  have hsub : l ⊆ s.heap.map Prod.fst := by
    intro q hq
    obtain ⟨g, hg⟩ := hc.deref_of_mem hq
    exact Heap.read_mem_keys _ _ _ (State.deref_read hg)
  have := (List.subperm_of_subset hn hsub).length_le
  simpa using this

/-- A chain survives any change of the state that keeps the `next` link of
each of its records. -/
theorem Chain.congr {s t : State} {l : List Ptr} :
    ∀ {p : Ptr}, Chain s p l →
      (∀ q ∈ l, ∀ g, s.deref q = some g → ∃ k, t.deref q = some k ∧ k.next = g.next) →
      Chain t p l := by
  induction l with
  | nil => intro p hc _; exact hc
  | cons a l ih =>
    intro p hc hk
    obtain ⟨hpa, g, hg, hrest⟩ := hc
    subst hpa
    obtain ⟨k, hk1, hk2⟩ := hk p (List.mem_cons_self _ _) g hg
    refine ⟨rfl, k, hk1, ?_⟩
    rw [hk2]
    exact ih hrest (fun q hq => hk q (List.mem_cons_of_mem _ hq))

theorem containsLoop_chain {s : State} (x : Ptr) {l : List Ptr} :
    ∀ {p : Ptr} {n : Nat}, Chain s p l → l.length < n →
      containsLoop s x n p = some (decide (x ∈ l)) := by
  induction l with
  | nil =>
    intro p n hc hn
    have h0 : p = 0 := hc
    cases n with
    | zero => simp at hn
    | succ n => simp [containsLoop, h0]
  | cons a l ih =>
    intro p n hc hn
    obtain ⟨hpa, g, hg, hrest⟩ := hc
    subst hpa
    have h0 := State.deref_ne_zero hg
    cases n with
    | zero => simp at hn
    | succ n =>
      have hn2 : l.length < n := by simpa using hn
      by_cases hx : p = x
      · subst hx; simp [containsLoop, h0]
      · have hx2 : ¬ x = p := fun h => hx h.symm
        simp [containsLoop, h0, hx, hx2, hg, ih hrest hn2]

theorem InvWith.contains {s : State} {l : List Ptr} (hi : InvWith s l) (x : Ptr) :
    WGL_ContainsContext s x = some (decide (x ∈ l)) := by
  have := hi.chain.length_le hi.nodup
  exact containsLoop_chain x hi.chain (by simp [State.fuel]; omega)

/-- A walk that reaches the end of the list without finding one address
ends for every address. -/
theorem containsLoop_total {s : State} {x : Ptr} (y : Ptr) :
    ∀ {n : Nat} {p : Ptr}, containsLoop s x n p = some false →
      ∃ b, containsLoop s y n p = some b := by
  intro n
  induction n with
  | zero => intro p h; simp [containsLoop] at h
  | succ n ih =>
    intro p h
    by_cases h0 : p = 0
    · exact ⟨false, by simp [containsLoop, h0]⟩
    · by_cases hy : p = y
      · exact ⟨true, by subst hy; simp [containsLoop, h0]⟩
      · by_cases hx : p = x
        · subst hx; simp [containsLoop, h0] at h
        · cases hg : s.deref p with
          | none => simp [containsLoop, h0, hx, hg] at h
          | some g =>
            simp only [containsLoop, h0, hx, hg, if_false] at h
            obtain ⟨b, hb⟩ := ih h
            exact ⟨b, by simp [containsLoop, h0, hy, hg, hb]⟩

theorem WGL_ContainsContext_total {s : State} {x : Ptr} (y : Ptr)
    (h : WGL_ContainsContext s x = some false) :
    ∃ b, WGL_ContainsContext s y = some b :=
  containsLoop_total y h

/-! ## Calls that are turned down -/

/-- C2: for every state and every registered context whose `is_current` flag
is set, `wglDeleteContext` returns `FALSE`, makes no call to the ICD (so none
to `DrvDeleteContext`) and leaves the whole state as it was. -/
theorem wglDeleteContext_current (env : Env) (s : State) (hglrc : Ptr) (glrc : GLRC)
    (hreg : WGL_ContainsContext s hglrc = some true)
    (hg : s.deref hglrc = some glrc) (hcur : glrc.is_current = true) :
    wglDeleteContext env s hglrc = some ⟨false, s, []⟩ := by
  simp [wglDeleteContext, hreg, hg, hcur]

/-- C8: for every registered context whose `is_current` flag is set,
`wglMakeCurrent (hdc, ctx)` on any thread returns `FALSE`, makes no call to
the ICD (so none to `DrvSetContext`) and leaves the whole state as it was:
the context stays as it is and so does the binding of the caller. -/
theorem wglMakeCurrent_current (env : Env) (s : State) (tid hdc : Nat) (hglrc : Ptr)
    (glrc : GLRC) (hreg : WGL_ContainsContext s hglrc = some true)
    (hg : s.deref hglrc = some glrc) (hcur : glrc.is_current = true) :
    wglMakeCurrent env s tid hdc hglrc = some ⟨false, s, []⟩ := by
  by_cases hdcv : env.isDC hdc = false
  · simp [wglMakeCurrent, hdcv]
  · simp [wglMakeCurrent, hdcv, hreg, hg, hcur]

theorem wglMakeCurrent_unregistered (env : Env) (s : State) (x : Ptr)
    (hx : WGL_ContainsContext s x = some false) (tid hdc : Nat) :
    wglMakeCurrent env s tid hdc x = some ⟨false, s, []⟩ := by
  by_cases hdcv : env.isDC hdc = false
  · simp [wglMakeCurrent, hdcv]
  · simp [wglMakeCurrent, hdcv, hx]

/-- C7: for every handle that is not in the registry, `wglDeleteContext`,
`wglMakeCurrent`, `wglCopyContext` (handle in either position) and
`wglShareLists` (handle in either position) return `FALSE`, make no call to
an ICD and leave the whole state as it was. -/
theorem unregistered_handle_rejected (env : Env) (s : State) (x : Ptr)
    (hx : WGL_ContainsContext s x = some false) :
    wglDeleteContext env s x = some ⟨false, s, []⟩ ∧
    (∀ tid hdc, wglMakeCurrent env s tid hdc x = some ⟨false, s, []⟩) ∧
    (∀ y mask, wglCopyContext env s x y mask = some ⟨false, s, []⟩ ∧
      wglCopyContext env s y x mask = some ⟨false, s, []⟩) ∧
    (∀ y, wglShareLists env s x y = some ⟨false, s, []⟩ ∧
      wglShareLists env s y x = some ⟨false, s, []⟩) := by
  refine ⟨by simp [wglDeleteContext, hx], ?_, ?_, ?_⟩
  · exact wglMakeCurrent_unregistered env s x hx
  · intro y mask
    obtain ⟨b, hb⟩ := WGL_ContainsContext_total y hx
    refine ⟨by simp [wglCopyContext, hx], ?_⟩
    cases b <;> simp [wglCopyContext, hx, hb]
  · intro y
    obtain ⟨b, hb⟩ := WGL_ContainsContext_total y hx
    refine ⟨by simp [wglShareLists, hx], ?_⟩
    cases b <;> simp [wglShareLists, hx, hb]

/-! ## Calls handed to the ICD -/

/-- What `wglCopyContext` does for two registered contexts: the ICD of the
source is called whatever the ICD of the destination is. -/
theorem wglCopyContext_registered (env : Env) (s : State) (hsrc hdst : Ptr) (mask : Nat)
    (src dst : GLRC)
    (h1 : WGL_ContainsContext s hsrc = some true)
    (h2 : WGL_ContainsContext s hdst = some true)
    (hs : s.deref hsrc = some src) (hd : s.deref hdst = some dst)
    (hicd : src.icd ≠ 0) :
    wglCopyContext env s hsrc hdst mask
      = some ⟨env.DrvCopyContext src.icd src.hglrc dst.hglrc mask, s,
          [DrvCall.DrvCopyContext src.icd src.hglrc dst.hglrc mask]⟩ := by
  simp [wglCopyContext, h1, h2, hs, hd, hicd]

/-- C5: for two registered contexts `a` and `b`, the first with a loaded ICD,
`wglShareLists (a, b)` returns, and returns `TRUE` exactly when both have the
same ICD and its `DrvShareLists (a.hglrc, b.hglrc)` returns `TRUE`.  The state
is never changed; with different ICDs no call is made, with the same ICD
the one call to `DrvShareLists`. -/
theorem wglShareLists_registered (env : Env) (s : State) (hglrc1 hglrc2 : Ptr)
    (glrc1 glrc2 : GLRC)
    (h1 : WGL_ContainsContext s hglrc1 = some true)
    (h2 : WGL_ContainsContext s hglrc2 = some true)
    (hg1 : s.deref hglrc1 = some glrc1) (hg2 : s.deref hglrc2 = some glrc2)
    (hicd : glrc1.icd ≠ 0) :
    ∃ o, wglShareLists env s hglrc1 hglrc2 = some o ∧ o.state = s ∧
      (o.ret = true ↔
        glrc1.icd = glrc2.icd ∧
          env.DrvShareLists glrc1.icd glrc1.hglrc glrc2.hglrc = true) ∧
      (glrc1.icd ≠ glrc2.icd → o.calls = []) ∧
      (glrc1.icd = glrc2.icd →
        o.calls = [DrvCall.DrvShareLists glrc1.icd glrc1.hglrc glrc2.hglrc]) := by
  by_cases he : glrc1.icd = glrc2.icd
  · refine ⟨⟨env.DrvShareLists glrc1.icd glrc1.hglrc glrc2.hglrc, s,
      [DrvCall.DrvShareLists glrc1.icd glrc1.hglrc glrc2.hglrc]⟩, ?_, rfl, ?_, ?_, ?_⟩
    · have hicd2 : glrc2.icd ≠ 0 := he ▸ hicd
      simp [wglShareLists, h1, h2, hg1, hg2, he, hicd2]
    · simp [he]
    · intro hne; exact absurd he hne
    · intro _; rfl
  · refine ⟨⟨false, s, []⟩, ?_, rfl, ?_, ?_, ?_⟩
    · simp [wglShareLists, h1, h2, hg1, hg2, he]
    · simp [he]
    · intro _; rfl
    · intro h; exact absurd h he

/-! ## The list helpers on a well-formed registry -/

theorem State.deref_modify (s : State) (q r : Ptr) (f : GLRC → GLRC) :
    State.deref { s with heap := s.heap.modify q f } r
      = if r = q then (s.deref q).map f else s.deref r := by
  by_cases h0 : r = 0
  · subst h0; by_cases hq : 0 = q
    · subst hq; simp [State.deref, Heap.deref]
    · simp [State.deref, Heap.deref, hq]
  · by_cases hq : r = q
    · subst hq; simp [State.deref, Heap.deref, h0, Heap.read_modify]
    · simp [State.deref, Heap.deref, h0, hq, Heap.read_modify]

theorem State.deref_free (s : State) (q r : Ptr) :
    State.deref { s with heap := s.heap.free q } r
      = if r = q then none else s.deref r := by
  by_cases h0 : r = 0
  · subst h0; simp [State.deref, Heap.deref]
  · simp [State.deref, Heap.deref, h0, Heap.read_free]

theorem State.deref_heap_eq {s t : State} (h : s.heap = t.heap) (r : Ptr) :
    s.deref r = t.deref r := by
  simp [State.deref, h]

theorem State.store_eq {s : State} {q : Ptr} {g : GLRC} (hg : s.deref q = some g)
    (f : GLRC → GLRC) :
    s.store q f = some { s with heap := s.heap.modify q f } := by
  simp [State.store, hg]

theorem Chain.nil_iff {s : State} {p : Ptr} : Chain s p [] ↔ p = 0 := Iff.rfl

theorem Chain.eq_nil_of_zero {s : State} {l : List Ptr} (h : Chain s 0 l) : l = [] := by
  cases l with
  | nil => rfl
  | cons a l =>
    obtain ⟨_, g, hg, _⟩ := h
    exact absurd rfl (State.deref_ne_zero hg)

/-- The walk of `WGL_RemoveContext` on a chain that holds `x` behind its
head: the record in front of `x` gets the `next` of `x`, and the chain is
the former one without `x`. -/
theorem removeLoop_chain {s : State} {x : Ptr} {gx : GLRC} (hx : s.deref x = some gx)
    {l : List Ptr} :
    ∀ {p : Ptr} {n : Nat}, Chain s p l → p ≠ x → x ∈ l → l.Nodup → l.length ≤ n →
      ∃ q, q ∈ l ∧ q ≠ x ∧
        removeLoop s x n p
          = some { s with heap := s.heap.modify q (fun g => { g with next := gx.next }) } ∧
        Chain { s with heap := s.heap.modify q (fun g => { g with next := gx.next }) } p
          (l.erase x) := by
  induction l with
  | nil => intro p n _ _ hm; simp at hm
  | cons a l ih =>
    intro p n hc hpx hm hnd hn
    obtain ⟨hpa, gp, hgp, hrest⟩ := hc
    subst hpa
    have hp0 := State.deref_ne_zero hgp
    have hxl : x ∈ l := by
      rcases List.mem_cons.1 hm with h | h
      · exact absurd h.symm hpx
      · exact h
    have hpl : p ∉ l := (List.nodup_cons.1 hnd).1
    have hndl : l.Nodup := (List.nodup_cons.1 hnd).2
    cases n with
    | zero => simp at hn
    | succ n =>
      have hn2 : l.length ≤ n := by simpa using hn
      have herase : (p :: l).erase x = p :: l.erase x := by
        rw [List.erase_cons_tail]; simpa using hpx
      by_cases hnx : gp.next = x
      · -- `p` is the record in front of `x`
        cases l with
        | nil => simp at hxl
        | cons b m =>
          obtain ⟨hb, gb, hgb, hrest2⟩ := hrest
          have hbx : b = x := by rw [← hb, hnx]
          subst hbx
          rw [hnx] at hgb
          rw [hx] at hgb
          cases hgb
          refine ⟨p, List.mem_cons_self _ _, hpx, ?_, ?_⟩
          · simp [removeLoop, hp0, hgp, hnx, hx, State.store]
          · rw [herase, List.erase_cons_head]
            refine ⟨rfl, { gp with next := gx.next }, ?_, ?_⟩
            · rw [State.deref_modify]; simp [hgp]
            · refine Chain.congr hrest2 ?_
              intro r hr g hg
              have hrp : r ≠ p := by
                intro h; subst h
                exact hpl (List.mem_cons_of_mem _ hr)
              exact ⟨g, by rw [State.deref_modify]; simp [hrp, hg], rfl⟩
      · -- walk on
        have hne : gp.next ≠ x := hnx
        obtain ⟨q, hq, hqx, hloop, hch⟩ := ih hrest hne hxl hndl hn2
        refine ⟨q, List.mem_cons_of_mem _ hq, hqx, ?_, ?_⟩
        · simp [removeLoop, hp0, hgp, hnx, hloop]
        · rw [herase]
          have hpq : p ≠ q := by intro h; subst h; exact hpl hq
          exact ⟨rfl, gp, by rw [State.deref_modify]; simp [hpq, hgp], hch⟩

/-- The walk of `WGL_AppendContext` on a non-empty chain that does not hold
`x`: the last record gets `x` as its `next`, and the chain is the former one
followed by `x`. -/
theorem appendLoop_chain {s : State} (x : Ptr) (gx : GLRC) (hx : s.deref x = some gx)
    (hxn : gx.next = 0) {l : List Ptr} :
    ∀ {p : Ptr} {n : Nat}, Chain s p l → l ≠ [] → x ∉ l → l.Nodup → l.length ≤ n →
      ∃ q, q ∈ l ∧ l.getLast? = some q ∧ appendLoop s n p = some q ∧
        Chain { s with heap := s.heap.modify q (fun g => { g with next := x }) } p
          (l ++ [x]) := by
  induction l with
  | nil => intro p n _ h; exact absurd rfl h
  | cons a l ih =>
    intro p n hc _ hxl hnd hn
    obtain ⟨hpa, gp, hgp, hrest⟩ := hc
    subst hpa
    have hpl : p ∉ l := (List.nodup_cons.1 hnd).1
    have hndl : l.Nodup := (List.nodup_cons.1 hnd).2
    have hxp : x ≠ p := fun h => hxl (h ▸ List.mem_cons_self _ _)
    have hxl2 : x ∉ l := fun h => hxl (List.mem_cons_of_mem _ h)
    cases n with
    | zero => simp at hn
    | succ n =>
      have hn2 : l.length ≤ n := by simpa using hn
      by_cases hnx : gp.next = 0
      · -- `p` is the last record
        rw [hnx] at hrest
        have hl := Chain.eq_nil_of_zero hrest
        subst hl
        refine ⟨p, List.mem_cons_self _ _, rfl, by simp [appendLoop, hgp, hnx], ?_⟩
        refine ⟨rfl, { gp with next := x }, ?_, rfl, gx, ?_, ?_⟩
        · rw [State.deref_modify]; simp [hgp]
        · rw [State.deref_modify]; simp [hxp, hx]
        · exact hxn
      · have hl : l ≠ [] := by
          intro h; subst h; exact hnx hrest
        obtain ⟨q, hq, hlast, hloop, hch⟩ := ih hrest hl hxl2 hndl hn2
        have hlast2 : (p :: l).getLast? = some q := by
          cases l with
          | nil => exact absurd rfl hl
          | cons b m => rw [List.getLast?_cons_cons]; exact hlast
        refine ⟨q, List.mem_cons_of_mem _ hq, hlast2,
          by simp [appendLoop, hgp, hnx, hloop], ?_⟩
        have hpq : p ≠ q := by intro h; subst h; exact hpl hq
        exact ⟨rfl, gp, by rw [State.deref_modify]; simp [hpq, hgp], hch⟩

theorem State.deref_modify_of (s : State) {t : State} {q : Ptr} {f : GLRC → GLRC}
    (h : t.heap = s.heap.modify q f) (r : Ptr) :
    t.deref r = if r = q then (s.deref q).map f else s.deref r := by
  rw [← State.deref_modify s q r f]
  exact State.deref_heap_eq h r

theorem State.deref_free_of (s : State) {t : State} {q : Ptr}
    (h : t.heap = s.heap.free q) (r : Ptr) :
    t.deref r = if r = q then none else s.deref r := by
  rw [← State.deref_free s q r]
  exact State.deref_heap_eq h r

theorem State.deref_cons_of (s : State) {t : State} {q : Ptr} {g : GLRC} (hq : q ≠ 0)
    (h : t.heap = (q, g) :: s.heap) (r : Ptr) :
    t.deref r = if r = q then some g else s.deref r := by
  by_cases h0 : r = 0
  · subst h0
    have : ¬ 0 = q := fun h => hq h.symm
    simp [State.deref, Heap.deref, this]
  · by_cases hr : r = q
    · subst hr; simp [State.deref, Heap.deref, h0, h, Heap.read]
    · have : ¬ q = r := fun h => hr h.symm
      simp [State.deref, Heap.deref, h0, h, Heap.read, hr, this]

theorem InvWith.loaded_of_mem {s : State} {l : List Ptr} (hi : InvWith s l) {q : Ptr}
    (hq : q ∈ l) : ∃ g, s.deref q = some g ∧ g.icd ≠ 0 ∧ g.hglrc ≠ 0 := by
  obtain ⟨g, hg⟩ := hi.chain.deref_of_mem hq
  exact ⟨g, hg, hi.loaded q g (State.deref_read hg)⟩

theorem InvWith.mem_of_deref {s : State} {l : List Ptr} (hi : InvWith s l) {q : Ptr}
    {g : GLRC} (hg : s.deref q = some g) : q ∈ l :=
  hi.alloc q g (State.deref_read hg)

/-- The invariant is kept by a change of the records that keeps the head,
the set of allocated addresses, the `next`, `icd` and `hglrc` fields, and
after which the bindings are as the invariant wants them. -/
theorem InvWith.frame {s t : State} {l : List Ptr} (hi : InvWith s l)
    (hhead : t.glrc_list = s.glrc_list)
    (hkeep : ∀ q g, s.deref q = some g →
      ∃ k, t.deref q = some k ∧ k.next = g.next ∧ k.icd = g.icd ∧ k.hglrc = g.hglrc)
    (hdom : ∀ q k, t.heap.read q = some k → ∃ g, s.heap.read q = some g)
    (hbound : ∀ u, t.threaddata u ≠ 0 → t.threaddata u ∈ l ∧
      ∃ k, t.deref (t.threaddata u) = some k ∧ k.is_current = true ∧ k.thread_id = u) :
    InvWith t l := by
  refine ⟨?_, hi.nodup, ?_, ?_, hbound⟩
  · rw [hhead]
    refine Chain.congr hi.chain ?_
    intro q _ g hg
    obtain ⟨k, hk, hn, _⟩ := hkeep q g hg
    exact ⟨k, hk, hn⟩
  · intro q k hk
    obtain ⟨g, hg⟩ := hdom q k hk
    exact hi.alloc q g hg
  · intro q k hk
    obtain ⟨g, hg⟩ := hdom q k hk
    have hql := hi.alloc q g hg
    have hq0 := hi.chain.ne_zero_of_mem hql
    have hgd : s.deref q = some g := by rw [State.deref_of_read hq0]; exact hg
    obtain ⟨k2, hk2, _, hicd, hh⟩ := hkeep q g hgd
    rw [State.deref_of_read hq0, hk] at hk2
    cases hk2
    have := hi.loaded q g hg
    rw [hicd, hh]; exact this

theorem State.deref_eq (s : State) (p : Ptr) : s.deref p = s.heap.deref p := rfl

theorem Heap.heap_deref_modify (h : Heap) (q r : Ptr) (f : GLRC → GLRC) :
    (h.modify q f).deref r = if r = q then (h.deref q).map f else h.deref r := by
  have := State.deref_modify ⟨h, 0, fun _ => 0⟩ q r f
  simpa [State.deref_eq] using this

theorem Heap.heap_deref_free (h : Heap) (q r : Ptr) :
    (h.free q).deref r = if r = q then none else h.deref r := by
  have := State.deref_free ⟨h, 0, fun _ => 0⟩ q r
  simpa [State.deref_eq] using this

theorem Heap.heap_deref_cons (h : Heap) (q r : Ptr) (g : GLRC) (hq : q ≠ 0) :
    Heap.deref ((q, g) :: h) r = if r = q then some g else h.deref r := by
  have := State.deref_cons_of ⟨h, 0, fun _ => 0⟩ (t := ⟨(q, g) :: h, 0, fun _ => 0⟩) hq rfl r
  simpa [State.deref_eq] using this

theorem Heap.heap_deref_read {h : Heap} {p : Ptr} {g : GLRC} (hg : h.deref p = some g) :
    h.read p = some g :=
  State.deref_read (s := ⟨h, 0, fun _ => 0⟩) hg

/-- The `make it current` end of `wglMakeCurrent` for a registered context
that is not current, on a well-formed registry: the context bound to the
thread before loses its flag, the new one gets the flag and the thread,
the thread is bound to it, and nothing else changes. -/
theorem makeItCurrent_spec {s : State} {l : List Ptr} (hi : InvWith s l)
    (tid : Nat) (hglrc : Ptr) (calls : List DrvCall) (g : GLRC)
    (hg : s.deref hglrc = some g) (hidle : g.is_current = false) :
    ∃ o, makeItCurrent s tid hglrc calls = some o ∧ o.ret = true ∧ o.calls = calls ∧
      InvWith o.state l ∧
      o.state.glrc_list = s.glrc_list ∧
      (∀ t, o.state.threaddata t = if t = tid then hglrc else s.threaddata t) ∧
      o.state.deref hglrc = some { g with is_current := true, thread_id := tid } ∧
      (s.threaddata tid ≠ 0 → ∃ ga, s.deref (s.threaddata tid) = some ga ∧
        o.state.deref (s.threaddata tid) = some { ga with is_current := false }) ∧
      (∀ q, q ≠ hglrc → q ≠ s.threaddata tid → o.state.heap.read q = s.heap.read q) := by
  have hml : hglrc ∈ l := hi.mem_of_deref hg
  have hg2 : s.heap.deref hglrc = some g := hg
  -- a context bound to another thread is neither `hglrc` nor the one bound here
  have hother : ∀ u, u ≠ tid → s.threaddata u ≠ 0 →
      s.threaddata u ≠ hglrc ∧ s.threaddata u ≠ s.threaddata tid := by
    intro u hu hu0
    obtain ⟨_, gu, hgu, hcu, htu⟩ := hi.bound u hu0
    constructor
    · intro h; rw [h, hg] at hgu; cases hgu; rw [hidle] at hcu; cases hcu
    · intro h
      have h0 : s.threaddata tid ≠ 0 := h ▸ hu0
      obtain ⟨_, gt, hgt, _, htt⟩ := hi.bound tid h0
      rw [h, hgt] at hgu; cases hgu
      exact hu (htu.symm.trans htt)
  by_cases ho : s.threaddata tid = 0
  · -- no context bound before
    refine ⟨⟨true, State.mk (s.heap.modify hglrc
        (fun g => { g with is_current := true, thread_id := tid })) s.glrc_list
        (fun t => if t = tid then hglrc else s.threaddata t), calls⟩,
      ?_, rfl, rfl, ?_, rfl, fun _ => rfl, ?_, ?_, ?_⟩
    · simp [makeItCurrent, ho, State.store, hg]
    · refine hi.frame rfl ?_ ?_ ?_
      · intro q k hk
        simp only [State.deref_eq, Heap.heap_deref_modify] at hk ⊢
        by_cases hq : q = hglrc
        · subst hq; rw [hg2] at hk; cases hk; simp [hg2]
        · exact ⟨k, by simp [hq, hk], rfl, rfl, rfl⟩
      · intro q k hk
        simp only [Heap.read_modify] at hk
        by_cases hq : q = hglrc
        · subst hq; exact ⟨g, State.deref_read hg⟩
        · simp only [hq, if_false] at hk; exact ⟨k, hk⟩
      · intro u hu
        by_cases hut : u = tid
        · subst hut
          simp only [if_true] at hu ⊢
          refine ⟨hml, { g with is_current := true, thread_id := u }, ?_, rfl, rfl⟩
          simp [State.deref_eq, Heap.heap_deref_modify, hg2]
        · simp only [hut, if_false] at hu ⊢
          obtain ⟨hul, gu, hgu, hcu, htu⟩ := hi.bound u hu
          refine ⟨hul, gu, ?_, hcu, htu⟩
          simp only [State.deref_eq] at hgu
          simp [State.deref_eq, Heap.heap_deref_modify, (hother u hut hu).1, hgu]
    · simp [State.deref_eq, Heap.heap_deref_modify, hg2]
    · intro h; exact absurd ho h
    · intro q hq _
      simp [Heap.read_modify, hq]
  · -- the context bound before is demoted first
    obtain ⟨hal, ga, hga, hca, hta⟩ := hi.bound tid ho
    have hga2 : s.heap.deref (s.threaddata tid) = some ga := hga
    have hne : hglrc ≠ s.threaddata tid := by
      intro h; rw [← h, hg] at hga; cases hga; rw [hidle] at hca; cases hca
    have hne2 : s.threaddata tid ≠ hglrc := fun h => hne h.symm
    refine ⟨⟨true, State.mk ((s.heap.modify (s.threaddata tid)
        (fun g => { g with is_current := false })).modify hglrc
        (fun g => { g with is_current := true, thread_id := tid })) s.glrc_list
        (fun t => if t = tid then hglrc else s.threaddata t), calls⟩,
      ?_, rfl, rfl, ?_, rfl, fun _ => rfl, ?_, ?_, ?_⟩
    · simp [makeItCurrent, ho, State.store, State.deref_eq, Heap.heap_deref_modify, hga2, hg2, hne]
    · refine hi.frame rfl ?_ ?_ ?_
      · intro q k hk
        simp only [State.deref_eq, Heap.heap_deref_modify] at hk ⊢
        by_cases hq : q = hglrc
        · subst hq; rw [hg2] at hk; cases hk; simp [hg2, hne]
        · by_cases hq2 : q = s.threaddata tid
          · subst hq2; rw [hga2] at hk; cases hk; simp [hq, hga2]
          · exact ⟨k, by simp [hq, hq2, hk], rfl, rfl, rfl⟩
      · intro q k hk
        simp only [Heap.read_modify] at hk
        by_cases hq : q = hglrc
        · subst hq; exact ⟨g, State.deref_read hg⟩
        · by_cases hq2 : q = s.threaddata tid
          · subst hq2; exact ⟨ga, State.deref_read hga⟩
          · simp only [hq, hq2, if_false] at hk; exact ⟨k, hk⟩
      · intro u hu
        by_cases hut : u = tid
        · subst hut
          simp only [if_true] at hu ⊢
          refine ⟨hml, { g with is_current := true, thread_id := u }, ?_, rfl, rfl⟩
          simp [State.deref_eq, Heap.heap_deref_modify, hg2, hne]
        · simp only [hut, if_false] at hu ⊢
          obtain ⟨hul, gu, hgu, hcu, htu⟩ := hi.bound u hu
          refine ⟨hul, gu, ?_, hcu, htu⟩
          simp only [State.deref_eq] at hgu
          simp [State.deref_eq, Heap.heap_deref_modify, (hother u hut hu).1,
            (hother u hut hu).2, hgu]
    · simp [State.deref_eq, Heap.heap_deref_modify, hg2, hne]
    · intro _
      refine ⟨ga, hga, ?_⟩
      simp [State.deref_eq, Heap.heap_deref_modify, hne2, hga2]
    · intro q hq hq2
      simp [Heap.read_modify, hq, hq2]

theorem Chain.of_heap_eq {s t : State} (h : t.heap = s.heap) {p : Ptr} {l : List Ptr}
    (hc : Chain s p l) : Chain t p l :=
  Chain.congr hc (fun q _ g hg => ⟨g, by rw [State.deref_eq, h]; exact hg, rfl⟩)

theorem GLRC.with_next_self (g : GLRC) : { g with next := g.next } = g := by
  cases g; rfl

/-- The invariant after a registered context `x` that is not current was
unlinked (state `s1`, registry `l.erase x`) and its cell released. -/
theorem InvWith.erase {s : State} (s1 : State) {l : List Ptr} (hi : InvWith s l) {x : Ptr}
    {g : GLRC}
    (hg : s.deref x = some g) (hidle : g.is_current = false)
    (hth : s1.threaddata = s.threaddata)
    (hch : Chain s1 s1.glrc_list (l.erase x))
    (hsame : ∀ r gr, s.heap.read r = some gr →
      ∃ n, s1.heap.read r = some { gr with next := n })
    (hdom : ∀ r k, s1.heap.read r = some k → ∃ gr, s.heap.read r = some gr) :
    InvWith ⟨s1.heap.free x, s1.glrc_list, s1.threaddata⟩ (l.erase x) := by
  have hnd := hi.nodup.erase x
  have hxe : x ∉ l.erase x := fun h => (List.Nodup.mem_erase_iff hi.nodup).1 h |>.1 rfl
  refine ⟨?_, hnd, ?_, ?_, ?_⟩
  · refine Chain.congr hch ?_
    intro q hq k hk
    have hqx : q ≠ x := fun h => hxe (h ▸ hq)
    exact ⟨k, by simp only [State.deref_eq, Heap.heap_deref_free, hqx, if_false]; exact hk, rfl⟩
  · intro q k hk
    simp only [Heap.read_free] at hk
    by_cases hqx : q = x
    · simp [hqx] at hk
    · simp only [hqx, if_false] at hk
      obtain ⟨gr, hgr⟩ := hdom q k hk
      exact (List.mem_erase_of_ne hqx).2 (hi.alloc q gr hgr)
  · intro q k hk
    simp only [Heap.read_free] at hk
    by_cases hqx : q = x
    · simp [hqx] at hk
    · simp only [hqx, if_false] at hk
      obtain ⟨gr, hgr⟩ := hdom q k hk
      obtain ⟨n, hn⟩ := hsame q gr hgr
      rw [hk] at hn; cases hn
      exact hi.loaded q gr hgr
  · intro u hu
    simp only [hth] at hu ⊢
    obtain ⟨hul, gu, hgu, hcu, htu⟩ := hi.bound u hu
    have hux : s.threaddata u ≠ x := by
      intro h; rw [h, hg] at hgu; cases hgu; rw [hidle] at hcu; cases hcu
    refine ⟨(List.mem_erase_of_ne hux).2 hul, ?_⟩
    obtain ⟨n, hn⟩ := hsame _ gu (State.deref_read hgu)
    refine ⟨{ gu with next := n }, ?_, hcu, htu⟩
    simp only [State.deref_eq, Heap.heap_deref_free, hux, if_false]
    simp only [Heap.deref, hu, if_false]
    exact hn

/-- The `free resources` end of `wglDeleteContext` for a registered context
that is not current, on a well-formed registry: it returns `TRUE`, the
registry is the former one without the context, the cell of the context is
released, and of the other records at most a `next` link changes. -/
theorem freeResources_spec {s : State} {l : List Ptr} (hi : InvWith s l)
    (x : Ptr) (calls : List DrvCall) (g : GLRC)
    (hg : s.deref x = some g) (hidle : g.is_current = false) :
    ∃ o, freeResources s x calls = some o ∧ o.ret = true ∧ o.calls = calls ∧
      InvWith o.state (l.erase x) ∧
      o.state.threaddata = s.threaddata ∧
      o.state.heap.read x = none ∧
      (∀ r gr, r ≠ x → s.heap.read r = some gr →
        ∃ n, o.state.heap.read r = some { gr with next := n }) := by
  have hxl : x ∈ l := hi.mem_of_deref hg
  have hx0 : x ≠ 0 := State.deref_ne_zero hg
  have hlen := hi.chain.length_le hi.nodup
  by_cases hhead : x = s.glrc_list
  · -- the context is the head of the list
    have hrm : WGL_RemoveContext s x = some { s with glrc_list := g.next } := by
      simp only [WGL_RemoveContext, if_pos hhead, hg]
    cases l with
    | nil => simp at hxl
    | cons a m =>
      have hc := hi.chain
      obtain ⟨ha, ga, hga, hrest⟩ := hc
      have hax : a = x := by rw [← ha, hhead]
      subst hax
      rw [← hhead, hg] at hga; cases hga
      have hinv := hi.erase { s with glrc_list := g.next } hg hidle rfl
        (by rw [List.erase_cons_head]; exact Chain.of_heap_eq (s := s) (t := ⟨s.heap, g.next, s.threaddata⟩) rfl hrest)
        (fun r gr hgr => ⟨gr.next, by rw [GLRC.with_next_self]; exact hgr⟩)
        (fun r k hk => ⟨k, hk⟩)
      refine ⟨⟨true, ⟨s.heap.free a, g.next, s.threaddata⟩, calls⟩, ?_, rfl, rfl,
        hinv, rfl, ?_, ?_⟩
      · simp [freeResources, hrm]
      · simp [Heap.read_free]
      · intro r gr hr hgr
        exact ⟨gr.next, by simp [Heap.read_free, hr, GLRC.with_next_self, hgr]⟩
  · -- the context is further down the list
    have hne : s.glrc_list ≠ x := fun h => hhead h.symm
    obtain ⟨q, hql, hqx, hloop, hch⟩ :=
      removeLoop_chain hg hi.chain hne hxl hi.nodup (n := s.fuel)
        (by simp [State.fuel]; omega)
    have hrm : WGL_RemoveContext s x
        = some { s with heap := s.heap.modify q (fun k => { k with next := g.next }) } := by
      simp [WGL_RemoveContext, hhead, hloop]
    have hsame : ∀ r gr, s.heap.read r = some gr →
        ∃ n, (s.heap.modify q (fun k => { k with next := g.next })).read r
          = some { gr with next := n } := by
      intro r gr hgr
      by_cases hrq : r = q
      · subst hrq; exact ⟨g.next, by simp [Heap.read_modify, hgr]⟩
      · exact ⟨gr.next, by simp [Heap.read_modify, hrq, hgr, GLRC.with_next_self]⟩
    have hinv := hi.erase
      { s with heap := s.heap.modify q (fun k => { k with next := g.next }) }
      hg hidle rfl hch hsame
      (by
        intro r k hk
        simp only [Heap.read_modify] at hk
        by_cases hrq : r = q
        · subst hrq
          cases hr : s.heap.read r with
          | none => simp [hr] at hk
          | some gr => exact ⟨gr, rfl⟩
        · simp only [hrq, if_false] at hk; exact ⟨k, hk⟩)
    refine ⟨⟨true, ⟨(s.heap.modify q (fun k => { k with next := g.next })).free x,
      s.glrc_list, s.threaddata⟩, calls⟩, ?_, rfl, rfl, hinv, rfl, ?_, ?_⟩
    · simp [freeResources, hrm]
    · simp [Heap.read_free]
    · intro r gr hr hgr
      obtain ⟨n, hn⟩ := hsame r gr hgr
      exact ⟨n, by simp only [Heap.read_free, hr, if_false]; exact hn⟩

theorem Heap.modify_fresh (h : Heap) (p : Ptr) (f : GLRC → GLRC)
    (hp : Heap.read h p = none) : Heap.modify h p f = h := by
  induction h with
  | nil => rfl
  | cons e h ih =>
    simp only [Heap.read] at hp
    by_cases h1 : e.1 = p
    · simp [h1] at hp
    · simp only [h1, if_false] at hp
      have := ih hp
      simp only [Heap.modify] at this ⊢
      simp [h1, this]

/-- The loop over the ICD names leaves a context handle only together with
the ICD that made it. -/
theorem findICD_icd_ne_zero (env : Env) (create : Ptr → Nat) (call : Ptr → DrvCall) :
    ∀ (names : List String) (icd : Ptr),
      (findICD env create call names icd 0).2.1 ≠ 0 →
      (findICD env create call names icd 0).1 ≠ 0 := by
  intro names
  induction names with
  | nil => intro icd h; simp [findICD] at h
  | cons d rest ih =>
    intro icd h
    by_cases hl : env.OPENGL32_LoadICD d = 0
    · simp only [findICD, hl, if_true] at h ⊢
      exact ih 0 h
    · by_cases hc : create (env.OPENGL32_LoadICD d) = 0
      · simp only [findICD, hl, hc, if_true, if_false] at h ⊢
        exact ih _ h
      · simp only [findICD, hl, hc, if_false] at h ⊢
        exact hl

/-- The invariant after a new record `x` was linked behind the registry
`l` (state `t`). -/
theorem InvWith.append {s t : State} {l : List Ptr} (hi : InvWith s l) (x : Ptr)
    (gnew : GLRC) (hx : x ∉ l)
    (hth : t.threaddata = s.threaddata)
    (hch : Chain t t.glrc_list (l ++ [x]))
    (hnew : t.heap.read x = some gnew) (hl : gnew.icd ≠ 0 ∧ gnew.hglrc ≠ 0)
    (hsame : ∀ r gr, s.heap.read r = some gr →
      ∃ n, t.heap.read r = some { gr with next := n })
    (hdom : ∀ r k, t.heap.read r = some k → r = x ∨ ∃ gr, s.heap.read r = some gr) :
    InvWith t (l ++ [x]) := by
  refine ⟨hch, ?_, ?_, ?_, ?_⟩
  · rw [List.nodup_append]
    refine ⟨hi.nodup, List.nodup_singleton x, ?_⟩
    intro a ha hb
    rw [List.mem_singleton] at hb
    exact hx (hb ▸ ha)
  · intro q k hk
    rcases hdom q k hk with h | ⟨gr, hgr⟩
    · simp [h]
    · exact List.mem_append_left _ (hi.alloc q gr hgr)
  · intro q k hk
    by_cases hqx : q = x
    · subst hqx; rw [hnew] at hk; cases hk; exact hl
    · rcases hdom q k hk with h | ⟨gr, hgr⟩
      · exact absurd h hqx
      · obtain ⟨n, hn⟩ := hsame q gr hgr
        rw [hk] at hn; cases hn
        exact hi.loaded q gr hgr
  · intro u hu
    simp only [hth] at hu ⊢
    obtain ⟨hul, gu, hgu, hcu, htu⟩ := hi.bound u hu
    refine ⟨List.mem_append_left _ hul, ?_⟩
    obtain ⟨n, hn⟩ := hsame _ gu (State.deref_read hgu)
    refine ⟨{ gu with next := n }, ?_, hcu, htu⟩
    simp only [State.deref_eq, Heap.deref, hu, if_false]
    exact hn

/-- The calls that create no context: the state is as before. -/
theorem createContext_fail (env : Env) (s : State) (create : Ptr → Nat)
    (call : Ptr → DrvCall) (hdc : Nat) (hok : env.allocOK s)
    (h : env.isDC hdc = false ∨ env.RegOpenKeyExW = false ∨ env.HeapAlloc = 0 ∨
      (findICD env create call env.RegEnumKeyExW 0 0).2.1 = 0) :
    ∃ calls, createContext env s create call hdc = some ⟨0, s, calls⟩ := by
  by_cases h1 : env.isDC hdc = false
  · exact ⟨[], by simp [createContext, h1]⟩
  · by_cases h2 : env.RegOpenKeyExW = false
    · exact ⟨[], by simp [createContext, h1, h2]⟩
    · by_cases h3 : env.HeapAlloc = 0
      · exact ⟨[], by simp [createContext, h1, h2, h3]⟩
      · have h4 : (findICD env create call env.RegEnumKeyExW 0 0).2.1 = 0 := by
          rcases h with h | h | h | h
          · exact absurd h h1
          · exact absurd h h2
          · exact absurd h h3
          · exact h
        have hfresh := hok h3
        refine ⟨(findICD env create call env.RegEnumKeyExW 0 0).2.2, ?_⟩
        have hfree : Heap.free ((env.HeapAlloc, GLRC.zero env.GLIDX_COUNT) :: s.heap)
            env.HeapAlloc = s.heap := by
          have := Heap.free_fresh s.heap env.HeapAlloc hfresh
          simp only [Heap.free] at this ⊢
          rw [List.filter_cons_of_neg (by simp), this]
        simp [createContext, h1, h2, h3, h4, hfree]

/-- The calls that create a context, on a well-formed registry: the call
returns the address the allocator gave, the record there is the new one,
it is linked behind the registry, the last record of the former registry
points to it, and nothing else changes. -/
theorem createContext_success {s : State} {l : List Ptr} (hi : InvWith s l) (env : Env)
    (create : Ptr → Nat) (call : Ptr → DrvCall) (hdc : Nat) (hok : env.allocOK s)
    (h1 : env.isDC hdc = true) (h2 : env.RegOpenKeyExW = true) (h3 : env.HeapAlloc ≠ 0)
    (h4 : (findICD env create call env.RegEnumKeyExW 0 0).2.1 ≠ 0) :
    ∃ o, createContext env s create call hdc = some o ∧
      o.ret = env.HeapAlloc ∧
      o.calls = (findICD env create call env.RegEnumKeyExW 0 0).2.2 ∧
      InvWith o.state (l ++ [env.HeapAlloc]) ∧
      env.HeapAlloc ∉ l ∧
      o.state.threaddata = s.threaddata ∧
      o.state.heap.read env.HeapAlloc
        = some (newGLRC env (findICD env create call env.RegEnumKeyExW 0 0).1
            (findICD env create call env.RegEnumKeyExW 0 0).2.1) ∧
      (∀ q gq, s.heap.read q = some gq →
        o.state.heap.read q
          = some (if l.getLast? = some q then { gq with next := env.HeapAlloc } else gq)) := by
  have hfresh : s.heap.read env.HeapAlloc = none := hok h3
  have hxl : env.HeapAlloc ∉ l := by
    intro h
    obtain ⟨g, hg⟩ := hi.chain.deref_of_mem h
    rw [State.deref_read hg] at hfresh; cases hfresh
  have hlen := hi.chain.length_le hi.nodup
  have hicd := findICD_icd_ne_zero env create call env.RegEnumKeyExW 0 h4
  unfold createContext
  simp only [h1, h2, h3, h4, if_false, Bool.true_eq_false]
  generalize findICD env create call env.RegEnumKeyExW 0 0 = r at h4 hicd ⊢
  have hx3 : ¬ 0 = env.HeapAlloc := fun h => h3 h.symm
  -- the state once the record is filled in
  have hstore : State.store ⟨(env.HeapAlloc, GLRC.zero env.GLIDX_COUNT) :: s.heap,
        s.glrc_list, s.threaddata⟩ env.HeapAlloc
        (fun g => { g with hglrc := r.2.1, iFormat := -1, icd := r.1,
                           func_list := memcpy g.func_list (env.icd_func_list r.1)
                             env.GLIDX_COUNT })
      = some ⟨(env.HeapAlloc, newGLRC env r.1 r.2.1) :: s.heap, s.glrc_list,
          s.threaddata⟩ := by
    have hm := Heap.modify_fresh s.heap env.HeapAlloc
        (fun g => { g with hglrc := r.2.1, iFormat := -1, icd := r.1,
                           func_list := memcpy g.func_list (env.icd_func_list r.1)
                             env.GLIDX_COUNT }) hfresh
    simp only [Heap.modify] at hm
    simp [State.store, State.deref_eq, Heap.deref, Heap.read, h3, Heap.modify, hm,
      newGLRC, GLRC.zero]
  have hd2 : ∀ q, State.deref ⟨(env.HeapAlloc, newGLRC env r.1 r.2.1) :: s.heap,
      s.glrc_list, s.threaddata⟩ q
      = if q = env.HeapAlloc then some (newGLRC env r.1 r.2.1) else s.deref q := by
    intro q
    simp only [State.deref_eq]
    exact Heap.heap_deref_cons _ _ _ _ h3
  by_cases hhead : s.glrc_list = 0
  · -- the registry was empty
    have hnil : l = [] := by
      have hc := hi.chain
      rw [hhead] at hc
      exact Chain.eq_nil_of_zero hc
    subst hnil
    refine ⟨⟨env.HeapAlloc, ⟨(env.HeapAlloc, newGLRC env r.1 r.2.1) :: s.heap,
      env.HeapAlloc, s.threaddata⟩, r.2.2⟩, ?_, rfl, rfl, ?_, hxl, rfl, ?_, ?_⟩
    · rw [hstore]; simp [WGL_AppendContext, hhead]
    · refine hi.append env.HeapAlloc (newGLRC env r.1 r.2.1) hxl rfl ?_
        (by simp [Heap.read]) ⟨hicd, h4⟩ ?_ ?_
      · refine ⟨rfl, newGLRC env r.1 r.2.1, ?_, rfl⟩
        simp [State.deref_eq, Heap.deref, Heap.read, h3]
      · intro q gq hq
        have hqx : ¬ env.HeapAlloc = q := by
          intro h; rw [← h, hfresh] at hq; cases hq
        exact ⟨gq.next, by simp [Heap.read, hqx, hq, GLRC.with_next_self]⟩
      · intro q k hk
        simp only [Heap.read] at hk
        by_cases hqx : env.HeapAlloc = q
        · exact Or.inl hqx.symm
        · simp only [hqx, if_false] at hk; exact Or.inr ⟨k, hk⟩
    · simp [Heap.read]
    · intro q gq hq
      have hqx : ¬ env.HeapAlloc = q := by
        intro h; rw [← h, hfresh] at hq; cases hq
      simp [Heap.read, hqx, hq]
  · -- the record goes behind the last one
    have hne : l ≠ [] := by
      intro h; subst h; exact hhead hi.chain
    have hch2 : Chain ⟨(env.HeapAlloc, newGLRC env r.1 r.2.1) :: s.heap, s.glrc_list,
        s.threaddata⟩ s.glrc_list l := by
      refine Chain.congr hi.chain ?_
      intro q hq g hg
      have hqx : q ≠ env.HeapAlloc := fun h => hxl (h ▸ hq)
      exact ⟨g, by rw [hd2]; simp [hqx, hg], rfl⟩
    obtain ⟨q, hql, hlast, hloop, hch⟩ :=
      appendLoop_chain env.HeapAlloc (newGLRC env r.1 r.2.1)
        (by rw [hd2]; simp) rfl hch2 hne hxl hi.nodup
        (n := State.fuel ⟨(env.HeapAlloc, newGLRC env r.1 r.2.1) :: s.heap, s.glrc_list,
          s.threaddata⟩) (by simp [State.fuel]; omega)
    have hqx : q ≠ env.HeapAlloc := fun h => hxl (h ▸ hql)
    have hqx2 : ¬ env.HeapAlloc = q := fun h => hqx h.symm
    obtain ⟨gq, hgq, _⟩ := hi.loaded_of_mem hql
    have hrq := State.deref_read hgq
    have hheap : Heap.modify ((env.HeapAlloc, newGLRC env r.1 r.2.1) :: s.heap) q
        (fun g => { g with next := env.HeapAlloc })
        = (env.HeapAlloc, newGLRC env r.1 r.2.1)
          :: s.heap.modify q (fun g => { g with next := env.HeapAlloc }) := by
      simp [Heap.modify, hqx2]
    refine ⟨⟨env.HeapAlloc, ⟨(env.HeapAlloc, newGLRC env r.1 r.2.1)
        :: s.heap.modify q (fun g => { g with next := env.HeapAlloc }),
      s.glrc_list, s.threaddata⟩, r.2.2⟩, ?_, rfl, rfl, ?_, hxl, rfl, ?_, ?_⟩
    · have hst : State.store ⟨(env.HeapAlloc, newGLRC env r.1 r.2.1) :: s.heap,
          s.glrc_list, s.threaddata⟩ q (fun g => { g with next := env.HeapAlloc })
          = some ⟨(env.HeapAlloc, newGLRC env r.1 r.2.1)
              :: s.heap.modify q (fun g => { g with next := env.HeapAlloc }),
              s.glrc_list, s.threaddata⟩ := by
        have := hd2 q
        simp only [hqx, if_false, hgq] at this
        simp only [State.store, this, hheap]
      rw [hstore]; simp [WGL_AppendContext, hhead, hloop, hst]
    · rw [← hheap]
      refine hi.append env.HeapAlloc (newGLRC env r.1 r.2.1) hxl rfl hch
        (by simp only [Heap.read_modify, Heap.read_cons]; simp [hqx.symm])
        ⟨hicd, h4⟩ ?_ ?_
      · intro p gp hp
        have hpx : ¬ env.HeapAlloc = p := by
          intro h; rw [← h, hfresh] at hp; cases hp
        by_cases hpq : p = q
        · subst hpq
          refine ⟨env.HeapAlloc, ?_⟩
          simp only [Heap.read_modify, Heap.read_cons]
          simp [hpx, hp]
        · refine ⟨gp.next, ?_⟩
          simp only [Heap.read_modify, Heap.read_cons]
          simp [hpx, hpq, hp, GLRC.with_next_self]
      · intro p k hk
        by_cases hpx : p = env.HeapAlloc
        · exact Or.inl hpx
        · have hpx2 : ¬ env.HeapAlloc = p := fun h => hpx h.symm
          right
          by_cases hpq : p = q
          · subst hpq; exact ⟨gq, hrq⟩
          · simp only [Heap.read_modify, Heap.read_cons, hpx2, hpq, if_false] at hk
            exact ⟨k, hk⟩
    · simp [Heap.read]
    · intro p gp hp
      have hpx : ¬ env.HeapAlloc = p := by
        intro h; rw [← h, hfresh] at hp; cases hp
      by_cases hpq : p = q
      · subst hpq
        simp only [Heap.read_cons, Heap.read_modify]
        simp [hpx, hp, hlast]
      · have : ¬ l.getLast? = some p := by
          rw [hlast]; intro h; cases h; exact hpq rfl
        simp only [Heap.read_cons, Heap.read_modify]
        simp [hpx, hpq, hp, this]

/-! ## The entry points keep the invariant -/

/-- On a well-formed registry `wglMakeCurrent` returns and leaves a
well-formed registry with the same contexts. -/
theorem wglMakeCurrent_inv {s : State} {l : List Ptr} (hi : InvWith s l) (env : Env)
    (tid hdc : Nat) (hglrc : Ptr) :
    ∃ o, wglMakeCurrent env s tid hdc hglrc = some o ∧ InvWith o.state l := by
  by_cases hdcv : env.isDC hdc = false
  · exact ⟨⟨false, s, []⟩, by simp [wglMakeCurrent, hdcv], hi⟩
  · by_cases hm : hglrc ∈ l
    · obtain ⟨g, hg, hicd, hh⟩ := hi.loaded_of_mem hm
      by_cases hcur : g.is_current = true
      · exact ⟨⟨false, s, []⟩,
          by simp [wglMakeCurrent, hdcv, hi.contains, hm, hg, hcur], hi⟩
      · by_cases hdrv : env.DrvSetContext g.icd hdc g.hglrc = false
        · exact ⟨⟨false, s, [DrvCall.DrvSetContext g.icd hdc g.hglrc]⟩,
            by simp [wglMakeCurrent, hdcv, hi.contains, hm, hg, hcur, hicd, hh, hdrv], hi⟩
        · have hidle : g.is_current = false := by simpa using hcur
          obtain ⟨o, ho, _, _, hinv, _⟩ := makeItCurrent_spec hi tid hglrc
            [DrvCall.DrvSetContext g.icd hdc g.hglrc] g hg hidle
          exact ⟨o, by simp [wglMakeCurrent, hdcv, hi.contains, hm, hg, hcur, hicd, hh,
            hdrv, ho], hinv⟩
    · exact ⟨⟨false, s, []⟩, by simp [wglMakeCurrent, hdcv, hi.contains, hm], hi⟩

/-- On a well-formed registry `wglDeleteContext` returns and leaves a
well-formed registry. -/
theorem wglDeleteContext_inv {s : State} {l : List Ptr} (hi : InvWith s l) (env : Env)
    (hglrc : Ptr) :
    ∃ o, wglDeleteContext env s hglrc = some o ∧
      (InvWith o.state l ∨ InvWith o.state (l.erase hglrc)) := by
  by_cases hm : hglrc ∈ l
  · obtain ⟨g, hg, hicd, hh⟩ := hi.loaded_of_mem hm
    by_cases hcur : g.is_current = true
    · exact ⟨⟨false, s, []⟩, by simp [wglDeleteContext, hi.contains, hm, hg, hcur],
        Or.inl hi⟩
    · by_cases hdrv : env.DrvDeleteContext g.icd g.hglrc = false
      · exact ⟨⟨false, s, [DrvCall.DrvDeleteContext g.icd g.hglrc]⟩,
          by simp [wglDeleteContext, hi.contains, hm, hg, hcur, hicd, hh, hdrv], Or.inl hi⟩
      · have hidle : g.is_current = false := by simpa using hcur
        obtain ⟨o, ho, _, _, hinv, _⟩ := freeResources_spec hi hglrc
          [DrvCall.DrvDeleteContext g.icd g.hglrc] g hg hidle
        exact ⟨o, by simp [wglDeleteContext, hi.contains, hm, hg, hcur, hicd, hh, hdrv, ho],
          Or.inr hinv⟩
  · exact ⟨⟨false, s, []⟩, by simp [wglDeleteContext, hi.contains, hm], Or.inl hi⟩

/-- On a well-formed registry, with an allocator that keeps its contract,
`wglCreateContext` and `wglCreateLayerContext` return and leave a
well-formed registry. -/
theorem createContext_inv {s : State} {l : List Ptr} (hi : InvWith s l) (env : Env)
    (create : Ptr → Nat) (call : Ptr → DrvCall) (hdc : Nat) (hok : env.allocOK s) :
    ∃ o, createContext env s create call hdc = some o ∧
      (InvWith o.state l ∨ InvWith o.state (l ++ [env.HeapAlloc])) := by
  by_cases h : env.isDC hdc = false ∨ env.RegOpenKeyExW = false ∨ env.HeapAlloc = 0 ∨
      (findICD env create call env.RegEnumKeyExW 0 0).2.1 = 0
  · obtain ⟨calls, hc⟩ := createContext_fail env s create call hdc hok h
    exact ⟨_, hc, Or.inl hi⟩
  · simp only [not_or] at h
    obtain ⟨h1, h2, h3, h4⟩ := h
    obtain ⟨o, ho, _, _, hinv, _⟩ := createContext_success hi env create call hdc hok
      (by simpa using h1) (by simpa using h2) h3 h4
    exact ⟨o, ho, Or.inr hinv⟩

theorem wglCopyContext_state {env : Env} {s : State} {hsrc hdst : Ptr} {mask : Nat}
    {o : Out Bool} (h : wglCopyContext env s hsrc hdst mask = some o) : o.state = s := by
  unfold wglCopyContext at h
  repeat' split at h
  all_goals first
    | (cases h; rfl)
    | cases h

theorem wglShareLists_state {env : Env} {s : State} {hglrc1 hglrc2 : Ptr}
    {o : Out Bool} (h : wglShareLists env s hglrc1 hglrc2 = some o) : o.state = s := by
  unfold wglShareLists at h
  repeat' split at h
  all_goals first
    | (cases h; rfl)
    | cases h

theorem wglSwapBuffers_state {env : Env} {s : State} {tid hdc : Nat}
    {o : Out Bool} (h : wglSwapBuffers env s tid hdc = some o) : o.state = s := by
  unfold wglSwapBuffers at h
  repeat' split at h
  all_goals first
    | (cases h; rfl)
    | cases h

theorem wglGetProcAddress_state {env : Env} {s : State} {tid : Nat} {proc : List Char}
    {o : Out Nat} (h : wglGetProcAddress env s tid proc = some o) : o.state = s := by
  unfold wglGetProcAddress at h
  repeat' split at h
  all_goals first
    | (cases h; rfl)
    | cases h

/-- Every call keeps the registry invariant. -/
theorem Step.preserves_inv {s t : State} (hs : Inv s) (h : Step s t) : Inv t := by
  obtain ⟨l, hi⟩ := hs
  cases h with
  | createContext env _ hdc o hok ho =>
    obtain ⟨o2, ho2, hinv⟩ := createContext_inv hi env _ _ hdc hok
    unfold wglCreateContext at ho; rw [ho2] at ho; cases ho
    rcases hinv with h | h
    · exact ⟨_, h⟩
    · exact ⟨_, h⟩
  | createLayerContext env _ hdc layer o hok ho =>
    obtain ⟨o2, ho2, hinv⟩ := createContext_inv hi env _ _ hdc hok
    unfold wglCreateLayerContext at ho; rw [ho2] at ho; cases ho
    rcases hinv with h | h
    · exact ⟨_, h⟩
    · exact ⟨_, h⟩
  | makeCurrent env _ tid hdc hglrc o ho =>
    obtain ⟨o2, ho2, hinv⟩ := wglMakeCurrent_inv hi env tid hdc hglrc
    rw [ho2] at ho; cases ho
    exact ⟨_, hinv⟩
  | deleteContext env _ hglrc o ho =>
    obtain ⟨o2, ho2, hinv⟩ := wglDeleteContext_inv hi env hglrc
    rw [ho2] at ho; cases ho
    rcases hinv with h | h
    · exact ⟨_, h⟩
    · exact ⟨_, h⟩
  | copyContext env _ hsrc hdst mask o ho =>
    rw [wglCopyContext_state ho]; exact ⟨l, hi⟩
  | shareLists env _ hglrc1 hglrc2 o ho =>
    rw [wglShareLists_state ho]; exact ⟨l, hi⟩
  | swapBuffers env _ tid hdc o ho =>
    rw [wglSwapBuffers_state ho]; exact ⟨l, hi⟩
  | getProcAddress env _ tid proc o ho =>
    rw [wglGetProcAddress_state ho]; exact ⟨l, hi⟩

theorem Inv.init : Inv State.init :=
  ⟨[], ⟨rfl, List.nodup_nil, by intro p g h; simp [State.init, Heap.read] at h,
    by intro p g h; simp [State.init, Heap.read] at h,
    by intro t h; exact absurd rfl h⟩⟩

/-- Every reachable state satisfies the registry invariant. -/
theorem Reachable.inv {s : State} (h : Reachable s) : Inv s := by
  induction h with
  | init => exact Inv.init
  | step s t _ hst ih => exact Step.preserves_inv ih hst

/-- C1: in every state reachable from the empty initial state by calls of
the entry points, made by any threads and with the ICDs answering in any
way, no rendering context is the current context
(`OPENGL32_threaddata->glrc`) of two different threads. -/
theorem current_context_unique (s : State) (hs : Reachable s) (t1 t2 : Nat)
    (hne : t1 ≠ t2) (h1 : wglGetCurrentContext s t1 ≠ 0) :
    wglGetCurrentContext s t1 ≠ wglGetCurrentContext s t2 := by
  obtain ⟨l, hi⟩ := hs.inv
  intro h12
  simp only [wglGetCurrentContext] at h1 h12
  have h2 : s.threaddata t2 ≠ 0 := h12 ▸ h1
  obtain ⟨_, g1, hg1, _, ht1⟩ := hi.bound t1 h1
  obtain ⟨_, g2, hg2, _, ht2⟩ := hi.bound t2 h2
  rw [h12, hg2] at hg1
  cases hg1
  exact hne (ht1.symm.trans ht2)

/-! ## The sample runs are runs -/

theorem sample1_reachable : Reachable sample1 :=
  Reachable.step _ _ Reachable.init
    (Step.createContext (Env.sample 1 100) State.init 7
      ⟨1, sample1, [DrvCall.LoadICD "icd", DrvCall.DrvCreateContext 100 7]⟩
      (by decide) rfl)

theorem sample2_reachable : Reachable sample2 :=
  Reachable.step _ _ sample1_reachable
    (Step.createContext (Env.sample 2 200) sample1 7
      ⟨2, sample2, [DrvCall.LoadICD "icd", DrvCall.DrvCreateContext 200 7]⟩
      (by decide) rfl)

theorem sample3_reachable : Reachable sample3 :=
  Reachable.step _ _ sample2_reachable
    (Step.makeCurrent (Env.sample 3 100) sample2 1 7 1
      ⟨true, sample3, [DrvCall.DrvSetContext 100 7 51]⟩ rfl)

theorem sample4_reachable : Reachable sample4 :=
  Reachable.step _ _ sample3_reachable
    (Step.makeCurrent (Env.sample 3 100) sample3 2 7 2
      ⟨true, sample4, [DrvCall.DrvSetContext 200 7 52]⟩ rfl)

/-- Threads `1` and `2` of the fourth sample state hold different contexts. -/
theorem current_context_unique_witness :
    Reachable sample4 ∧ wglGetCurrentContext sample4 1 ≠ 0 ∧
      wglGetCurrentContext sample4 1 ≠ wglGetCurrentContext sample4 2 :=
  ⟨sample4_reachable, by decide,
    current_context_unique sample4 sample4_reachable 1 2 (by decide) (by decide)⟩

/-- Context `1` of the third sample state is current and cannot be deleted. -/
theorem wglDeleteContext_current_witness :
    WGL_ContainsContext sample3 1 = some true ∧
      sample3.deref 1 = some (sampleGLRC 51 100 2 true 1) ∧
      wglDeleteContext (Env.sample 3 100) sample3 1 = some ⟨false, sample3, []⟩ :=
  ⟨rfl, rfl,
    wglDeleteContext_current (Env.sample 3 100) sample3 1 (sampleGLRC 51 100 2 true 1)
      rfl rfl rfl⟩

/-- Context `1` of the third sample state is current on thread `1` and is
refused to thread `2`. -/
theorem wglMakeCurrent_current_witness :
    WGL_ContainsContext sample3 1 = some true ∧
      sample3.deref 1 = some (sampleGLRC 51 100 2 true 1) ∧
      wglMakeCurrent (Env.sample 3 100) sample3 2 7 1 = some ⟨false, sample3, []⟩ :=
  ⟨rfl, rfl,
    wglMakeCurrent_current (Env.sample 3 100) sample3 2 7 1 (sampleGLRC 51 100 2 true 1)
      rfl rfl rfl⟩

/-- The handle `5` is not registered in the second sample state and is
turned down in the first position of `wglCopyContext`. -/
theorem unregistered_handle_rejected_witness :
    WGL_ContainsContext sample2 5 = some false ∧
      wglCopyContext (Env.sample 3 100) sample2 5 1 0 = some ⟨false, sample2, []⟩ :=
  ⟨rfl, ((unregistered_handle_rejected (Env.sample 3 100) sample2 5 rfl).2.2.1 1 0).1⟩

/-- The two contexts of the second sample state have different ICDs. -/
theorem wglShareLists_registered_witness :
    ∃ o, wglShareLists (Env.sample 3 100) sample2 1 2 = some o ∧ o.state = sample2 ∧
      (o.ret = true ↔
        (sampleGLRC 51 100 2 false 0).icd = (sampleGLRC 52 200 0 false 0).icd ∧
          (Env.sample 3 100).DrvShareLists (sampleGLRC 51 100 2 false 0).icd
            (sampleGLRC 51 100 2 false 0).hglrc (sampleGLRC 52 200 0 false 0).hglrc = true) ∧
      ((sampleGLRC 51 100 2 false 0).icd ≠ (sampleGLRC 52 200 0 false 0).icd →
        o.calls = []) ∧
      ((sampleGLRC 51 100 2 false 0).icd = (sampleGLRC 52 200 0 false 0).icd →
        o.calls = [DrvCall.DrvShareLists (sampleGLRC 51 100 2 false 0).icd
          (sampleGLRC 51 100 2 false 0).hglrc (sampleGLRC 52 200 0 false 0).hglrc]) :=
  wglShareLists_registered (Env.sample 3 100) sample2 1 2 (sampleGLRC 51 100 2 false 0)
    (sampleGLRC 52 200 0 false 0) rfl rfl rfl rfl (by decide)

/-! ## `wglCopyContext` across ICDs -/

/-- C4, the code at the failing input: in the second sample state the
registered contexts `1` and `2` belong to the ICDs `100` and `200`, and
`wglCopyContext (1, 2, 0)` calls `DrvCopyContext` of ICD `100` and returns
its `TRUE`. -/
theorem wglCopyContext_cross_icd :
    Reachable sample2 ∧
      sample2.deref 1 = some (sampleGLRC 51 100 2 false 0) ∧
      sample2.deref 2 = some (sampleGLRC 52 200 0 false 0) ∧
      wglCopyContext (Env.sample 3 100) sample2 1 2 0
        = some ⟨true, sample2, [DrvCall.DrvCopyContext 100 51 52 0]⟩ :=
  ⟨sample2_reachable, rfl, rfl, rfl⟩

/-! ## `wglMakeCurrent (hdc, NULL)` -/

/-- C3 fails on the code: in the third sample state thread `1` holds context
`1`; `wglMakeCurrent (hdc, NULL)` with a valid DC returns `FALSE` and leaves
the state as it was; no call of it returns `TRUE` or unbinds the thread.  It
returns `FALSE` in the initial state, where nothing is bound, as well. -/
theorem wglMakeCurrent_null_counterexample :
    Reachable sample3 ∧ (Env.sample 3 100).isDC 7 = true ∧
      wglGetCurrentContext sample3 1 = 1 ∧
      wglMakeCurrent (Env.sample 3 100) sample3 1 7 0 = some ⟨false, sample3, []⟩ ∧
      (¬ ∃ o, wglMakeCurrent (Env.sample 3 100) sample3 1 7 0 = some o ∧
        (o.ret = true ∨ wglGetCurrentContext o.state 1 = 0)) ∧
      wglMakeCurrent (Env.sample 3 100) State.init 1 7 0
        = some ⟨false, State.init, []⟩ := by
  refine ⟨sample3_reachable, rfl, rfl, rfl, ?_, rfl⟩
  rintro ⟨o, ho, h⟩
  have : wglMakeCurrent (Env.sample 3 100) sample3 1 7 0 = some ⟨false, sample3, []⟩ := rfl
  rw [this] at ho
  cases ho
  rcases h with h | h
  · cases h
  · revert h; decide

/-- C3 as the code has it: in every reachable state `wglMakeCurrent (hdc,
NULL)` returns `FALSE`, calls no ICD and changes nothing; the thread keeps
its binding, and a context it holds stays current, so that
`wglDeleteContext` on it still returns `FALSE`. -/
theorem wglMakeCurrent_null (s : State) (hs : Reachable s) (env : Env) (tid hdc : Nat) :
    wglMakeCurrent env s tid hdc 0 = some ⟨false, s, []⟩ ∧
    (wglGetCurrentContext s tid ≠ 0 →
      ∀ env2, wglDeleteContext env2 s (wglGetCurrentContext s tid)
        = some ⟨false, s, []⟩) := by
  obtain ⟨l, hi⟩ := hs.inv
  have h0 : (0 : Ptr) ∉ l := fun h => hi.chain.ne_zero_of_mem h rfl
  have hc : WGL_ContainsContext s 0 = some false := by simp [hi.contains, h0]
  refine ⟨(wglMakeCurrent_unregistered env s 0 hc tid hdc), ?_⟩
  intro hb env2
  obtain ⟨hm, g, hg, hcur, _⟩ := hi.bound tid hb
  simp [wglDeleteContext, wglGetCurrentContext, hi.contains, hm, hg, hcur]

/-- In the third sample state thread `1` keeps context `1` when it asks for
`NULL`. -/
theorem wglMakeCurrent_null_witness :
    Reachable sample3 ∧
      wglMakeCurrent (Env.sample 3 100) sample3 1 7 0 = some ⟨false, sample3, []⟩ :=
  ⟨sample3_reachable, (wglMakeCurrent_null sample3 sample3_reachable (Env.sample 3 100) 1 7).1⟩

/-! ## The first ICD that makes a context wins -/

/-- The loop over the ICD names stops at the first name whose ICD loads and
makes a context; the names in front of it are tried in order, the names
behind it are not touched. -/
theorem findICD_first (env : Env) (create : Ptr → Nat) (call : Ptr → DrvCall)
    (d : String) (post : List String)
    (hl : env.OPENGL32_LoadICD d ≠ 0) (hc : create (env.OPENGL32_LoadICD d) ≠ 0) :
    ∀ (pre : List String) (icd : Ptr),
      (∀ n ∈ pre, env.OPENGL32_LoadICD n = 0 ∨ create (env.OPENGL32_LoadICD n) = 0) →
      findICD env create call (pre ++ d :: post) icd 0
        = (env.OPENGL32_LoadICD d, create (env.OPENGL32_LoadICD d),
            (pre.flatMap fun n =>
              if env.OPENGL32_LoadICD n = 0 then [DrvCall.LoadICD n]
              else [DrvCall.LoadICD n, call (env.OPENGL32_LoadICD n),
                DrvCall.UnloadICD (env.OPENGL32_LoadICD n)])
            ++ [DrvCall.LoadICD d, call (env.OPENGL32_LoadICD d)]) := by
  intro pre
  induction pre with
  | nil => intro icd _; simp [findICD, hl, hc]
  | cons a pre ih =>
    intro icd hpre
    have hrest : ∀ n ∈ pre,
        env.OPENGL32_LoadICD n = 0 ∨ create (env.OPENGL32_LoadICD n) = 0 :=
      fun n hn => hpre n (List.mem_cons_of_mem _ hn)
    have ih2 := fun icd => ih icd hrest
    by_cases ha : env.OPENGL32_LoadICD a = 0
    · simp [findICD, ha, ih2]
    · have hca : create (env.OPENGL32_LoadICD a) = 0 := by
        rcases hpre a (List.mem_cons_self _ _) with h | h
        · exact absurd h ha
        · exact h
      simp [findICD, ha, hca, ih2]

/-- C6: on a well-formed registry (every reachable one is), for a valid DC,
an openable driver key and a successful allocation: when the enumerated
names are `pre`, `d`, `post`, every ICD of `pre` fails to load or returns a
`NULL` context and the ICD of `d` loads and returns a context, then
`wglCreateContext` returns a registered context whose `icd` is the ICD of
`d` and whose `hglrc` is the handle that ICD returned.  The calls made are
the attempts on `pre`, in order, and the two calls for `d`: no name of
`post` is loaded and no ICD of `post` is called. -/
theorem wglCreateContext_first_icd (env : Env) (s : State) (hdc : Nat)
    (pre : List String) (d : String) (post : List String)
    (hs : Inv s) (hok : env.allocOK s)
    (h1 : env.isDC hdc = true) (h2 : env.RegOpenKeyExW = true) (h3 : env.HeapAlloc ≠ 0)
    (hnames : env.RegEnumKeyExW = pre ++ d :: post)
    (hpre : ∀ n ∈ pre, env.OPENGL32_LoadICD n = 0 ∨
      env.DrvCreateContext (env.OPENGL32_LoadICD n) hdc = 0)
    (hl : env.OPENGL32_LoadICD d ≠ 0)
    (hc : env.DrvCreateContext (env.OPENGL32_LoadICD d) hdc ≠ 0) :
    ∃ o g, wglCreateContext env s hdc = some o ∧ o.ret ≠ 0 ∧
      WGL_ContainsContext o.state o.ret = some true ∧
      o.state.deref o.ret = some g ∧
      g.icd = env.OPENGL32_LoadICD d ∧
      g.hglrc = env.DrvCreateContext (env.OPENGL32_LoadICD d) hdc ∧
      o.calls =
        (pre.flatMap fun n =>
          if env.OPENGL32_LoadICD n = 0 then [DrvCall.LoadICD n]
          else [DrvCall.LoadICD n, DrvCall.DrvCreateContext (env.OPENGL32_LoadICD n) hdc,
            DrvCall.UnloadICD (env.OPENGL32_LoadICD n)])
        ++ [DrvCall.LoadICD d, DrvCall.DrvCreateContext (env.OPENGL32_LoadICD d) hdc] := by
  obtain ⟨l, hi⟩ := hs
  have hf := findICD_first env (fun icd => env.DrvCreateContext icd hdc)
    (fun icd => DrvCall.DrvCreateContext icd hdc) d post hl hc pre 0 hpre
  rw [← hnames] at hf
  have h4 : (findICD env (fun icd => env.DrvCreateContext icd hdc)
      (fun icd => DrvCall.DrvCreateContext icd hdc) env.RegEnumKeyExW 0 0).2.1 ≠ 0 := by
    rw [hf]; exact hc
  obtain ⟨o, ho, hret, hcalls, hinv, _, _, hnew, _⟩ :=
    createContext_success hi env _ _ hdc hok h1 h2 h3 h4
  rw [hf] at hcalls hnew
  refine ⟨o, newGLRC env (env.OPENGL32_LoadICD d)
    (env.DrvCreateContext (env.OPENGL32_LoadICD d) hdc), ho, by rw [hret]; exact h3,
    ?_, ?_, rfl, rfl, hcalls⟩
  · rw [hinv.contains, hret]; simp
  · rw [State.deref_eq, Heap.deref, hret, if_neg h3]; exact hnew

/-- In the world `Env.three` the third ICD wins on the first sample state:
the fourth one is not touched. -/
theorem wglCreateContext_first_icd_witness :
    ∃ o g, wglCreateContext Env.three sample1 7 = some o ∧ o.ret ≠ 0 ∧
      WGL_ContainsContext o.state o.ret = some true ∧
      o.state.deref o.ret = some g ∧
      g.icd = Env.three.OPENGL32_LoadICD "good" ∧
      g.hglrc = Env.three.DrvCreateContext (Env.three.OPENGL32_LoadICD "good") 7 ∧
      o.calls =
        (["broken", "nogl"].flatMap fun n =>
          if Env.three.OPENGL32_LoadICD n = 0 then [DrvCall.LoadICD n]
          else [DrvCall.LoadICD n,
            DrvCall.DrvCreateContext (Env.three.OPENGL32_LoadICD n) 7,
            DrvCall.UnloadICD (Env.three.OPENGL32_LoadICD n)])
        ++ [DrvCall.LoadICD "good",
          DrvCall.DrvCreateContext (Env.three.OPENGL32_LoadICD "good") 7] :=
  wglCreateContext_first_icd Env.three sample1 7 ["broken", "nogl"] "good" ["spare"]
    sample1_reachable.inv (by decide) rfl rfl (by decide) rfl (by decide) (by decide)
    (by decide)

/-! ## Switching the current context -/

/-- C9: on a well-formed registry (every reachable one is), when thread `T`
holds context `A` and calls `wglMakeCurrent (hdc, B)` for a registered
context `B` that is not current, with a valid DC and `DrvSetContext`
succeeding: the call returns `TRUE`; afterwards `A` has lost `is_current`
and is otherwise as before, `B` has `is_current` set and `thread_id = T`
and is otherwise as before, `T` is bound to `B`, and every other record,
every other binding and the list head are unchanged. -/
theorem wglMakeCurrent_switch (env : Env) (s : State) (T hdc : Nat) (A B : Ptr)
    (gB : GLRC) (hs : Inv s) (hdcv : env.isDC hdc = true)
    (hreg : WGL_ContainsContext s B = some true)
    (hgB : s.deref B = some gB) (hidle : gB.is_current = false)
    (hdrv : env.DrvSetContext gB.icd hdc gB.hglrc = true)
    (hA : wglGetCurrentContext s T = A) (hA0 : A ≠ 0) :
    ∃ o gA, wglMakeCurrent env s T hdc B = some o ∧ o.ret = true ∧
      s.deref A = some gA ∧
      o.state.deref A = some { gA with is_current := false } ∧
      o.state.deref B = some { gB with is_current := true, thread_id := T } ∧
      wglGetCurrentContext o.state T = B ∧
      (∀ q, q ≠ A → q ≠ B → o.state.heap.read q = s.heap.read q) ∧
      (∀ t, t ≠ T → wglGetCurrentContext o.state t = wglGetCurrentContext s t) ∧
      o.state.glrc_list = s.glrc_list := by
  obtain ⟨l, hi⟩ := hs
  subst hA
  simp only [wglGetCurrentContext] at hA0 ⊢
  obtain ⟨hicd, hh⟩ := hi.loaded B gB (State.deref_read hgB)
  obtain ⟨o, ho, hret, _, _, hhead, hth, hB, hAo, hframe⟩ := makeItCurrent_spec hi T B
    [DrvCall.DrvSetContext gB.icd hdc gB.hglrc] gB hgB hidle
  obtain ⟨gA, hgA, hgA2⟩ := hAo hA0
  refine ⟨o, gA, ?_, hret, hgA, hgA2, hB, by simp [hth], ?_, ?_, hhead⟩
  · simp [wglMakeCurrent, hdcv, hreg, hgB, hidle, hicd, hh, hdrv, ho]
  · intro q hqA hqB; exact hframe q hqB hqA
  · intro t ht; simp [hth, ht]

/-- Thread `1` of the third sample state switches from context `1` to
context `2`. -/
theorem wglMakeCurrent_switch_witness :
    ∃ o gA, wglMakeCurrent (Env.sample 3 100) sample3 1 7 2 = some o ∧ o.ret = true ∧
      sample3.deref 1 = some gA ∧
      o.state.deref 1 = some { gA with is_current := false } ∧
      o.state.deref 2
        = some { sampleGLRC 52 200 0 false 0 with is_current := true, thread_id := 1 } ∧
      wglGetCurrentContext o.state 1 = 2 ∧
      (∀ q, q ≠ 1 → q ≠ 2 → o.state.heap.read q = sample3.heap.read q) ∧
      (∀ t, t ≠ 1 → wglGetCurrentContext o.state t = wglGetCurrentContext sample3 t) ∧
      o.state.glrc_list = sample3.glrc_list :=
  wglMakeCurrent_switch (Env.sample 3 100) sample3 1 7 1 2 (sampleGLRC 52 200 0 false 0)
    sample3_reachable.inv rfl rfl rfl rfl rfl rfl (by decide)

/-! ## Deleting a context -/

/-- C10: on a well-formed registry (every reachable one is), for a
registered context that is not current and has an ICD context: when
`DrvDeleteContext` fails, `wglDeleteContext` returns `FALSE` and the state,
the registry with it, is as before; when it succeeds, `wglDeleteContext`
returns `TRUE`, the context is no longer registered and every other context
that was registered still is. -/
theorem wglDeleteContext_driver (env : Env) (s : State) (x : Ptr) (g : GLRC)
    (hs : Inv s) (hreg : WGL_ContainsContext s x = some true)
    (hg : s.deref x = some g) (hidle : g.is_current = false) (hh : g.hglrc ≠ 0) :
    (env.DrvDeleteContext g.icd g.hglrc = false →
      wglDeleteContext env s x
        = some ⟨false, s, [DrvCall.DrvDeleteContext g.icd g.hglrc]⟩) ∧
    (env.DrvDeleteContext g.icd g.hglrc = true →
      ∃ o, wglDeleteContext env s x = some o ∧ o.ret = true ∧
        o.calls = [DrvCall.DrvDeleteContext g.icd g.hglrc] ∧
        WGL_ContainsContext o.state x = some false ∧
        ∀ q, q ≠ x → WGL_ContainsContext s q = some true →
          WGL_ContainsContext o.state q = some true) := by
  obtain ⟨l, hi⟩ := hs
  obtain ⟨hicd, _⟩ := hi.loaded x g (State.deref_read hg)
  constructor
  · intro hdrv
    simp [wglDeleteContext, hreg, hg, hidle, hicd, hh, hdrv]
  · intro hdrv
    obtain ⟨o, ho, hret, hcalls, hinv, _⟩ := freeResources_spec hi x
      [DrvCall.DrvDeleteContext g.icd g.hglrc] g hg hidle
    refine ⟨o, ?_, hret, hcalls, ?_, ?_⟩
    · simp [wglDeleteContext, hreg, hg, hidle, hicd, hh, hdrv, ho]
    · rw [hinv.contains]
      have : x ∉ l.erase x := fun h => ((List.Nodup.mem_erase_iff hi.nodup).1 h).1 rfl
      simp [this]
    · intro q hq hqr
      rw [hi.contains] at hqr
      have hql : q ∈ l := by simpa using hqr
      rw [hinv.contains]
      simp [(List.mem_erase_of_ne hq).2 hql]

/-- Context `1` of the second sample state, with an ICD that deletes and
with one that refuses. -/
theorem wglDeleteContext_driver_witness :
    ((Env.refusing).DrvDeleteContext 100 51 = false ∧
      wglDeleteContext Env.refusing sample2 1
        = some ⟨false, sample2, [DrvCall.DrvDeleteContext 100 51]⟩) ∧
    ((Env.sample 3 100).DrvDeleteContext 100 51 = true ∧
      ∃ o, wglDeleteContext (Env.sample 3 100) sample2 1 = some o ∧ o.ret = true ∧
        o.calls = [DrvCall.DrvDeleteContext 100 51] ∧
        WGL_ContainsContext o.state 1 = some false ∧
        ∀ q, q ≠ 1 → WGL_ContainsContext sample2 q = some true →
          WGL_ContainsContext o.state q = some true) :=
  ⟨⟨rfl, (wglDeleteContext_driver Env.refusing sample2 1 (sampleGLRC 51 100 2 false 0)
      sample2_reachable.inv rfl rfl rfl (by decide)).1 rfl⟩,
   ⟨rfl, (wglDeleteContext_driver (Env.sample 3 100) sample2 1 (sampleGLRC 51 100 2 false 0)
      sample2_reachable.inv rfl rfl rfl (by decide)).2 rfl⟩⟩

/-! ## The bound on the list walks loses no result -/

theorem containsLoop_succ {s : State} {x : Ptr} {b : Bool} :
    ∀ {n : Nat} {p : Ptr}, containsLoop s x n p = some b →
      containsLoop s x (n + 1) p = some b := by
  intro n
  induction n with
  | zero => intro p h; simp [containsLoop] at h
  | succ n ih =>
    intro p h
    by_cases h0 : p = 0
    · subst h0; simpa [containsLoop] using h
    · by_cases hx : p = x
      · subst hx; simpa [containsLoop, h0] using h
      · cases hg : s.deref p with
        | none => simp [containsLoop, h0, hx, hg] at h
        | some g =>
          rw [containsLoop] at h ⊢
          simp only [h0, hx, hg, if_false] at h ⊢
          exact ih h

theorem containsLoop_mono {s : State} {x : Ptr} {b : Bool} {n m : Nat} {p : Ptr}
    (h : containsLoop s x n p = some b) (hle : n ≤ m) :
    containsLoop s x m p = some b := by
  induction hle with
  | refl => exact h
  | step _ ih => exact containsLoop_succ ih

/-- A walk that returns after exactly `n` iterations has passed `n - 1`
different allocated records. -/
theorem containsLoop_path {s : State} {x : Ptr} {b : Bool} :
    ∀ (n : Nat) (p : Ptr), containsLoop s x n p = some b →
      (∀ m, m < n → containsLoop s x m p = none) →
      ∃ l : List Ptr, l.length + 1 = n ∧ l.Nodup ∧
        ∀ q ∈ l, (∃ g, s.deref q = some g) ∧
          ∃ m, m ≤ n ∧ containsLoop s x m q = some b := by
  intro n
  induction n with
  | zero => intro p h; simp [containsLoop] at h
  | succ n ih =>
    intro p h hmin
    have hn0 : ∀ c, containsLoop s x 1 p = some c → n = 0 := by
      intro c hc
      by_contra hne
      have := hmin 1 (by omega)
      rw [hc] at this; cases this
    by_cases h0 : p = 0
    · have := hn0 false (by simp [containsLoop, h0])
      subst this
      exact ⟨[], rfl, List.nodup_nil, by intro q hq; simp at hq⟩
    · by_cases hx : p = x
      · have := hn0 true (by subst hx; simp [containsLoop, h0])
        subst this
        exact ⟨[], rfl, List.nodup_nil, by intro q hq; simp at hq⟩
      · cases hg : s.deref p with
        | none => simp [containsLoop, h0, hx, hg] at h
        | some g =>
          have hstep : ∀ k, containsLoop s x (k + 1) p = containsLoop s x k g.next := by
            intro k; rw [containsLoop]; simp only [h0, hx, hg, if_false]
          rw [hstep] at h
          have hmin2 : ∀ m, m < n → containsLoop s x m g.next = none := by
            intro m hm
            rw [← hstep]; exact hmin (m + 1) (by omega)
          obtain ⟨l, hlen, hnd, hl⟩ := ih g.next h hmin2
          refine ⟨p :: l, by simp [hlen], ?_, ?_⟩
          · refine List.nodup_cons.2 ⟨?_, hnd⟩
            intro hp
            obtain ⟨_, m, hm, hc⟩ := hl p hp
            have := hmin m (by omega)
            rw [hc] at this; cases this
          · intro q hq
            rcases List.mem_cons.1 hq with hqp | hql
            · subst hqp
              exact ⟨⟨g, hg⟩, n + 1, le_refl _, by rw [hstep]; exact h⟩
            · obtain ⟨ha, m, hm, hc⟩ := hl q hql
              exact ⟨ha, m, by omega, hc⟩

/-- When the loop of `WGL_ContainsContext` returns at all, it returns within
the iterations the model gives it: the bound cuts off only walks that never
end. -/
theorem containsLoop_fuel {s : State} {x : Ptr} {b : Bool} {n : Nat} {p : Ptr}
    (h : containsLoop s x n p = some b) : containsLoop s x s.fuel p = some b := by
  classical
  have hex : ∃ k, (containsLoop s x k p).isSome = true := ⟨n, by simp [h]⟩
  have hk := Nat.find_spec hex
  have hmin : ∀ m, m < Nat.find hex → containsLoop s x m p = none := by
    intro m hm
    have := Nat.find_min hex hm
    simpa using this
  obtain ⟨c, hc⟩ := Option.isSome_iff_exists.1 hk
  have hle : Nat.find hex ≤ n := Nat.find_min' hex (by simp [h])
  have hcb : c = b := by
    have := containsLoop_mono hc hle
    rw [h] at this; cases this; rfl
  subst hcb
  obtain ⟨l, hlen, hnd, hl⟩ := containsLoop_path _ p hc hmin
  have hsub : l ⊆ s.heap.map Prod.fst := by
    intro q hq
    obtain ⟨⟨g, hg⟩, _⟩ := hl q hq
    exact Heap.read_mem_keys _ _ _ (State.deref_read hg)
  have hll := (List.subperm_of_subset hnd hsub).length_le
  simp only [List.length_map] at hll
  exact containsLoop_mono hc (by simp only [State.fuel]; omega)

/-! ## Calls served by the ICD of the current context -/

/-- C13: `wglGetProcAddress (proc)` returns `NULL` and calls no ICD when the
calling thread has no current context.  When the thread has one, with a
loaded ICD, and `proc` begins with `gl`, it returns exactly what
`DrvGetProcAddress (proc)` of that ICD returns.  On a well-formed registry
(every reachable one is) a bound context has a record and a loaded ICD. -/
theorem wglGetProcAddress_spec (env : Env) (s : State) (tid : Nat) (proc : List Char) :
    (wglGetCurrentContext s tid = 0 →
      wglGetProcAddress env s tid proc = some ⟨0, s, []⟩) ∧
    (∀ g, wglGetCurrentContext s tid ≠ 0 →
      s.deref (wglGetCurrentContext s tid) = some g → g.icd ≠ 0 →
      charAt proc 0 = 'g' → charAt proc 1 = 'l' →
      wglGetProcAddress env s tid proc
        = some ⟨env.DrvGetProcAddress g.icd proc, s,
            [DrvCall.DrvGetProcAddress g.icd proc]⟩) ∧
    (Inv s → wglGetCurrentContext s tid ≠ 0 →
      ∃ g, s.deref (wglGetCurrentContext s tid) = some g ∧ g.icd ≠ 0) := by
  refine ⟨?_, ?_, ?_⟩
  · intro h
    simp only [wglGetCurrentContext] at h
    simp [wglGetProcAddress, h]
  · intro g hb hg hicd h0 h1
    simp only [wglGetCurrentContext] at hb hg
    by_cases hv : env.DrvGetProcAddress g.icd proc = 0
    · simp [wglGetProcAddress, hb, hg, hicd, h0, h1, hv]
    · simp [wglGetProcAddress, hb, hg, hicd, h0, h1, hv]
  · rintro ⟨l, hi⟩ hb
    simp only [wglGetCurrentContext] at hb ⊢
    obtain ⟨_, g, hg, _, _⟩ := hi.bound tid hb
    exact ⟨g, hg, (hi.loaded _ g (State.deref_read hg)).1⟩

/-- In the third sample state thread `2` has no context and gets `NULL`,
thread `1` holds context `1` and gets the answer `77` of its ICD `100`. -/
theorem wglGetProcAddress_spec_witness :
    wglGetProcAddress (Env.sample 3 100) sample3 2 ['g', 'l', 'F', 'o', 'o']
      = some ⟨0, sample3, []⟩ ∧
    wglGetProcAddress (Env.sample 3 100) sample3 1 ['g', 'l', 'F', 'o', 'o']
      = some ⟨77, sample3, [DrvCall.DrvGetProcAddress 100 ['g', 'l', 'F', 'o', 'o']]⟩ :=
  ⟨(wglGetProcAddress_spec (Env.sample 3 100) sample3 2 ['g', 'l', 'F', 'o', 'o']).1 rfl,
   (wglGetProcAddress_spec (Env.sample 3 100) sample3 1 ['g', 'l', 'F', 'o', 'o']).2.1
      (sampleGLRC 51 100 2 true 1) (by decide) rfl (by decide) (by decide) (by decide)⟩

/-- A name that begins with `wgl` gets `NULL` and no ICD is called, whatever
the state. -/
theorem wglGetProcAddress_wgl (env : Env) (s : State) (tid : Nat) (proc : List Char)
    (h0 : charAt proc 0 = 'w') (h1 : charAt proc 1 = 'g') (h2 : charAt proc 2 = 'l') :
    wglGetProcAddress env s tid proc = some ⟨0, s, []⟩ := by
  by_cases hb : s.threaddata tid = 0
  · simp [wglGetProcAddress, hb]
  · simp [wglGetProcAddress, hb, h0, h1, h2]

/-- C14, the code at the failing input: in the third sample state thread `1`
holds context `1` of ICD `100`, whose `DrvGetProcAddress` answers `77`; for
the name `gluFoo` the branch for `gl` names is taken, the ICD is called and
its `77` is returned instead of `NULL`. -/
theorem wglGetProcAddress_glu :
    Reachable sample3 ∧ wglGetCurrentContext sample3 1 = 1 ∧
      wglGetProcAddress (Env.sample 3 100) sample3 1 ['g', 'l', 'u', 'F', 'o', 'o']
        = some ⟨77, sample3,
            [DrvCall.DrvGetProcAddress 100 ['g', 'l', 'u', 'F', 'o', 'o']]⟩ :=
  ⟨sample3_reachable, rfl, rfl⟩

/-- C15: `wglSwapBuffers (hdc)` returns `FALSE` and calls no ICD when the
calling thread has no current context.  When the thread has one, with an ICD
context and a loaded ICD, it calls `DrvSwapBuffers (hdc)` of that ICD and
returns `TRUE` exactly when that call succeeds.  It never changes the state.
On a well-formed registry (every reachable one is) a bound context has a
record, an ICD context and a loaded ICD. -/
theorem wglSwapBuffers_spec (env : Env) (s : State) (tid hdc : Nat) :
    (wglGetCurrentContext s tid = 0 →
      wglSwapBuffers env s tid hdc = some ⟨false, s, []⟩) ∧
    (∀ g, wglGetCurrentContext s tid ≠ 0 →
      s.deref (wglGetCurrentContext s tid) = some g → g.hglrc ≠ 0 → g.icd ≠ 0 →
      wglSwapBuffers env s tid hdc
        = some ⟨env.DrvSwapBuffers g.icd hdc, s, [DrvCall.DrvSwapBuffers g.icd hdc]⟩) ∧
    (∀ o, wglSwapBuffers env s tid hdc = some o → o.state = s) ∧
    (Inv s → wglGetCurrentContext s tid ≠ 0 →
      ∃ g, s.deref (wglGetCurrentContext s tid) = some g ∧ g.hglrc ≠ 0 ∧ g.icd ≠ 0) := by
  refine ⟨?_, ?_, ?_, ?_⟩
  · intro h
    simp only [wglGetCurrentContext] at h
    simp [wglSwapBuffers, h]
  · intro g hb hg hh hicd
    simp only [wglGetCurrentContext] at hb hg
    by_cases hv : env.DrvSwapBuffers g.icd hdc = false
    · simp [wglSwapBuffers, hb, hg, hh, hicd, hv]
    · have hv2 : env.DrvSwapBuffers g.icd hdc = true := by simpa using hv
      simp [wglSwapBuffers, hb, hg, hh, hicd, hv2]
  · intro o ho; exact wglSwapBuffers_state ho
  · rintro ⟨l, hi⟩ hb
    simp only [wglGetCurrentContext] at hb ⊢
    obtain ⟨_, g, hg, _, _⟩ := hi.bound tid hb
    have := hi.loaded _ g (State.deref_read hg)
    exact ⟨g, hg, this.2, this.1⟩

/-- In the third sample state thread `2` has no context and gets `FALSE`,
thread `1` holds context `1` and gets the `TRUE` of its ICD `100`. -/
theorem wglSwapBuffers_spec_witness :
    wglSwapBuffers (Env.sample 3 100) sample3 2 7 = some ⟨false, sample3, []⟩ ∧
    wglSwapBuffers (Env.sample 3 100) sample3 1 7
      = some ⟨true, sample3, [DrvCall.DrvSwapBuffers 100 7]⟩ :=
  ⟨(wglSwapBuffers_spec (Env.sample 3 100) sample3 2 7).1 rfl,
   (wglSwapBuffers_spec (Env.sample 3 100) sample3 1 7).2.1
      (sampleGLRC 51 100 2 true 1) (by decide) rfl (by decide) (by decide)⟩

/-- C16, the code at the failing input: in the second sample state thread
`1` makes context `1` current for the DC `7`, the call returns `TRUE`, and
`wglGetCurrentDC` on thread `1` then returns `NULL` and not `7`: no statement
of `wglMakeCurrent` writes `glrc->hdc`. -/
theorem wglGetCurrentDC_after_makeCurrent :
    Reachable sample2 ∧
      wglMakeCurrent (Env.sample 3 100) sample2 1 7 1
        = some ⟨true, sample3, [DrvCall.DrvSetContext 100 7 51]⟩ ∧
      wglGetCurrentContext sample3 1 = 1 ∧
      wglGetCurrentDC sample3 1 = some 0 :=
  ⟨sample2_reachable, rfl, rfl, rfl⟩

/-! ## Current contexts and the threads that own them -/

/-- What a call of `wglMakeCurrent` that returns has done, on a well-formed
registry: nothing, or the `make it current` end for a context that was not
current. -/
theorem wglMakeCurrent_cases {s : State} {l : List Ptr} (hi : InvWith s l) {env : Env}
    {tid hdc : Nat} {hglrc : Ptr} {o : Out Bool}
    (ho : wglMakeCurrent env s tid hdc hglrc = some o) :
    o.state = s ∨
      ∃ g calls, s.deref hglrc = some g ∧ g.is_current = false ∧
        makeItCurrent s tid hglrc calls = some o := by
  by_cases hdcv : env.isDC hdc = false
  · simp [wglMakeCurrent, hdcv] at ho; subst ho; exact Or.inl rfl
  · by_cases hm : hglrc ∈ l
    · obtain ⟨g, hg, hicd, hh⟩ := hi.loaded_of_mem hm
      by_cases hcur : g.is_current = true
      · simp [wglMakeCurrent, hdcv, hi.contains, hm, hg, hcur] at ho
        subst ho; exact Or.inl rfl
      · have hidle : g.is_current = false := by simpa using hcur
        by_cases hdrv : env.DrvSetContext g.icd hdc g.hglrc = false
        · simp [wglMakeCurrent, hdcv, hi.contains, hm, hg, hcur, hicd, hh, hdrv] at ho
          subst ho; exact Or.inl rfl
        · simp [wglMakeCurrent, hdcv, hi.contains, hm, hg, hcur, hicd, hh, hdrv] at ho
          exact Or.inr ⟨g, _, hg, hidle, ho⟩
    · simp [wglMakeCurrent, hdcv, hi.contains, hm] at ho
      subst ho; exact Or.inl rfl

/-- What a call of `wglDeleteContext` that returns has done, on a
well-formed registry: nothing, or the `free resources` end for a context
that was not current. -/
theorem wglDeleteContext_cases {s : State} {l : List Ptr} (hi : InvWith s l) {env : Env}
    {hglrc : Ptr} {o : Out Bool} (ho : wglDeleteContext env s hglrc = some o) :
    o.state = s ∨
      ∃ g calls, s.deref hglrc = some g ∧ g.is_current = false ∧
        freeResources s hglrc calls = some o := by
  by_cases hm : hglrc ∈ l
  · obtain ⟨g, hg, hicd, hh⟩ := hi.loaded_of_mem hm
    by_cases hcur : g.is_current = true
    · simp [wglDeleteContext, hi.contains, hm, hg, hcur] at ho
      subst ho; exact Or.inl rfl
    · have hidle : g.is_current = false := by simpa using hcur
      by_cases hdrv : env.DrvDeleteContext g.icd g.hglrc = false
      · simp [wglDeleteContext, hi.contains, hm, hg, hcur, hicd, hh, hdrv] at ho
        subst ho; exact Or.inl rfl
      · simp [wglDeleteContext, hi.contains, hm, hg, hcur, hicd, hh, hdrv] at ho
        exact Or.inr ⟨g, _, hg, hidle, ho⟩
  · simp [wglDeleteContext, hi.contains, hm] at ho
    subst ho; exact Or.inl rfl

theorem Owned.owned_init : Owned State.init :=
  ⟨by intro p g h; simp [State.init, State.deref, Heap.deref, Heap.read] at h,
   by intro p g h; simp [State.init, State.deref, Heap.deref, Heap.read] at h⟩

/-- The `make it current` end keeps `Owned`. -/
theorem makeItCurrent_owned {s : State} {l : List Ptr} (hi : InvWith s l) (he : Owned s)
    {tid : Nat} {hglrc : Ptr} {calls : List DrvCall} {g : GLRC} {o : Out Bool}
    (hg : s.deref hglrc = some g) (hidle : g.is_current = false)
    (ho : makeItCurrent s tid hglrc calls = some o) : Owned o.state := by
  obtain ⟨o2, ho2, _, _, _, _, hth, hB, hA, hframe⟩ :=
    makeItCurrent_spec hi tid hglrc calls g hg hidle
  rw [ho2] at ho; cases ho
  -- every record of the new state, traced back
  have htrace : ∀ p k, o.state.deref p = some k →
      (p = hglrc ∧ k = { g with is_current := true, thread_id := tid }) ∨
      (p ≠ hglrc ∧ p = s.threaddata tid ∧ k.is_current = false ∧
        ∃ ga, s.deref p = some ga ∧ k.hdc = ga.hdc) ∨
      (p ≠ hglrc ∧ p ≠ s.threaddata tid ∧ s.deref p = some k) := by
    intro p k hk
    have hp0 := State.deref_ne_zero hk
    by_cases hp : p = hglrc
    · subst hp; rw [hB] at hk; cases hk; exact Or.inl ⟨rfl, rfl⟩
    · by_cases hp2 : p = s.threaddata tid
      · obtain ⟨ga, hga, hga2⟩ := hA (hp2 ▸ hp0)
        rw [← hp2] at hga hga2
        rw [hga2] at hk; cases hk
        exact Or.inr (Or.inl ⟨hp, hp2, rfl, ga, hga, rfl⟩)
      · refine Or.inr (Or.inr ⟨hp, hp2, ?_⟩)
        have := hframe p hp hp2
        rw [State.deref_of_read hp0] at hk ⊢
        rw [← this]; exact hk
  constructor
  · intro p k hk hcur
    rcases htrace p k hk with ⟨hp, hk2⟩ | ⟨_, _, hk2, _⟩ | ⟨hp, hp2, hk2⟩
    · subst hk2; simp [hth, hp]
    · rw [hk2] at hcur; cases hcur
    · have := he.owned p k hk2 hcur
      rw [hth]
      by_cases ht : k.thread_id = tid
      · rw [ht] at this; exact absurd this.symm hp2
      · simp [ht, this]
  · intro p k hk
    rcases htrace p k hk with ⟨_, hk2⟩ | ⟨_, _, _, ga, hga, hk2⟩ | ⟨_, _, hk2⟩
    · subst hk2; exact he.nodc hglrc g hg
    · rw [hk2]; exact he.nodc p ga hga
    · exact he.nodc p k hk2

/-- The `free resources` end keeps `Owned`. -/
theorem freeResources_owned {s : State} {l : List Ptr} (hi : InvWith s l) (he : Owned s)
    {x : Ptr} {calls : List DrvCall} {g : GLRC} {o : Out Bool}
    (hg : s.deref x = some g) (hidle : g.is_current = false)
    (ho : freeResources s x calls = some o) : Owned o.state := by
  obtain ⟨o2, ho2, _, _, hinv, hth, hx, hsame⟩ := freeResources_spec hi x calls g hg hidle
  rw [ho2] at ho; cases ho
  have htrace : ∀ p k, o.state.deref p = some k →
      ∃ gr n, s.deref p = some gr ∧ k = { gr with next := n } := by
    intro p k hk
    have hp0 := State.deref_ne_zero hk
    have hpl := hinv.mem_of_deref hk
    have hpx : p ≠ x := by
      intro h; subst h
      rw [State.deref_of_read hp0, hx] at hk; cases hk
    have hpl2 : p ∈ l := List.mem_of_mem_erase hpl
    obtain ⟨gr, hgr, _⟩ := hi.loaded_of_mem hpl2
    obtain ⟨n, hn⟩ := hsame p gr hpx (State.deref_read hgr)
    rw [State.deref_of_read hp0, hn] at hk; cases hk
    exact ⟨gr, n, hgr, rfl⟩
  constructor
  · intro p k hk hcur
    obtain ⟨gr, n, hgr, hkk⟩ := htrace p k hk
    subst hkk
    rw [hth]; exact he.owned p gr hgr hcur
  · intro p k hk
    obtain ⟨gr, n, hgr, hkk⟩ := htrace p k hk
    subst hkk
    exact he.nodc p gr hgr

/-- The body of `wglCreateContext` and `wglCreateLayerContext` keeps `Owned`. -/
theorem createContext_owned {s : State} {l : List Ptr} (hi : InvWith s l) (he : Owned s)
    {env : Env} {create : Ptr → Nat} {call : Ptr → DrvCall} {hdc : Nat} {o : Out Ptr}
    (hok : env.allocOK s) (ho : createContext env s create call hdc = some o) :
    Owned o.state := by
  by_cases h : env.isDC hdc = false ∨ env.RegOpenKeyExW = false ∨ env.HeapAlloc = 0 ∨
      (findICD env create call env.RegEnumKeyExW 0 0).2.1 = 0
  · obtain ⟨calls, hc⟩ := createContext_fail env s create call hdc hok h
    rw [hc] at ho; cases ho; exact he
  · simp only [not_or] at h
    obtain ⟨h1, h2, h3, h4⟩ := h
    obtain ⟨o2, ho2, _, _, hinv, hxl, hth, hnew, hold⟩ :=
      createContext_success hi env create call hdc hok
        (by simpa using h1) (by simpa using h2) h3 h4
    rw [ho2] at ho; cases ho
    have htrace : ∀ p k, o.state.deref p = some k →
        (k.is_current = false ∧ k.hdc = 0) ∨
        ∃ gr n, s.deref p = some gr ∧ k = { gr with next := n } := by
      intro p k hk
      have hp0 := State.deref_ne_zero hk
      have hpl := hinv.mem_of_deref hk
      rcases List.mem_append.1 hpl with hpl2 | hpx
      · obtain ⟨gr, hgr, _⟩ := hi.loaded_of_mem hpl2
        have := hold p gr (State.deref_read hgr)
        rw [State.deref_of_read hp0, this] at hk; cases hk
        right
        by_cases hlast : l.getLast? = some p
        · exact ⟨gr, env.HeapAlloc, hgr, by simp [hlast]⟩
        · exact ⟨gr, gr.next, hgr, by simp [hlast, GLRC.with_next_self]⟩
      · rw [List.mem_singleton] at hpx
        subst hpx
        rw [State.deref_of_read hp0, hnew] at hk; cases hk
        exact Or.inl ⟨rfl, rfl⟩
    constructor
    · intro p k hk hcur
      rcases htrace p k hk with ⟨hk2, _⟩ | ⟨gr, n, hgr, hkk⟩
      · rw [hk2] at hcur; cases hcur
      · subst hkk; rw [hth]; exact he.owned p gr hgr hcur
    · intro p k hk
      rcases htrace p k hk with ⟨_, hk2⟩ | ⟨gr, n, hgr, hkk⟩
      · exact hk2
      · subst hkk; exact he.nodc p gr hgr

/-- Every call keeps `Owned`, on a well-formed registry. -/
theorem Step.preserves_owned {s t : State} (hs : Inv s) (he : Owned s) (h : Step s t) :
    Owned t := by
  obtain ⟨l, hi⟩ := hs
  cases h with
  | createContext env _ hdc o hok ho => exact createContext_owned hi he hok ho
  | createLayerContext env _ hdc layer o hok ho => exact createContext_owned hi he hok ho
  | makeCurrent env _ tid hdc hglrc o ho =>
    rcases wglMakeCurrent_cases hi ho with h | ⟨g, calls, hg, hidle, hm⟩
    · rw [h]; exact he
    · exact makeItCurrent_owned hi he hg hidle hm
  | deleteContext env _ hglrc o ho =>
    rcases wglDeleteContext_cases hi ho with h | ⟨g, calls, hg, hidle, hm⟩
    · rw [h]; exact he
    · exact freeResources_owned hi he hg hidle hm
  | copyContext env _ hsrc hdst mask o ho => rw [wglCopyContext_state ho]; exact he
  | shareLists env _ hglrc1 hglrc2 o ho => rw [wglShareLists_state ho]; exact he
  | swapBuffers env _ tid hdc o ho => rw [wglSwapBuffers_state ho]; exact he
  | getProcAddress env _ tid proc o ho => rw [wglGetProcAddress_state ho]; exact he

/-- Every reachable state satisfies `Owned`. -/
theorem Reachable.owned {s : State} (h : Reachable s) : Owned s := by
  induction h with
  | init => exact Owned.owned_init
  | step s t hs hst ih => exact Step.preserves_owned hs.inv ih hst

/-- C17: in every state reachable from the empty initial state by calls of
the entry points, every registered context with `is_current = TRUE` has in
`thread_id` a thread whose binding (`OPENGL32_threaddata->glrc`) is exactly
that context. -/
theorem current_context_owned (s : State) (hs : Reachable s) (p : Ptr) (g : GLRC)
    (_hreg : WGL_ContainsContext s p = some true) (hg : s.deref p = some g)
    (hcur : g.is_current = true) :
    wglGetCurrentContext s g.thread_id = p :=
  hs.owned.owned p g hg hcur

/-- Context `2` of the fourth sample state is current and owned by thread
`2`, which is bound to it. -/
theorem current_context_owned_witness :
    Reachable sample4 ∧ WGL_ContainsContext sample4 2 = some true ∧
      sample4.deref 2 = some (sampleGLRC 52 200 0 true 2) ∧
      wglGetCurrentContext sample4 (sampleGLRC 52 200 0 true 2).thread_id = 2 :=
  ⟨sample4_reachable, rfl, rfl,
    current_context_owned sample4 sample4_reachable 2 (sampleGLRC 52 200 0 true 2)
      rfl rfl rfl⟩

/-- In every reachable state `wglGetCurrentDC` returns `NULL` on every
thread: the `hdc` field is zeroed by the allocation and never written. -/
theorem wglGetCurrentDC_null (s : State) (hs : Reachable s) (tid : Nat) :
    wglGetCurrentDC s tid = some 0 := by
  by_cases hb : s.threaddata tid = 0
  · simp [wglGetCurrentDC, hb]
  · obtain ⟨l, hi⟩ := hs.inv
    obtain ⟨_, g, hg, _, _⟩ := hi.bound tid hb
    simp [wglGetCurrentDC, hb, hg, hs.owned.nodc _ g hg]

/-! ## The list helpers on their own -/

theorem Chain.suffix_of_mem {s : State} {l : List Ptr} :
    ∀ {p : Ptr}, Chain s p l → ∀ {q : Ptr}, q ∈ l →
      ∃ m, Chain s q m ∧ m.length ≤ l.length := by
  induction l with
  | nil => intro p _ q hq; simp at hq
  | cons a l ih =>
    intro p hc q hq
    obtain ⟨hpa, g, hg, hrest⟩ := hc
    rcases List.mem_cons.1 hq with h | h
    · subst h; subst hpa
      exact ⟨p :: l, ⟨rfl, g, hg, hrest⟩, le_refl _⟩
    · obtain ⟨m, hm, hlen⟩ := ih hrest h
      exact ⟨m, hm, by simp; omega⟩

/-- A `NULL`-terminated chain passes no record twice. -/
theorem Chain.nodup {s : State} {l : List Ptr} :
    ∀ {p : Ptr}, Chain s p l → l.Nodup := by
  induction l with
  | nil => intro p _; exact List.nodup_nil
  | cons a l ih =>
    intro p hc
    obtain ⟨hpa, g, hg, hrest⟩ := hc
    refine List.nodup_cons.2 ⟨?_, ih hrest⟩
    intro ha
    obtain ⟨m, hm, hlen⟩ := Chain.suffix_of_mem hrest ha
    have hfull : Chain s a (a :: l) := ⟨rfl, g, hpa ▸ hg, hrest⟩
    have := Chain.unique hfull hm
    rw [← this] at hlen
    simp at hlen

/-- On a `NULL`-terminated chain `WGL_ContainsContext` returns, and says
whether the address is on the chain. -/
theorem Chain.contains_iff {s : State} {l : List Ptr} (hc : Chain s s.glrc_list l) (x : Ptr) :
    WGL_ContainsContext s x = some (decide (x ∈ l)) := by
  have := hc.length_le hc.nodup
  exact containsLoop_chain x hc (by simp [State.fuel]; omega)

theorem Chain.head_ne {s : State} {l : List Ptr} {p x : Ptr} (hc : Chain s p l)
    (hx : x ∉ l) (hx0 : x ≠ 0) : p ≠ x := by
  cases l with
  | nil =>
    have h0 : p = 0 := hc
    rw [h0]; exact fun h => hx0 h.symm
  | cons a m =>
    obtain ⟨hpa, _⟩ := hc
    rw [hpa]
    exact fun h => hx (h ▸ List.mem_cons_self _ _)

/-- The walk of `WGL_RemoveContext` for a non-`NULL` address that is not on
the chain ends at `NULL` and changes nothing. -/
theorem removeLoop_not_mem {s : State} {x : Ptr} (hx0 : x ≠ 0) {l : List Ptr} :
    ∀ {p : Ptr} {n : Nat}, Chain s p l → x ∉ l → l.length < n →
      removeLoop s x n p = some s := by
  induction l with
  | nil =>
    intro p n hc _ hn
    have h0 : p = 0 := hc
    cases n with
    | zero => simp at hn
    | succ n => simp [removeLoop, h0]
  | cons a l ih =>
    intro p n hc hx hn
    obtain ⟨hpa, g, hg, hrest⟩ := hc
    have hp0 := State.deref_ne_zero hg
    have hxl : x ∉ l := fun h => hx (List.mem_cons_of_mem _ h)
    have hnx : g.next ≠ x := Chain.head_ne hrest hxl hx0
    cases n with
    | zero => simp at hn
    | succ n =>
      have hn2 : l.length < n := by simpa using hn
      simp [removeLoop, hp0, hg, hnx, ih hrest hxl hn2]

/-- C18: for every registry that is a `NULL`-terminated chain `l` (so
acyclic) and does not contain `ctx`, and `ctx` an allocated record with a
`NULL` next link: `WGL_AppendContext (ctx)` returns, the registry afterwards
is `l` followed by `ctx` (so `ctx` is the last element and the former
elements keep their order), `WGL_ContainsContext (ctx)` is `TRUE` and so is
`WGL_ContainsContext` of every former element. -/
theorem WGL_AppendContext_spec (s : State) (l : List Ptr) (x : Ptr) (gx : GLRC)
    (hc : Chain s s.glrc_list l) (hx : x ∉ l)
    (hg : s.deref x = some gx) (hn : gx.next = 0) :
    ∃ t, WGL_AppendContext s x = some t ∧
      Chain t t.glrc_list (l ++ [x]) ∧
      (l ++ [x]).getLast? = some x ∧
      WGL_ContainsContext t x = some true ∧
      (∀ q, WGL_ContainsContext s q = some true → WGL_ContainsContext t q = some true) ∧
      t.threaddata = s.threaddata := by
  have hnd := hc.nodup
  have hlen := hc.length_le hnd
  have key : ∃ t, WGL_AppendContext s x = some t ∧ Chain t t.glrc_list (l ++ [x]) ∧
      t.threaddata = s.threaddata := by
    by_cases hhead : s.glrc_list = 0
    · have hnil : l = [] := by
        rw [hhead] at hc; exact Chain.eq_nil_of_zero hc
      subst hnil
      refine ⟨⟨s.heap, x, s.threaddata⟩, by simp [WGL_AppendContext, hhead], ?_, rfl⟩
      exact ⟨rfl, gx, hg, by rw [hn]; rfl⟩
    · have hne : l ≠ [] := by
        intro h; subst h; exact hhead hc
      obtain ⟨q, hql, _, hloop, hch⟩ :=
        appendLoop_chain x gx hg hn hc hne hx hnd (n := s.fuel)
          (by simp [State.fuel]; omega)
      obtain ⟨gq, hgq⟩ := hc.deref_of_mem hql
      refine ⟨⟨s.heap.modify q (fun g => { g with next := x }), s.glrc_list,
        s.threaddata⟩, ?_, hch, rfl⟩
      simp [WGL_AppendContext, hhead, hloop, State.store, hgq]
  obtain ⟨t, ht, hch, hth⟩ := key
  refine ⟨t, ht, hch, by simp, ?_, ?_, hth⟩
  · rw [hch.contains_iff]; simp
  · intro q hq
    rw [hc.contains_iff] at hq
    have hql : q ∈ l := by simpa using hq
    rw [hch.contains_iff]; simp [hql]

/-- The record at `2` of `sampleAlloc` is appended behind context `1`: the
result is the second sample state. -/
theorem WGL_AppendContext_spec_witness :
    ∃ t, WGL_AppendContext sampleAlloc 2 = some t ∧
      Chain t t.glrc_list ([1] ++ [2]) ∧
      ([1] ++ [2]).getLast? = some 2 ∧
      WGL_ContainsContext t 2 = some true ∧
      (∀ q, WGL_ContainsContext sampleAlloc q = some true →
        WGL_ContainsContext t q = some true) ∧
      t.threaddata = sampleAlloc.threaddata :=
  WGL_AppendContext_spec sampleAlloc [1] 2 (sampleGLRC 52 200 0 false 0)
    ⟨rfl, sampleGLRC 51 100 0 false 0, rfl, rfl⟩ (by decide) rfl rfl

/-- C19: for every registry that is a `NULL`-terminated chain `l` (so acyclic
and free of duplicates) and every non-`NULL` `ctx`: `WGL_RemoveContext (ctx)`
returns, the registry afterwards is `l` with `ctx` erased (the other
elements keep their order), `WGL_ContainsContext (ctx)` is `FALSE`, every
other address is contained exactly when it was before, and when `ctx` was
not in the registry the state is unchanged. -/
theorem WGL_RemoveContext_spec (s : State) (l : List Ptr) (x : Ptr)
    (hc : Chain s s.glrc_list l) (hx0 : x ≠ 0) :
    ∃ t, WGL_RemoveContext s x = some t ∧
      Chain t t.glrc_list (l.erase x) ∧
      WGL_ContainsContext t x = some false ∧
      (∀ q, q ≠ x → WGL_ContainsContext t q = WGL_ContainsContext s q) ∧
      (x ∉ l → t = s) := by
  have hnd := hc.nodup
  have hlen := hc.length_le hnd
  have key : ∃ t, WGL_RemoveContext s x = some t ∧ Chain t t.glrc_list (l.erase x) ∧
      (x ∉ l → t = s) := by
    by_cases hxl : x ∈ l
    · obtain ⟨gx, hgx⟩ := hc.deref_of_mem hxl
      by_cases hhead : x = s.glrc_list
      · cases l with
        | nil => simp at hxl
        | cons a m =>
          obtain ⟨ha, ga, hga, hrest⟩ := hc
          have hax : a = x := by rw [← ha, hhead]
          subst hax
          rw [← hhead, hgx] at hga; cases hga
          refine ⟨⟨s.heap, gx.next, s.threaddata⟩, ?_, ?_, fun h => absurd hxl h⟩
          · simp only [WGL_RemoveContext, if_pos hhead, hgx]
          · rw [List.erase_cons_head]
            exact Chain.of_heap_eq (s := s) (t := ⟨s.heap, gx.next, s.threaddata⟩) rfl hrest
      · have hne : s.glrc_list ≠ x := fun h => hhead h.symm
        obtain ⟨q, _, _, hloop, hch⟩ :=
          removeLoop_chain hgx hc hne hxl hnd (n := s.fuel) (by simp [State.fuel]; omega)
        exact ⟨_, by simp [WGL_RemoveContext, hhead, hloop], hch, fun h => absurd hxl h⟩
    · have hhead : ¬ x = s.glrc_list := fun h => Chain.head_ne hc hxl hx0 h.symm
      have hloop := removeLoop_not_mem hx0 hc hxl (n := s.fuel) (by simp [State.fuel]; omega)
      refine ⟨s, by simp [WGL_RemoveContext, hhead, hloop], ?_, fun _ => rfl⟩
      rw [List.erase_of_not_mem hxl]; exact hc
  obtain ⟨t, ht, hch, hsame⟩ := key
  refine ⟨t, ht, hch, ?_, ?_, hsame⟩
  · rw [hch.contains_iff]
    have : x ∉ l.erase x := fun h => ((List.Nodup.mem_erase_iff hnd).1 h).1 rfl
    simp [this]
  · intro q hq
    rw [hch.contains_iff, hc.contains_iff]
    simp [List.mem_erase_of_ne hq]

/-- Context `1` is removed from the registry `1, 2` of the second sample
state. -/
theorem WGL_RemoveContext_spec_witness :
    ∃ t, WGL_RemoveContext sample2 1 = some t ∧
      Chain t t.glrc_list ([1, 2].erase 1) ∧
      WGL_ContainsContext t 1 = some false ∧
      (∀ q, q ≠ 1 → WGL_ContainsContext t q = WGL_ContainsContext sample2 q) ∧
      (1 ∉ [1, 2] → t = sample2) :=
  WGL_RemoveContext_spec sample2 [1, 2] 1
    ⟨rfl, sampleGLRC 51 100 2 false 0, rfl, rfl, sampleGLRC 52 200 0 false 0, rfl, rfl⟩
    (by decide)

/-! ## What `wglCreateContext` leaves behind -/

/-- When the loop over the ICD names ends with a context handle, one name is
the first whose ICD loads and makes a context. -/
theorem findICD_split (env : Env) (create : Ptr → Nat) (call : Ptr → DrvCall) :
    ∀ (names : List String) (icd : Ptr),
      (findICD env create call names icd 0).2.1 ≠ 0 →
      ∃ pre d post, names = pre ++ d :: post ∧
        (∀ n ∈ pre, env.OPENGL32_LoadICD n = 0 ∨ create (env.OPENGL32_LoadICD n) = 0) ∧
        env.OPENGL32_LoadICD d ≠ 0 ∧ create (env.OPENGL32_LoadICD d) ≠ 0 := by
  intro names
  induction names with
  | nil => intro icd h; simp [findICD] at h
  | cons a rest ih =>
    intro icd h
    by_cases hl : env.OPENGL32_LoadICD a = 0
    · simp only [findICD, hl, if_true] at h
      obtain ⟨pre, d, post, hn, hpre, hd, hc⟩ := ih 0 h
      refine ⟨a :: pre, d, post, by simp [hn], ?_, hd, hc⟩
      intro n hn2
      rcases List.mem_cons.1 hn2 with h1 | h1
      · subst h1; exact Or.inl hl
      · exact hpre n h1
    · by_cases hc : create (env.OPENGL32_LoadICD a) = 0
      · simp only [findICD, hl, hc, if_true, if_false] at h
        obtain ⟨pre, d, post, hn, hpre, hd, hc2⟩ := ih _ h
        refine ⟨a :: pre, d, post, by simp [hn], ?_, hd, hc2⟩
        intro n hn2
        rcases List.mem_cons.1 hn2 with h1 | h1
        · subst h1; exact Or.inr hc
        · exact hpre n h1
      · exact ⟨[], a, rest, rfl, by intro n hn; simp at hn, hl, hc⟩

/-- The loop over the ICD names ends without a context handle exactly when
every ICD fails to load or makes no context. -/
theorem findICD_zero_iff (env : Env) (create : Ptr → Nat) (call : Ptr → DrvCall)
    (names : List String) (icd : Ptr) :
    (findICD env create call names icd 0).2.1 = 0 ↔
      ∀ n ∈ names, env.OPENGL32_LoadICD n = 0 ∨ create (env.OPENGL32_LoadICD n) = 0 := by
  constructor
  · induction names generalizing icd with
    | nil => intro _ n hn; simp at hn
    | cons a rest ih =>
      intro h n hn
      by_cases hl : env.OPENGL32_LoadICD a = 0
      · simp only [findICD, hl, if_true] at h
        rcases List.mem_cons.1 hn with h1 | h1
        · subst h1; exact Or.inl hl
        · exact ih 0 h n h1
      · by_cases hc : create (env.OPENGL32_LoadICD a) = 0
        · simp only [findICD, hl, hc, if_true, if_false] at h
          rcases List.mem_cons.1 hn with h1 | h1
          · subst h1; exact Or.inr hc
          · exact ih _ h n h1
        · simp only [findICD, hl, hc, if_false] at h
  · intro h
    by_contra hne
    obtain ⟨pre, d, post, hn, _, hd, hc⟩ := findICD_split env create call names icd hne
    have hmem : d ∈ names := by rw [hn]; simp
    rcases h d hmem with h1 | h1
    · exact hd h1
    · exact hc h1

/-- On a chain the last record is the one whose `next` is `NULL`. -/
theorem Chain.last_iff {s : State} {l : List Ptr} :
    ∀ {p : Ptr}, Chain s p l → ∀ {q : Ptr} {gq : GLRC}, q ∈ l → s.deref q = some gq →
      (l.getLast? = some q ↔ gq.next = 0) := by
  induction l with
  | nil => intro p _ q gq hq; simp at hq
  | cons a l ih =>
    intro p hc q gq hq hgq
    have hnd := hc.nodup
    obtain ⟨hpa, g, hg, hrest⟩ := hc
    subst hpa
    have hpl : p ∉ l := (List.nodup_cons.1 hnd).1
    cases l with
    | nil =>
      have hqp : q = p := by simpa using hq
      subst hqp
      rw [hg] at hgq; cases hgq
      have h0 : gq.next = 0 := hrest
      simp [h0]
    | cons b m =>
      have hnx : g.next ≠ 0 := by
        obtain ⟨hb, gb, hgb, _⟩ := hrest
        exact State.deref_ne_zero hgb
      rw [List.getLast?_cons_cons]
      rcases List.mem_cons.1 hq with h | h
      · subst h
        rw [hg] at hgq; cases hgq
        constructor
        · intro hl
          exact absurd (List.mem_of_getLast?_eq_some hl) hpl
        · intro h0; exact absurd h0 hnx
      · exact ih hrest h hgq

/-- C11 as the code has it: whenever `wglCreateContext` returns a
non-`NULL` handle on a well-formed registry (every reachable one is), one
enumerated name `d` is the first whose ICD loads and makes a context, and
the new context is registered, not current, has `iFormat = -1`, the ICD of
`d` as `icd`, the handle that ICD made as `hglrc`, and as `func_list` the
first `GLIDX_COUNT` entries of the table of that ICD (all of it when the
table has `GLIDX_COUNT` entries).  Every context registered before is still
registered and its record is as before, but for the formerly last one (the
one whose `next` was `NULL`), whose `next` is now the new context. -/
theorem wglCreateContext_registers (env : Env) (s : State) (hdc : Nat) (o : Out Ptr)
    (hs : Inv s) (hok : env.allocOK s)
    (ho : wglCreateContext env s hdc = some o) (hret : o.ret ≠ 0) :
    ∃ g pre d post,
      env.RegEnumKeyExW = pre ++ d :: post ∧
      (∀ n ∈ pre, env.OPENGL32_LoadICD n = 0 ∨
        env.DrvCreateContext (env.OPENGL32_LoadICD n) hdc = 0) ∧
      env.OPENGL32_LoadICD d ≠ 0 ∧
      WGL_ContainsContext o.state o.ret = some true ∧
      o.state.deref o.ret = some g ∧
      g.is_current = false ∧ g.iFormat = -1 ∧ g.next = 0 ∧
      g.icd = env.OPENGL32_LoadICD d ∧
      g.hglrc = env.DrvCreateContext (env.OPENGL32_LoadICD d) hdc ∧ g.hglrc ≠ 0 ∧
      g.func_list = memcpy (List.replicate env.GLIDX_COUNT 0)
        (env.icd_func_list (env.OPENGL32_LoadICD d)) env.GLIDX_COUNT ∧
      ((env.icd_func_list (env.OPENGL32_LoadICD d)).length = env.GLIDX_COUNT →
        g.func_list = env.icd_func_list (env.OPENGL32_LoadICD d)) ∧
      (∀ q gq, WGL_ContainsContext s q = some true → s.deref q = some gq →
        WGL_ContainsContext o.state q = some true ∧
        o.state.deref q = some (if gq.next = 0 then { gq with next := o.ret } else gq)) := by
  obtain ⟨l, hi⟩ := hs
  unfold wglCreateContext at ho
  by_cases h : env.isDC hdc = false ∨ env.RegOpenKeyExW = false ∨ env.HeapAlloc = 0 ∨
      (findICD env (fun icd => env.DrvCreateContext icd hdc)
        (fun icd => DrvCall.DrvCreateContext icd hdc) env.RegEnumKeyExW 0 0).2.1 = 0
  · obtain ⟨calls, hc⟩ := createContext_fail env s _ _ hdc hok h
    rw [hc] at ho; cases ho
    exact absurd rfl hret
  · simp only [not_or] at h
    obtain ⟨h1, h2, h3, h4⟩ := h
    obtain ⟨pre, d, post, hn, hpre, hd, hc⟩ := findICD_split env _ _ _ 0 h4
    have hf := findICD_first env (fun icd => env.DrvCreateContext icd hdc)
      (fun icd => DrvCall.DrvCreateContext icd hdc) d post hd hc pre 0 hpre
    rw [← hn] at hf
    obtain ⟨o2, ho2, hr, _, hinv, hxl, _, hnew, hold⟩ :=
      createContext_success hi env _ _ hdc hok (by simpa using h1) (by simpa using h2) h3 h4
    rw [ho2] at ho; cases ho
    rw [hf] at hnew
    refine ⟨newGLRC env (env.OPENGL32_LoadICD d)
      (env.DrvCreateContext (env.OPENGL32_LoadICD d) hdc), pre, d, post, hn, hpre, hd,
      ?_, ?_, rfl, rfl, rfl, rfl, rfl, hc, rfl, ?_, ?_⟩
    · rw [hinv.contains, hr]; simp
    · rw [State.deref_eq, Heap.deref, hr, if_neg h3]; exact hnew
    · intro hlen
      simp [newGLRC, memcpy, ← hlen]
    · intro q gq hq hgq
      rw [hi.contains] at hq
      have hql : q ∈ l := by simpa using hq
      have hq0 := State.deref_ne_zero hgq
      refine ⟨by rw [hinv.contains]; simp [hql], ?_⟩
      rw [State.deref_of_read hq0, hold q gq (State.deref_read hgq), hr]
      by_cases hlast : gq.next = 0
      · simp [hlast, (Chain.last_iff hi.chain hql hgq).2 hlast]
      · have : ¬ l.getLast? = some q := fun h => hlast ((Chain.last_iff hi.chain hql hgq).1 h)
        simp [hlast, this]

/-- The second `wglCreateContext` of the sample run: context `2` is new, and
context `1`, the last one before, now points to it. -/
theorem wglCreateContext_registers_witness :
    ∃ g pre d post,
      (Env.sample 2 200).RegEnumKeyExW = pre ++ d :: post ∧
      (∀ n ∈ pre, (Env.sample 2 200).OPENGL32_LoadICD n = 0 ∨
        (Env.sample 2 200).DrvCreateContext ((Env.sample 2 200).OPENGL32_LoadICD n) 7 = 0) ∧
      (Env.sample 2 200).OPENGL32_LoadICD d ≠ 0 ∧
      WGL_ContainsContext sample2 2 = some true ∧
      sample2.deref 2 = some g ∧
      g.is_current = false ∧ g.iFormat = -1 ∧ g.next = 0 ∧
      g.icd = (Env.sample 2 200).OPENGL32_LoadICD d ∧
      g.hglrc = (Env.sample 2 200).DrvCreateContext
        ((Env.sample 2 200).OPENGL32_LoadICD d) 7 ∧ g.hglrc ≠ 0 ∧
      g.func_list = memcpy (List.replicate (Env.sample 2 200).GLIDX_COUNT 0)
        ((Env.sample 2 200).icd_func_list ((Env.sample 2 200).OPENGL32_LoadICD d))
        (Env.sample 2 200).GLIDX_COUNT ∧
      (((Env.sample 2 200).icd_func_list ((Env.sample 2 200).OPENGL32_LoadICD d)).length
          = (Env.sample 2 200).GLIDX_COUNT →
        g.func_list
          = (Env.sample 2 200).icd_func_list ((Env.sample 2 200).OPENGL32_LoadICD d)) ∧
      (∀ q gq, WGL_ContainsContext sample1 q = some true → sample1.deref q = some gq →
        WGL_ContainsContext sample2 q = some true ∧
        sample2.deref q = some (if gq.next = 0 then { gq with next := 2 } else gq)) :=
  wglCreateContext_registers (Env.sample 2 200) sample1 7
    ⟨2, sample2, [DrvCall.LoadICD "icd", DrvCall.DrvCreateContext 200 7]⟩
    sample1_reachable.inv (by decide) rfl (by decide)

/-- C11 fails on the code: the second `wglCreateContext` of the sample run
returns the new context `2`; context `1` was registered before and still is,
and its record is not as before: `WGL_AppendContext` has set its `next` link
from `NULL` to the new context. -/
theorem wglCreateContext_frame_counterexample :
    Reachable sample1 ∧
      wglCreateContext (Env.sample 2 200) sample1 7
        = some ⟨2, sample2, [DrvCall.LoadICD "icd", DrvCall.DrvCreateContext 200 7]⟩ ∧
      WGL_ContainsContext sample1 1 = some true ∧
      WGL_ContainsContext sample2 1 = some true ∧
      sample1.deref 1 = some (sampleGLRC 51 100 0 false 0) ∧
      sample2.deref 1 = some (sampleGLRC 51 100 2 false 0) ∧
      sample2.deref 1 ≠ sample1.deref 1 :=
  ⟨sample1_reachable, rfl, rfl, rfl, rfl, rfl, by decide⟩

/-- C12: when every enumerated ICD fails to load or returns a `NULL`
context (an empty enumeration included), `wglCreateContext` returns `NULL`
and leaves the state, the registry with it, as it was.  Conversely, on a
well-formed registry (every reachable one is), with a valid DC, an openable
driver key and the `GLRC` allocated, it returns, and returns `NULL` only in
that case. -/
theorem wglCreateContext_no_icd (env : Env) (s : State) (hdc : Nat)
    (hok : env.allocOK s) :
    ((∀ n ∈ env.RegEnumKeyExW, env.OPENGL32_LoadICD n = 0 ∨
        env.DrvCreateContext (env.OPENGL32_LoadICD n) hdc = 0) →
      ∃ calls, wglCreateContext env s hdc = some ⟨0, s, calls⟩) ∧
    (Inv s → env.isDC hdc = true → env.RegOpenKeyExW = true → env.HeapAlloc ≠ 0 →
      ∃ o, wglCreateContext env s hdc = some o ∧
        (o.ret = 0 ↔
          ∀ n ∈ env.RegEnumKeyExW, env.OPENGL32_LoadICD n = 0 ∨
            env.DrvCreateContext (env.OPENGL32_LoadICD n) hdc = 0)) := by
  have hz := findICD_zero_iff env (fun icd => env.DrvCreateContext icd hdc)
    (fun icd => DrvCall.DrvCreateContext icd hdc) env.RegEnumKeyExW 0
  constructor
  · intro hall
    exact createContext_fail env s _ _ hdc hok (Or.inr (Or.inr (Or.inr (hz.2 hall))))
  · rintro ⟨l, hi⟩ h1 h2 h3
    by_cases h4 : (findICD env (fun icd => env.DrvCreateContext icd hdc)
        (fun icd => DrvCall.DrvCreateContext icd hdc) env.RegEnumKeyExW 0 0).2.1 = 0
    · obtain ⟨calls, hc⟩ := createContext_fail env s _ _ hdc hok
        (Or.inr (Or.inr (Or.inr h4)))
      exact ⟨_, hc, fun _ => hz.1 h4, fun _ => rfl⟩
    · obtain ⟨o, ho, hr, _⟩ := createContext_success hi env _ _ hdc hok h1 h2 h3 h4
      refine ⟨o, ho, fun h0 => ?_, fun hall => absurd (hz.2 hall) h4⟩
      rw [hr] at h0; exact absurd h0 h3

/-- In the world `Env.noICD` no ICD loads: on the first sample state
`wglCreateContext` returns `NULL` and changes nothing. -/
theorem wglCreateContext_no_icd_witness :
    Env.noICD.allocOK sample1 ∧
      (∀ n ∈ Env.noICD.RegEnumKeyExW, Env.noICD.OPENGL32_LoadICD n = 0 ∨
        Env.noICD.DrvCreateContext (Env.noICD.OPENGL32_LoadICD n) 7 = 0) ∧
      (∃ calls, wglCreateContext Env.noICD sample1 7 = some ⟨0, sample1, calls⟩) ∧
      ∃ o, wglCreateContext Env.noICD sample1 7 = some o ∧
        (o.ret = 0 ↔
          ∀ n ∈ Env.noICD.RegEnumKeyExW, Env.noICD.OPENGL32_LoadICD n = 0 ∨
            Env.noICD.DrvCreateContext (Env.noICD.OPENGL32_LoadICD n) 7 = 0) :=
  ⟨by decide, by decide,
    (wglCreateContext_no_icd Env.noICD sample1 7 (by decide)).1 (by decide),
    (wglCreateContext_no_icd Env.noICD sample1 7 (by decide)).2 sample1_reachable.inv
      rfl rfl (by decide)⟩

/-! ## `wglMakeCurrent` without a lock -/

/-- The `make it current` end of `wglMakeCurrent` is its three statements
run one after the other. -/
theorem makeItCurrent_steps (s : State) (tid : Nat) (hglrc : Ptr) (calls : List DrvCall) :
    makeItCurrent s tid hglrc calls =
      match demote s tid with
      | none => none
      | some s1 =>
        match promote s1 tid hglrc with
        | none => none
        | some s2 => some ⟨true, bindThread s2 tid hglrc, calls⟩ := rfl

/-- C20, the code at the failing input.  In the third sample state thread
`1` holds context `1` and calls `wglMakeCurrent (7, 2)`; the checks pass and
the call goes on to `make it current`.  After its first statement (`demote`)
the state is `sampleMid`: context `1` has lost its flag while thread `1` is
still bound to it, a state no sequence of whole calls reaches.  Nothing
keeps thread `2` from calling `wglMakeCurrent (7, 1)` now: the call sees
context `1` not current, returns `TRUE` and binds thread `2` to it, so that
threads `1` and `2` are both bound to context `1` (`sampleRace`), again a
state no sequence of whole calls reaches.  Thread `1` then runs its
remaining statements. -/
theorem wglMakeCurrent_race :
    Reachable sample3 ∧
      wglMakeCurrent (Env.sample 3 100) sample3 1 7 2
        = makeItCurrent sample3 1 2 [DrvCall.DrvSetContext 200 7 52] ∧
      demote sample3 1 = some sampleMid ∧
      ¬ Reachable sampleMid ∧
      wglMakeCurrent (Env.sample 3 100) sampleMid 2 7 1
        = some ⟨true, sampleRace, [DrvCall.DrvSetContext 100 7 51]⟩ ∧
      wglGetCurrentContext sampleRace 1 = 1 ∧
      wglGetCurrentContext sampleRace 2 = 1 ∧
      ¬ Reachable sampleRace ∧
      (∃ t, promote sampleRace 1 2 = some t ∧
        wglGetCurrentContext (bindThread t 1 2) 1 = 2 ∧
        wglGetCurrentContext (bindThread t 1 2) 2 = 1 ∧
        (bindThread t 1 2).deref 1 = some (sampleGLRC 51 100 2 true 2)) := by
  refine ⟨sample3_reachable, rfl, rfl, ?_, rfl, rfl, rfl, ?_, ?_⟩
  · intro h
    obtain ⟨l, hi⟩ := h.inv
    obtain ⟨_, g, hg, hcur, _⟩ := hi.bound 1 (by decide)
    have : sampleMid.deref (sampleMid.threaddata 1)
        = some (sampleGLRC 51 100 2 false 1) := rfl
    rw [this] at hg; cases hg
    cases hcur
  · intro h
    obtain ⟨l, hi⟩ := h.inv
    obtain ⟨_, g, hg, _, hth⟩ := hi.bound 1 (by decide)
    have : sampleRace.deref (sampleRace.threaddata 1)
        = some (sampleGLRC 51 100 2 true 2) := rfl
    rw [this] at hg; cases hg
    revert hth; decide
  · exact ⟨_, rfl, rfl, rfl, rfl⟩

/-! ## Bound contexts are live, and the list walks end -/

/-- C24: in every state reachable from the empty initial state by calls of
the entry points, the context a thread is bound to
(`OPENGL32_threaddata->glrc`), when not `NULL`, is registered, has a record
(it was not deleted), has `is_current = TRUE` and has that thread as
`thread_id`; and `wglSwapBuffers`, `wglGetProcAddress` and `wglGetCurrentDC`
return on every thread: none of them reads through a dangling pointer. -/
theorem bound_context_live (s : State) (hs : Reachable s) (tid : Nat) :
    (wglGetCurrentContext s tid ≠ 0 →
      WGL_ContainsContext s (wglGetCurrentContext s tid) = some true ∧
      ∃ g, s.deref (wglGetCurrentContext s tid) = some g ∧
        g.is_current = true ∧ g.thread_id = tid) ∧
    (∀ env hdc, ∃ o, wglSwapBuffers env s tid hdc = some o) ∧
    (∀ env proc, ∃ o, wglGetProcAddress env s tid proc = some o) ∧
    (∃ d, wglGetCurrentDC s tid = some d) := by
  obtain ⟨l, hi⟩ := hs.inv
  simp only [wglGetCurrentContext]
  by_cases hb : s.threaddata tid = 0
  · refine ⟨fun h => absurd hb h, ?_, ?_, ?_⟩
    · intro env hdc; simp [wglSwapBuffers, hb]
    · intro env proc; simp [wglGetProcAddress, hb]
    · exact ⟨0, by simp [wglGetCurrentDC, hb]⟩
  · obtain ⟨hm, g, hg, hcur, hth⟩ := hi.bound tid hb
    obtain ⟨hicd, hh⟩ := hi.loaded _ g (State.deref_read hg)
    refine ⟨fun _ => ⟨by rw [hi.contains]; simp [hm], g, hg, hcur, hth⟩, ?_, ?_, ?_⟩
    · intro env hdc
      by_cases hv : env.DrvSwapBuffers g.icd hdc = false
      · simp [wglSwapBuffers, hb, hg, hh, hicd, hv]
      · simp [wglSwapBuffers, hb, hg, hh, hicd, hv]
    · intro env proc
      simp only [wglGetProcAddress, hb, if_false, hg, hicd]
      split_ifs <;> exact ⟨_, rfl⟩
    · exact ⟨g.hdc, by simp [wglGetCurrentDC, hb, hg]⟩

/-- Thread `1` of the fourth sample state is bound to context `1`, which is
registered, current and its own. -/
theorem bound_context_live_witness :
    Reachable sample4 ∧
      WGL_ContainsContext sample4 (wglGetCurrentContext sample4 1) = some true ∧
      ∃ g, sample4.deref (wglGetCurrentContext sample4 1) = some g ∧
        g.is_current = true ∧ g.thread_id = 1 :=
  ⟨sample4_reachable, (bound_context_live sample4 sample4_reachable 1).1 (by decide)⟩

/-- The loop of `WGL_RemoveContext` is its walk followed by the unlinking of
the record found. -/
theorem removeLoop_eq_walk (s : State) (x : Ptr) :
    ∀ (n : Nat) (p : Ptr), removeLoop s x n p =
      match removeWalk s x n p with
      | none => none
      | some none => some s
      | some (some q) =>
        match s.deref x with
        | none => none
        | some r => s.store q (fun g => { g with next := r.next }) := by
  intro n
  induction n with
  | zero => intro p; rfl
  | succ n ih =>
    intro p
    by_cases h0 : p = 0
    · simp [removeLoop, removeWalk, h0]
    · cases hg : s.deref p with
      | none => simp [removeLoop, removeWalk, h0, hg]
      | some g =>
        by_cases hx : g.next = x
        · simp [removeLoop, removeWalk, h0, hg, hx]
        · simp [removeLoop, removeWalk, h0, hg, hx, ih]

/-- On a `NULL`-terminated chain the walk of `WGL_RemoveContext` ends for
every address. -/
theorem removeWalk_chain {s : State} (x : Ptr) {l : List Ptr} :
    ∀ {p : Ptr} {n : Nat}, Chain s p l → l.length < n →
      ∃ r, removeWalk s x n p = some r := by
  induction l with
  | nil =>
    intro p n hc hn
    have h0 : p = 0 := hc
    cases n with
    | zero => simp at hn
    | succ n => exact ⟨none, by simp [removeWalk, h0]⟩
  | cons a l ih =>
    intro p n hc hn
    obtain ⟨_, g, hg, hrest⟩ := hc
    have hp0 := State.deref_ne_zero hg
    cases n with
    | zero => simp at hn
    | succ n =>
      by_cases hx : g.next = x
      · exact ⟨some p, by simp [removeWalk, hp0, hg, hx]⟩
      · obtain ⟨r, hr⟩ := ih hrest (by simpa using hn)
        exact ⟨r, by simp [removeWalk, hp0, hg, hx, hr]⟩

/-- On a `NULL`-terminated chain that is not empty the walk of
`WGL_AppendContext` ends at a record of the chain. -/
theorem appendLoop_total {s : State} {l : List Ptr} :
    ∀ {p : Ptr} {n : Nat}, Chain s p l → l ≠ [] → l.length ≤ n →
      ∃ q, q ∈ l ∧ appendLoop s n p = some q := by
  induction l with
  | nil => intro p n _ h; exact absurd rfl h
  | cons a l ih =>
    intro p n hc _ hn
    obtain ⟨hpa, g, hg, hrest⟩ := hc
    subst hpa
    cases n with
    | zero => simp at hn
    | succ n =>
      by_cases hnx : g.next = 0
      · exact ⟨p, List.mem_cons_self _ _, by simp [appendLoop, hg, hnx]⟩
      · have hl : l ≠ [] := by
          intro h; subst h; exact hnx hrest
        obtain ⟨q, hq, hloop⟩ := ih hrest hl (by simpa using hn)
        exact ⟨q, List.mem_cons_of_mem _ hq, by simp [appendLoop, hg, hnx, hloop]⟩

/-- On a `NULL`-terminated chain `WGL_RemoveContext` returns for every
address but `NULL`. -/
theorem WGL_RemoveContext_total {s : State} {l : List Ptr} (hc : Chain s s.glrc_list l)
    {x : Ptr} (hx0 : x ≠ 0) : ∃ t, WGL_RemoveContext s x = some t := by
  have hnd := hc.nodup
  have hlen := hc.length_le hnd
  by_cases hxl : x ∈ l
  · obtain ⟨gx, hgx⟩ := hc.deref_of_mem hxl
    by_cases hhead : x = s.glrc_list
    · rw [hhead] at hgx
      simp [WGL_RemoveContext, hhead, hgx]
    · have hne : s.glrc_list ≠ x := fun h => hhead h.symm
      obtain ⟨q, _, _, hloop, _⟩ :=
        removeLoop_chain hgx hc hne hxl hnd (n := s.fuel) (by simp [State.fuel]; omega)
      simp [WGL_RemoveContext, hhead, hloop]
  · have hhead : ¬ x = s.glrc_list := fun h => Chain.head_ne hc hxl hx0 h.symm
    have hloop := removeLoop_not_mem hx0 hc hxl (n := s.fuel) (by simp [State.fuel]; omega)
    exact ⟨s, by simp [WGL_RemoveContext, hhead, hloop]⟩

/-- C25: in every state reachable from the empty initial state by calls of
the entry points, the registry is a finite `NULL`-terminated chain `l` (so
acyclic) that holds no context twice, and for every argument the walks of
`WGL_ContainsContext`, `WGL_AppendContext` and `WGL_RemoveContext` end
within the iterations given to them.  `WGL_ContainsContext` and
`WGL_AppendContext` return for every argument, `WGL_RemoveContext` for every
argument but `NULL`, whose `next` it reads after the walk. -/
theorem registry_walks_terminate (s : State) (hs : Reachable s) :
    ∃ l : List Ptr, Chain s s.glrc_list l ∧ l.Nodup ∧
      ∀ x,
        (∃ b, WGL_ContainsContext s x = some b) ∧
        (s.glrc_list ≠ 0 → ∃ q, appendLoop s s.fuel s.glrc_list = some q) ∧
        (∃ r, removeWalk s x s.fuel s.glrc_list = some r) ∧
        (∃ t, WGL_AppendContext s x = some t) ∧
        (x ≠ 0 → ∃ t, WGL_RemoveContext s x = some t) := by
  obtain ⟨l, hi⟩ := hs.inv
  have hlen := hi.chain.length_le hi.nodup
  have happ : s.glrc_list ≠ 0 → ∃ q, q ∈ l ∧ appendLoop s s.fuel s.glrc_list = some q := by
    intro hhead
    have hne : l ≠ [] := by
      intro h; subst h; exact hhead hi.chain
    exact appendLoop_total hi.chain hne (by simp [State.fuel]; omega)
  refine ⟨l, hi.chain, hi.nodup, fun x => ⟨⟨_, hi.contains x⟩, ?_, ?_, ?_, ?_⟩⟩
  · intro hhead
    obtain ⟨q, _, hq⟩ := happ hhead
    exact ⟨q, hq⟩
  · exact removeWalk_chain x hi.chain (by simp [State.fuel]; omega)
  · by_cases hhead : s.glrc_list = 0
    · simp [WGL_AppendContext, hhead]
    · obtain ⟨q, hql, hq⟩ := happ hhead
      obtain ⟨gq, hgq⟩ := hi.chain.deref_of_mem hql
      simp [WGL_AppendContext, hhead, hq, State.store, hgq]
  · intro hx0
    exact WGL_RemoveContext_total hi.chain hx0

/-- The registry of the fourth sample state is the chain `1, 2`, and the
walks for the address `5` end. -/
theorem registry_walks_terminate_witness :
    Reachable sample4 ∧
      ∃ l : List Ptr, Chain sample4 sample4.glrc_list l ∧ l.Nodup ∧
        ∀ x,
          (∃ b, WGL_ContainsContext sample4 x = some b) ∧
          (sample4.glrc_list ≠ 0 →
            ∃ q, appendLoop sample4 sample4.fuel sample4.glrc_list = some q) ∧
          (∃ r, removeWalk sample4 x sample4.fuel sample4.glrc_list = some r) ∧
          (∃ t, WGL_AppendContext sample4 x = some t) ∧
          (x ≠ 0 → ∃ t, WGL_RemoveContext sample4 x = some t) :=
  ⟨sample4_reachable, registry_walks_terminate sample4 sample4_reachable⟩

end OpenGL32

namespace SetupLib

/-! ## Joining of paths -/

/-- The first character of a string is the separator exactly when the string
starts with a separator. -/
theorem wcAt_zero_eq_sep (C : List Char) :
    wcAt C 0 = OBJ_NAME_PATH_SEPARATOR ↔ C.head? = some OBJ_NAME_PATH_SEPARATOR := by
  cases C with
  | nil =>
    have h : Char.ofNat 0 ≠ OBJ_NAME_PATH_SEPARATOR := by decide
    simpa [wcAt] using h
  | cons c cs => simp [wcAt]

/-- The last character of a string that is not empty is the separator exactly
when the string ends with a separator. -/
theorem wcAt_last_eq_sep (B : List Char) (hB : B ≠ []) :
    wcAt B (B.length - 1) = OBJ_NAME_PATH_SEPARATOR ↔
      B.getLast? = some OBJ_NAME_PATH_SEPARATOR := by
  have hlt : B.length - 1 < B.length := by
    have := List.length_pos.mpr hB
    omega
  rw [List.getLast?_eq_getElem?]
  simp [wcAt, List.getD_eq_getElem?_getD, List.getElem?_eq_getElem hlt]

/-- The inner loop of `ConcatPathsV` drops the leading separators. -/
theorem skipSeparators_eq (C : List Char) :
    skipSeparators C = C.dropWhile (fun c => decide (c = OBJ_NAME_PATH_SEPARATOR)) := by
  induction C with
  | nil => rfl
  | cons c cs ih =>
    by_cases h : c = OBJ_NAME_PATH_SEPARATOR
    · simp [skipSeparators, List.dropWhile, h, ih]
    · simp [skipSeparators, List.dropWhile, h]

/-- With room for the result and its terminator `RtlStringCchCatW` appends. -/
theorem RtlStringCchCatW_fit (dest src : List Char) (cchDest : Nat)
    (hfit : dest.length + src.length < cchDest) (hmax : cchDest ≤ NTSTRSAFE_MAX_CCH) :
    RtlStringCchCatW dest cchDest src = (STATUS_SUCCESS, dest ++ src) := by
  have h1 : ¬ (cchDest = 0 ∨ NTSTRSAFE_MAX_CCH < cchDest) := by omega
  have h2 : ¬ cchDest ≤ dest.length := by omega
  have h3 : src.length ≤ cchDest - dest.length - 1 := by omega
  simp only [RtlStringCchCatW, if_neg h1, if_neg h2, if_pos h3]

/-- Joining does not shorten the buffer. -/
theorem joinRule_length_le (B C : List Char) : B.length ≤ (joinRule B C).length := by
  unfold joinRule
  split_ifs <;> simp

/-- Joining several components does not shorten the buffer. -/
theorem foldl_joinRule_length_le (cs : List (List Char)) :
    ∀ B : List Char, B.length ≤ (List.foldl joinRule B cs).length := by
  induction cs with
  | nil => intro B; exact Nat.le_refl _
  | cons c cs ih =>
    intro B
    exact Nat.le_trans (joinRule_length_le B c) (ih (joinRule B c))

/-- One turn of the loop of `ConcatPathsV` on a component that is not `NULL`,
with room for the result: the buffer becomes the join of its content with the
component. -/
theorem ConcatPathsVLoop_cons (cchPathSize : Nat) (C : List Char)
    (rest : List (Option (List Char))) (Status : NTSTATUS) (B : List Char)
    (hfit : (joinRule B C).length < cchPathSize) (hmax : cchPathSize ≤ NTSTRSAFE_MAX_CCH) :
    ConcatPathsVLoop cchPathSize (some C :: rest) Status B =
      ConcatPathsVLoop cchPathSize rest STATUS_SUCCESS (joinRule B C) := by
  have hB : B.length < cchPathSize := Nat.lt_of_le_of_lt (joinRule_length_le B C) hfit
  have hmin : min cchPathSize B.length = B.length := Nat.min_eq_right (Nat.le_of_lt hB)
  have hlt : ¬ cchPathSize ≤ B.length := by omega
  have hok : NT_SUCCESS STATUS_SUCCESS = true := by decide
  rw [ConcatPathsVLoop]
  simp only [hmin, if_neg hlt]
  by_cases hB0 : B = []
  · subst hB0
    have hj : joinRule [] C = [] ++ C := by simp [joinRule]
    rw [hj] at hfit ⊢
    simp [RtlStringCchCatW_fit [] C cchPathSize (by simpa using hfit) hmax, hok]
  · have hpos : 0 < B.length := List.length_pos.mpr hB0
    by_cases hC : C.head? = some OBJ_NAME_PATH_SEPARATOR
    · have hC2 := (wcAt_zero_eq_sep C).mpr hC
      by_cases hL : B.getLast? = some OBJ_NAME_PATH_SEPARATOR
      · have hL2 := (wcAt_last_eq_sep B hB0).mpr hL
        have hj : joinRule B C =
            B ++ C.dropWhile (fun c => decide (c = OBJ_NAME_PATH_SEPARATOR)) := by
          simp [joinRule, hB0, hL, hC]
        rw [hj] at hfit ⊢
        rw [List.length_append] at hfit
        simp [hC2, hL2, hpos, skipSeparators_eq,
          RtlStringCchCatW_fit B _ cchPathSize hfit hmax, hok]
      · have hL2 : ¬ wcAt B (B.length - 1) = OBJ_NAME_PATH_SEPARATOR :=
          fun h => hL ((wcAt_last_eq_sep B hB0).mp h)
        have hj : joinRule B C = B ++ C := by simp [joinRule, hB0, hL, hC]
        rw [hj] at hfit ⊢
        rw [List.length_append] at hfit
        simp [hC2, hL2, hpos, RtlStringCchCatW_fit B C cchPathSize hfit hmax, hok]
    · have hC2 : ¬ wcAt C 0 = OBJ_NAME_PATH_SEPARATOR :=
        fun h => hC ((wcAt_zero_eq_sep C).mp h)
      by_cases hL : B.getLast? = some OBJ_NAME_PATH_SEPARATOR
      · have hL2 := (wcAt_last_eq_sep B hB0).mpr hL
        have hj : joinRule B C = B ++ C := by simp [joinRule, hB0, hL, hC]
        rw [hj] at hfit ⊢
        rw [List.length_append] at hfit
        simp [hC2, hL2, hpos, RtlStringCchCatW_fit B C cchPathSize hfit hmax, hok]
      · have hL2 : ¬ wcAt B (B.length - 1) = OBJ_NAME_PATH_SEPARATOR :=
          fun h => hL ((wcAt_last_eq_sep B hB0).mp h)
        have hj : joinRule B C = B ++ [OBJ_NAME_PATH_SEPARATOR] ++ C := by
          simp [joinRule, hB0, hL, hC]
        rw [hj] at hfit ⊢
        simp only [List.length_append, List.length_singleton] at hfit
        have h1 := RtlStringCchCatW_fit B [OBJ_NAME_PATH_SEPARATOR] cchPathSize
          (by simp; omega) hmax
        have h2 := RtlStringCchCatW_fit (B ++ [OBJ_NAME_PATH_SEPARATOR]) C cchPathSize
          (by simp; omega) hmax
        simp [hC2, hL2, hpos, h1, h2, hok]

/-- With room for the whole result the loop of `ConcatPathsV` joins the
components that are not `NULL`, from left to right. -/
theorem ConcatPathsVLoop_join (cchPathSize : Nat) (hmax : cchPathSize ≤ NTSTRSAFE_MAX_CCH) :
    ∀ (comps : List (Option (List Char))) (B : List Char),
      (List.foldl joinRule B (comps.filterMap id)).length < cchPathSize →
      ConcatPathsVLoop cchPathSize comps STATUS_SUCCESS B =
        (STATUS_SUCCESS, List.foldl joinRule B (comps.filterMap id)) := by
  intro comps
  induction comps with
  | nil => intro B _; rfl
  | cons c comps ih =>
    intro B hfit
    cases c with
    | none =>
      rw [ConcatPathsVLoop]
      exact ih B (by simpa using hfit)
    | some C =>
      have hfit2 : (List.foldl joinRule (joinRule B C) (comps.filterMap id)).length
          < cchPathSize := by simpa using hfit
      have hstep : (joinRule B C).length < cchPathSize :=
        Nat.lt_of_le_of_lt (foldl_joinRule_length_le _ _) hfit2
      rw [ConcatPathsVLoop_cons cchPathSize C comps STATUS_SUCCESS B hstep hmax]
      simpa using ih (joinRule B C) hfit2

/-- C23: for a buffer content `B`, a list of components in which `none` is a
`NULL` component, and a capacity `cchPathSize` (at most `NTSTRSAFE_MAX_CCH`)
with room for the result and its terminator, `ConcatPathsV` returns
`STATUS_SUCCESS` and leaves the buffer equal to the components that are not
`NULL` joined to `B` from left to right by the rule `joinRule`: a separator
is put between a buffer that is not empty and does not end with one and a
component that does not start with one; the leading separators of the
component are dropped when the buffer ends with one and the component starts
with one; otherwise the component is appended as it is.  For the single
component `C` the list is `[some C]` and the result is `joinRule B C`. -/
theorem ConcatPathsV_join (B : List Char) (cchPathSize : Nat)
    (comps : List (Option (List Char)))
    (hfit : (List.foldl joinRule B (comps.filterMap id)).length < cchPathSize)
    (hmax : cchPathSize ≤ NTSTRSAFE_MAX_CCH) :
    ConcatPathsV B cchPathSize comps =
      (STATUS_SUCCESS, List.foldl joinRule B (comps.filterMap id)) := by
  have h1 : ¬ cchPathSize < 1 := by omega
  simp only [ConcatPathsV, if_neg h1]
  exact ConcatPathsVLoop_join cchPathSize hmax comps B hfit

/-- The three cases of the rule and a `NULL` component, in a buffer of
sixteen characters. -/
theorem ConcatPathsV_join_witness :
    ConcatPathsV ['a'] 16 [some ['b'], none, some ['\\', 'c']] =
        (STATUS_SUCCESS, ['a', '\\', 'b', '\\', 'c']) ∧
      ConcatPathsV ['a', '\\'] 16 [some ['\\', '\\', 'b']] =
        (STATUS_SUCCESS, ['a', '\\', 'b']) :=
  ⟨ConcatPathsV_join ['a'] 16 [some ['b'], none, some ['\\', 'c']] (by decide) (by decide),
    ConcatPathsV_join ['a', '\\'] 16 [some ['\\', '\\', 'b']] (by decide) (by decide)⟩

/-- C23, as stated, fails above `NTSTRSAFE_MAX_CCH`: with the content `a`,
the component `b` and a capacity of `2147483648` characters, which has room
for the result `a\b`, `RtlStringCchCatW` refuses the capacity and
`ConcatPathsV` returns `STATUS_INVALID_PARAMETER` with the buffer as it
was. -/
theorem ConcatPathsV_capacity_counterexample :
    (joinRule ['a'] ['b']).length < 2147483648 ∧
      joinRule ['a'] ['b'] = ['a', '\\', 'b'] ∧
      ConcatPathsV ['a'] 2147483648 [some ['b']] = (STATUS_INVALID_PARAMETER, ['a']) ∧
      ConcatPathsV ['a'] 2147483648 [some ['b']] ≠
        (STATUS_SUCCESS, joinRule ['a'] ['b']) := by
  decide

/-! ## Parsing of a hard disk path -/

/-- Only the separator is lowered to the separator. -/
theorem towlower_eq_sep {c : Char} (h : towlower c = OBJ_NAME_PATH_SEPARATOR) :
    c = OBJ_NAME_PATH_SEPARATOR := by
  unfold towlower Char.toLower OBJ_NAME_PATH_SEPARATOR at h
  simp only at h
  split at h
  · rename_i hc
    obtain ⟨h1, h2⟩ := hc
    generalize c.toNat = n at h h1 h2
    exfalso
    interval_cases n <;> exact absurd h (by decide)
  · exact h

/-- Reading past a first part of a string reads in the rest. -/
theorem wcAt_append_right (a b : List Char) (i : Nat) :
    wcAt (a ++ b) (a.length + i) = wcAt b i := by
  simp [wcAt, List.getD_eq_getElem?_getD, List.getElem?_append_right]

/-- The character at the end of a first part is the first of the rest. -/
theorem wcAt_append_length (a b : List Char) : wcAt (a ++ b) a.length = wcAt b 0 := by
  simpa using wcAt_append_right a b 0

/-- A string that starts with a text equal to the pattern up to case compares
equal to the pattern over the length of that text. -/
theorem wcsnicmpEq_append :
    ∀ (p pat tail : List Char), p.map towlower = pat.map towlower →
      wcsnicmpEq (p ++ tail) pat p.length = true := by
  intro p
  induction p with
  | nil => intro pat tail _; rfl
  | cons c cs ih =>
    intro pat tail h
    cases pat with
    | nil => simp at h
    | cons d ds =>
      simp only [List.map_cons, List.cons.injEq] at h
      obtain ⟨hcd, hrest⟩ := h
      have hrec := ih ds tail hrest
      simp only [List.cons_append, List.length_cons, wcsnicmpEq, wcAt, List.getD_cons_zero,
        List.tail_cons, hcd, ne_eq, not_true_eq_false, if_false, hrec]
      split_ifs <;> rfl

/-- The digits `wcstoul` reads are the leading digits of the string. -/
theorem takeWhile_digits (dx r : List Char) (hd : ∀ c ∈ dx, iswdigit c = true)
    (hr : iswdigit (wcAt r 0) = false) : (dx ++ r).takeWhile iswdigit = dx := by
  induction dx with
  | nil =>
    cases r with
    | nil => rfl
    | cons c cs =>
      have hc : iswdigit c = false := by simpa [wcAt] using hr
      simp [List.takeWhile, hc]
  | cons d ds ih =>
    have hd1 : iswdigit d = true := hd d (List.mem_cons_self _ _)
    have ih2 := ih (fun c hc => hd c (List.mem_cons_of_mem _ hc))
    simp [List.takeWhile, hd1, ih2]

/-- On digits that fit a `ULONG`, followed by a character that is no digit,
`wcstoul` returns their value and stops after them. -/
theorem wcstoul_digits (dx r : List Char) (hd : ∀ c ∈ dx, iswdigit c = true)
    (hX : decimalValue dx ≤ ULONG_MAX) (hr : iswdigit (wcAt r 0) = false) :
    wcstoul (dx ++ r) = (decimalValue dx, dx.length) := by
  simp only [wcstoul, takeWhile_digits dx r hd hr, Nat.min_eq_left hX]

/-- A string of digits that is not empty starts with a digit, whatever
follows it. -/
theorem iswdigit_head (dx r : List Char) (hne : dx ≠ [])
    (hd : ∀ c ∈ dx, iswdigit c = true) : iswdigit (wcAt (dx ++ r) 0) = true := by
  cases dx with
  | nil => exact absurd rfl hne
  | cons d ds => simpa [wcAt] using hd d (List.mem_cons_self _ _)

/-- On a path made of a text equal to `\Device\Harddisk` up to case, a string
of digits `dx`, a text equal to `\Partition` up to case, a string of digits
`dy` and a `rest` that is empty or begins with a path separator, the function
returns `TRUE`, what `wcstoul` reads from `dx` and from `dy`, and the offset
of `rest`. -/
theorem NtPathToDiskPartComponents_digits (pfx dx part dy rest : List Char)
    (wantPath : Bool)
    (hpfx : pfx.map towlower = DeviceHarddisk.map towlower)
    (hdx : dx ≠ []) (hdxd : ∀ c ∈ dx, iswdigit c = true)
    (hX : decimalValue dx ≤ ULONG_MAX)
    (hpart : part.map towlower = Partition.map towlower)
    (hdy : dy ≠ []) (hdyd : ∀ c ∈ dy, iswdigit c = true)
    (hY : decimalValue dy ≤ ULONG_MAX)
    (hrest : rest = [] ∨ rest.head? = some OBJ_NAME_PATH_SEPARATOR) :
    NtPathToDiskPartComponents (pfx ++ (dx ++ (part ++ (dy ++ rest)))) wantPath =
        ⟨true, decimalValue dx, decimalValue dy,
          if wantPath then some (16 + dx.length + 10 + dy.length) else none⟩ ∧
      (pfx ++ (dx ++ (part ++ (dy ++ rest)))).drop (16 + dx.length + 10 + dy.length) =
        rest := by
  have hpl : pfx.length = 16 := by
    have := congrArg List.length hpfx
    simpa [DeviceHarddisk] using this
  have hpartl : part.length = 10 := by
    have := congrArg List.length hpart
    simpa [Partition] using this
  -- the prefix
  have h1 : wcsnicmpEq (pfx ++ (dx ++ (part ++ (dy ++ rest)))) DeviceHarddisk 16 = true := by
    rw [← hpl]; exact wcsnicmpEq_append pfx DeviceHarddisk _ hpfx
  -- the separator that starts the partition specifier
  have hsep : wcAt (part ++ (dy ++ rest)) 0 = OBJ_NAME_PATH_SEPARATOR := by
    cases part with
    | nil => simp at hpartl
    | cons c cs =>
      have hc : towlower c = OBJ_NAME_PATH_SEPARATOR := by
        have := hpart
        simp only [Partition, List.map_cons, List.cons.injEq] at this
        rw [this.1]; decide
      simp [wcAt, towlower_eq_sep hc]
  have hsepd : iswdigit (wcAt (part ++ (dy ++ rest)) 0) = false := by rw [hsep]; decide
  have hsep0 : wcAt (part ++ (dy ++ rest)) 0 ≠ Char.ofNat 0 := by rw [hsep]; decide
  -- what follows the partition number
  have hend : wcAt rest 0 = Char.ofNat 0 ∨ wcAt rest 0 = OBJ_NAME_PATH_SEPARATOR := by
    rcases hrest with h | h
    · left; subst h; rfl
    · right; exact (wcAt_zero_eq_sep rest).mpr h
  have hendd : iswdigit (wcAt rest 0) = false := by
    rcases hend with h | h <;> rw [h] <;> decide
  -- the disk number
  have h2 : wcAt (pfx ++ (dx ++ (part ++ (dy ++ rest)))) 16 =
      wcAt (dx ++ (part ++ (dy ++ rest))) 0 := by
    rw [← hpl]; exact wcAt_append_length _ _
  have h2d := iswdigit_head dx (part ++ (dy ++ rest)) hdx hdxd
  have h3 : (pfx ++ (dx ++ (part ++ (dy ++ rest)))).drop 16 =
      dx ++ (part ++ (dy ++ rest)) := by
    rw [← hpl]; exact List.drop_left _ _
  have h3w := wcstoul_digits dx (part ++ (dy ++ rest)) hdxd hX hsepd
  -- the partition specifier
  have h4 : wcAt (pfx ++ (dx ++ (part ++ (dy ++ rest)))) (16 + dx.length) =
      wcAt (part ++ (dy ++ rest)) 0 := by
    rw [← hpl, wcAt_append_right]; exact wcAt_append_length _ _
  have h5 : (pfx ++ (dx ++ (part ++ (dy ++ rest)))).drop (16 + dx.length) =
      part ++ (dy ++ rest) := by
    rw [← hpl, ← List.append_assoc, ← List.length_append]; exact List.drop_left _ _
  have h5c : wcsnicmpEq (part ++ (dy ++ rest)) Partition 10 = true := by
    rw [← hpartl]; exact wcsnicmpEq_append part Partition _ hpart
  have h6 : wcAt (pfx ++ (dx ++ (part ++ (dy ++ rest)))) (16 + dx.length + 10) =
      wcAt (dy ++ rest) 0 := by
    rw [← hpl, Nat.add_assoc, wcAt_append_right, wcAt_append_right, ← hpartl]
    exact wcAt_append_length _ _
  have h6d := iswdigit_head dy rest hdy hdyd
  have h7 : (pfx ++ (dx ++ (part ++ (dy ++ rest)))).drop (16 + dx.length + 10) =
      dy ++ rest := by
    rw [← hpl, ← hpartl, ← List.append_assoc, ← List.append_assoc, ← List.length_append,
      ← List.length_append]
    exact List.drop_left _ _
  have h7w := wcstoul_digits dy rest hdyd hY hendd
  have h8 : wcAt (pfx ++ (dx ++ (part ++ (dy ++ rest)))) (16 + dx.length + 10 + dy.length) =
      wcAt rest 0 := by
    rw [← hpl, Nat.add_assoc, Nat.add_assoc, wcAt_append_right, wcAt_append_right, ← hpartl,
      wcAt_append_right]
    exact wcAt_append_length _ _
  have h9 : (pfx ++ (dx ++ (part ++ (dy ++ rest)))).drop (16 + dx.length + 10 + dy.length) =
      rest := by
    rw [← hpl, ← hpartl, ← List.append_assoc, ← List.append_assoc, ← List.append_assoc,
      ← List.length_append, ← List.length_append, ← List.length_append]
    exact List.drop_left _ _
  refine ⟨?_, h9⟩
  simp only [NtPathToDiskPartComponents, h1, h2, h2d, h3, h3w, h4, h5, h5c, h6, h6d, h7, h7w,
    h8, hsep, quit]
  have hne : ¬ Char.ofNat 0 = '\\' := by decide
  rcases hend with h | h
  · simp [h, OBJ_NAME_PATH_SEPARATOR, hne]
  · rw [OBJ_NAME_PATH_SEPARATOR] at h
    simp [h, OBJ_NAME_PATH_SEPARATOR]

/-- The character of a decimal digit is a digit and has the digit as value. -/
theorem digitChar_digit (k : Nat) (hk : k < 10) :
    iswdigit (Nat.digitChar k) = true ∧ (Nat.digitChar k).toNat - 48 = k := by
  interval_cases k <;> exact ⟨by decide, by decide⟩

/-- The printing loop of `Nat.toDigits` puts the digits in front of what it
was given. -/
theorem toDigitsCore_append (b : Nat) :
    ∀ (fuel n : Nat) (ds : List Char),
      Nat.toDigitsCore b fuel n ds = Nat.toDigitsCore b fuel n [] ++ ds := by
  intro fuel
  induction fuel with
  | zero => intro n ds; rfl
  | succ f ih =>
    intro n ds
    simp only [Nat.toDigitsCore]
    split_ifs with h
    · rfl
    · rw [ih (n / b) (Nat.digitChar (n % b) :: ds), ih (n / b) [Nat.digitChar (n % b)]]
      simp

/-- The value `wcstoul` computes from a string followed by one more digit. -/
theorem decimalValue_append_singleton (ds : List Char) (c : Char) :
    decimalValue (ds ++ [c]) = 10 * decimalValue ds + (c.toNat - 48) := by
  simp [decimalValue, List.foldl_append]

/-- Leading zeros do not change the value `wcstoul` computes. -/
theorem decimalValue_zeros (z : Nat) (ds : List Char) :
    decimalValue (List.replicate z '0' ++ ds) = decimalValue ds := by
  induction z with
  | zero => rfl
  | succ z ih =>
    have h0 : ('0' : Char).toNat - 48 = 0 := by decide
    simp only [decimalValue, List.replicate_succ, List.cons_append, List.foldl_cons, h0] at ih ⊢
    exact ih

/-- The value `wcstoul` computes from the decimal digits printed for `n` is
`n`, and all of them are digits. -/
theorem toDigitsCore_value :
    ∀ (fuel n : Nat), n < fuel →
      decimalValue (Nat.toDigitsCore 10 fuel n []) = n ∧
        (∀ c ∈ Nat.toDigitsCore 10 fuel n [], iswdigit c = true) ∧
        Nat.toDigitsCore 10 fuel n [] ≠ [] := by
  intro fuel
  induction fuel with
  | zero => intro n h; omega
  | succ f ih =>
    intro n hn
    have hk : n % 10 < 10 := Nat.mod_lt _ (by decide)
    obtain ⟨hd1, hd2⟩ := digitChar_digit (n % 10) hk
    simp only [Nat.toDigitsCore]
    split_ifs with h
    · refine ⟨?_, ?_, by simp⟩
      · have : decimalValue [Nat.digitChar (n % 10)] = (Nat.digitChar (n % 10)).toNat - 48 := by
          simp [decimalValue]
        rw [this, hd2]; omega
      · intro c hc
        have hc2 : c = Nat.digitChar (n % 10) := by simpa using hc
        rw [hc2]; exact hd1
    · obtain ⟨iv, id, _⟩ := ih (n / 10) (by omega)
      rw [toDigitsCore_append 10 f (n / 10) [Nat.digitChar (n % 10)]]
      refine ⟨?_, ?_, by simp⟩
      · rw [decimalValue_append_singleton, iv, hd2]; omega
      · intro c hc
        rcases List.mem_append.mp hc with hc1 | hc1
        · exact id c hc1
        · have hc2 : c = Nat.digitChar (n % 10) := by simpa using hc1
          rw [hc2]; exact hd1

/-- A number printed in decimal, with leading zeros or without, is a string
of digits that is not empty, from which `wcstoul` computes the number. -/
theorem decimalValue_toDigits (z n : Nat) :
    decimalValue (List.replicate z '0' ++ Nat.toDigits 10 n) = n ∧
      (∀ c ∈ List.replicate z '0' ++ Nat.toDigits 10 n, iswdigit c = true) ∧
      List.replicate z '0' ++ Nat.toDigits 10 n ≠ [] := by
  obtain ⟨hv, hd, hne⟩ := toDigitsCore_value (n + 1) n (Nat.lt_succ_self n)
  refine ⟨?_, ?_, ?_⟩
  · rw [decimalValue_zeros]; exact hv
  · intro c hc
    rcases List.mem_append.mp hc with hc1 | hc1
    · have hc2 : c = '0' := (List.mem_replicate.mp hc1).2
      rw [hc2]; decide
    · exact hd c hc1
  · intro h
    exact hne (List.append_eq_nil.mp h).2

/-- C21: for every disk number `X` and partition number `Y` that fit a
`ULONG`, each written in decimal (`Nat.toDigits 10`, after `zx` and `zy`
leading zeros), a text `pfx` equal to `\Device\Harddisk` up to case, a text
`part` equal to `\Partition` up to case, and a `rest` that is empty or begins
with a path separator, `NtPathToDiskPartComponents` applied to
`pfx X part Y rest` returns `TRUE` with disk number `X`, partition number
`Y`, and, when asked for it, a path component that points at `rest` inside
the path. -/
theorem NtPathToDiskPartComponents_wellformed (X Y zx zy : Nat)
    (pfx part rest : List Char) (wantPath : Bool)
    (hpfx : pfx.map towlower = DeviceHarddisk.map towlower)
    (hX : X ≤ ULONG_MAX)
    (hpart : part.map towlower = Partition.map towlower)
    (hY : Y ≤ ULONG_MAX)
    (hrest : rest = [] ∨ rest.head? = some OBJ_NAME_PATH_SEPARATOR) :
    NtPathToDiskPartComponents
        (pfx ++ ((List.replicate zx '0' ++ Nat.toDigits 10 X) ++
          (part ++ ((List.replicate zy '0' ++ Nat.toDigits 10 Y) ++ rest)))) wantPath =
        ⟨true, X, Y,
          if wantPath then
            some (16 + (List.replicate zx '0' ++ Nat.toDigits 10 X).length + 10 +
              (List.replicate zy '0' ++ Nat.toDigits 10 Y).length)
          else none⟩ ∧
      (pfx ++ ((List.replicate zx '0' ++ Nat.toDigits 10 X) ++
          (part ++ ((List.replicate zy '0' ++ Nat.toDigits 10 Y) ++ rest)))).drop
          (16 + (List.replicate zx '0' ++ Nat.toDigits 10 X).length + 10 +
            (List.replicate zy '0' ++ Nat.toDigits 10 Y).length) = rest := by
  obtain ⟨hxv, hxd, hxne⟩ := decimalValue_toDigits zx X
  obtain ⟨hyv, hyd, hyne⟩ := decimalValue_toDigits zy Y
  have h := NtPathToDiskPartComponents_digits pfx
    (List.replicate zx '0' ++ Nat.toDigits 10 X) part
    (List.replicate zy '0' ++ Nat.toDigits 10 Y) rest wantPath hpfx hxne hxd
    (by rw [hxv]; exact hX) hpart hyne hyd (by rw [hyv]; exact hY) hrest
  rw [hxv, hyv] at h
  exact h

/-- The path `\device\HARDDISK12\PARTITION03\x` gives disk `12`, partition
`3` and the path component `\x` at offset `30`. -/
theorem NtPathToDiskPartComponents_wellformed_witness :
    NtPathToDiskPartComponents
        (['\\', 'd', 'e', 'v', 'i', 'c', 'e', '\\', 'H', 'A', 'R', 'D', 'D', 'I', 'S', 'K'] ++
          (['1', '2'] ++ (['\\', 'P', 'A', 'R', 'T', 'I', 'T', 'I', 'O', 'N'] ++
            (['0', '3'] ++ ['\\', 'x'])))) true =
        ⟨true, 12, 3, some 30⟩ ∧
      (['\\', 'd', 'e', 'v', 'i', 'c', 'e', '\\', 'H', 'A', 'R', 'D', 'D', 'I', 'S', 'K'] ++
          (['1', '2'] ++ (['\\', 'P', 'A', 'R', 'T', 'I', 'T', 'I', 'O', 'N'] ++
            (['0', '3'] ++ ['\\', 'x'])))).drop 30 = ['\\', 'x'] :=
  NtPathToDiskPartComponents_wellformed 12 3 0 1
    ['\\', 'd', 'e', 'v', 'i', 'c', 'e', '\\', 'H', 'A', 'R', 'D', 'D', 'I', 'S', 'K']
    ['\\', 'P', 'A', 'R', 'T', 'I', 'T', 'I', 'O', 'N'] ['\\', 'x'] true
    (by decide) (by decide) (by decide) (by decide) (by decide)

/-- C22: on `\Device\Harddisk0\PartitionFoo` the function returns `TRUE` with
partition number `0` and a path component at offset `27`, the text `Foo`:
that text is not empty, does not begin with a path separator and is not the
whole text `\PartitionFoo` that follows the disk number (offset `17`).  On
`\Device\Harddisk0\Partition1x` it returns `TRUE` with partition number `0`
and the path component `x` at offset `28`.  The pointer is advanced past
`\Partition`, and past the digits, before the checks that leave through
`Quit`. -/
theorem NtPathToDiskPartComponents_partition_text :
    NtPathToDiskPartComponents samplePath true = ⟨true, 0, 0, some 27⟩ ∧
      samplePath.drop 27 = ['F', 'o', 'o'] ∧
      samplePath.drop 17 = Partition ++ ['F', 'o', 'o'] ∧
      NtPathToDiskPartComponents (DeviceHarddisk ++ ['0'] ++ Partition ++ ['1', 'x']) true =
        ⟨true, 0, 0, some 28⟩ ∧
      (DeviceHarddisk ++ ['0'] ++ Partition ++ ['1', 'x']).drop 28 = ['x'] := by
  decide

end SetupLib
